import Mathlib

/-!
# imgcomp stepper controller (`run_stepper.c`): model and verified properties

A shallow embedding of the motor routine `DoMotor`, of `Init`, and of one iteration of the
control loop of `RunStepping`, followed by theorems about them.

Conventions of the embedding.

* A C `int` is an `Int`; every arithmetic result that the C code stores in an `int` goes
  through `wrap32` (two's complement, 32 bits).
* `RampUp` is a `static const char` table.  The program is written for the Raspberry Pi
  (ARM Linux), where plain `char` is unsigned, so the table holds 25..128 as written and a
  byte read is a value in 0..255.
* A read of `RampUp` at an index outside 0..28 is a read of whatever byte lies there; it is
  given by a parameter `oob : Int → Nat` (taken modulo 256).
* The memory-mapped registers `GPIO_SET` and `GPIO_CLR` are write-only effects; a call
  returns the list of writes it made, in order.
* `printf` output is not modelled.
-/

namespace Stepper

/-! ## Machine integers -/

/-- Two's complement reduction of an integer to the range of a 32-bit C `int`. -/
def wrap32 (x : Int) : Int := (x + 2147483648) % 4294967296 - 2147483648

/-- Range of a 32-bit C `int`. -/
def isInt32 (x : Int) : Prop := -2147483648 ≤ x ∧ x < 2147483648

instance (x : Int) : Decidable (isInt32 x) := by unfold isInt32; infer_instance

/-! ## Constants and the ramp table (`run_stepper.c` lines 20-27, 119-121) -/

def SHOT_DRAW_STEPS : Int := 875
def SHOT_DRAW_DELAY : Int := 150
def NUM_RAMP_STEPS : Int := 29

/-- The table `RampUp[NUM_RAMP_STEPS]`. -/
def RampUp : List Int :=
  [25,30,35,40,45,50,55,60,65,70,75,80,85,90,95,100,103,106,108,110,112,114,116,118,120,
   122,124,126,128]

/-- The expression `RampUp[i]`: the table entry when `i` is inside the table, otherwise the
byte found outside it. -/
def rampRead (oob : Int → Nat) (i : Int) : Int :=
  if 0 ≤ i ∧ i < NUM_RAMP_STEPS then RampUp.getD i.toNat 0 else ((oob i % 256 : Nat) : Int)

/-! ## Axis state (`stepper_t`, lines 123-139) -/

structure stepper_t where
  Pos : Int
  Target : Int
  Speed : Int
  Dir : Int
  CountDown : Int
  Wait : Int
  RampIndex : Int
  RampStretch : Int
  MaxSpeed : Int
  ENABLE : Nat
  DIR : Nat
  CLOCK : Nat
  deriving DecidableEq

/-- A write to one of the two GPIO registers: `GPIO_SET = mask` or `GPIO_CLR = mask`. -/
inductive GpioWrite where
  | set (mask : Nat)
  | clr (mask : Nat)
  deriving DecidableEq

/-! ## `DoMotor` (lines 214-276) -/

/-- What one call of `DoMotor` does: the axis it leaves, the GPIO writes it made and the
indices at which it read `RampUp`, both in program order. -/
structure Outcome where
  motor : stepper_t
  gpio : List GpioWrite
  reads : List Int

/-- The value `ToGo` computed at line 221. -/
def toGo (m : stepper_t) : Int := wrap32 (m.Target - m.Pos)

/-- The value `ToGoAbs` computed at lines 226-227. -/
def toGoAbs (m : stepper_t) : Int := if toGo m < 0 then wrap32 (-toGo m) else toGo m

/-- Lines 242 and 244: `CountDown -= Speed` and `Pos += Dir`. -/
def stepped (m : stepper_t) : stepper_t :=
  { m with CountDown := wrap32 (m.CountDown - m.Speed), Pos := wrap32 (m.Pos + m.Dir) }

/-- Lines 247-248: advance `RampIndex` and, inside the ramp, take the speed from the table.
Returns the axis and the indices of the table reads made. -/
def rampUpStep (oob : Int → Nat) (m : stepper_t) : stepper_t × List Int :=
  if wrap32 (m.RampIndex + 1) < wrap32 (NUM_RAMP_STEPS * m.RampStretch) then
    ({ m with RampIndex := wrap32 (m.RampIndex + 1),
              Speed := rampRead oob (Int.tdiv (wrap32 (m.RampIndex + 1)) m.RampStretch) },
     [Int.tdiv (wrap32 (m.RampIndex + 1)) m.RampStretch])
  else
    ({ m with RampIndex := wrap32 (m.RampIndex + 1) }, [])

/-- Lines 249-252: ramp down if getting close. -/
def rampDownStep (oob : Int → Nat) (m : stepper_t) (ToGo ToGoAbs : Int) :
    stepper_t × List Int :=
  if ToGoAbs < wrap32 (NUM_RAMP_STEPS * m.RampStretch) then
    if rampRead oob ToGo < m.Speed then
      ({ m with Speed := rampRead oob (Int.tdiv ToGoAbs m.RampStretch) },
       [ToGo, Int.tdiv ToGoAbs m.RampStretch])
    else (m, [ToGo])
  else (m, [])

/-- Line 253: the cap on the speed. -/
def clampSpeed (m : stepper_t) : stepper_t :=
  if m.Speed > m.MaxSpeed then { m with Speed := m.MaxSpeed } else m

/-- The ramp computation of a completed step (lines 247-253), given `ToGo` and `ToGoAbs` as
computed at the top of the call. -/
def newSpeed (oob : Int → Nat) (m : stepper_t) (ToGo ToGoAbs : Int) : stepper_t × List Int :=
  (clampSpeed (rampDownStep oob (rampUpStep oob m).1 ToGo ToGoAbs).1,
   (rampUpStep oob m).2 ++ (rampDownStep oob (rampUpStep oob m).1 ToGo ToGoAbs).2)

/-- Lines 244-262: a clock cycle is complete. -/
def stepDone (oob : Int → Nat) (motor : stepper_t) : Outcome :=
  if (newSpeed oob (stepped motor) (toGo motor) (toGoAbs motor)).1.Pos ≠ motor.Target then
    -- Start the next step: 128 and above means clock high.
    ⟨{ (newSpeed oob (stepped motor) (toGo motor) (toGoAbs motor)).1 with
        CountDown := wrap32 (wrap32 (motor.CountDown - motor.Speed) + 256) },
     [GpioWrite.set motor.CLOCK],
     (newSpeed oob (stepped motor) (toGo motor) (toGoAbs motor)).2⟩
  else
    ⟨{ (newSpeed oob (stepped motor) (toGo motor) (toGoAbs motor)).1 with Wait := 20 }, [],
     (newSpeed oob (stepped motor) (toGo motor) (toGoAbs motor)).2⟩

/-- One call of `DoMotor`. -/
def DoMotor (oob : Int → Nat) (motor : stepper_t) : Outcome :=
  if motor.Wait ≠ 0 then
    ⟨{ motor with Wait := wrap32 (motor.Wait - 1) }, [], []⟩
  else if toGo motor ≠ 0 then
    if motor.Speed = 0 then
      -- Motor was not running.  Enable and set direction.
      ⟨{ motor with
          RampIndex := 0
          Speed := rampRead oob 0
          Dir := if toGo motor > 0 then 1 else -1
          CountDown := 127
          Wait := 1 },
       [GpioWrite.clr motor.ENABLE,
        if toGo motor > 0 then GpioWrite.set motor.DIR else GpioWrite.clr motor.DIR],
       [0]⟩
    else if wrap32 (motor.CountDown - motor.Speed) < 0 then
      stepDone oob motor
    else if wrap32 (motor.CountDown - motor.Speed) < 128 then
      -- 127 or below means clock low.
      ⟨{ motor with CountDown := wrap32 (motor.CountDown - motor.Speed) },
       [GpioWrite.clr motor.CLOCK], []⟩
    else
      ⟨{ motor with CountDown := wrap32 (motor.CountDown - motor.Speed) }, [], []⟩
  else if motor.Speed ≠ 0 then
    ⟨{ motor with Speed := 0 }, [], []⟩
  else
    ⟨motor, [], []⟩

/-- The axis after `n` consecutive calls of `DoMotor` with `Target` left alone. -/
def ticks (oob : Int → Nat) : Nat → stepper_t → stepper_t
  | 0, m => m
  | n + 1, m => ticks oob n (DoMotor oob m).motor

/-- An axis is quiescent when it is stopped and has no wait left. -/
def quiescent (m : stepper_t) : Prop := m.Speed = 0 ∧ m.Wait = 0

instance (m : stepper_t) : Decidable (quiescent m) := by unfold quiescent; infer_instance

/-- Checks a decidable property on the axis before each of the first `n` calls of `DoMotor`
and after the last: `P k` is applied to the axis after `k` calls. -/
def allTicks (oob : Int → Nat) (P : Nat → stepper_t → Bool) :
    Nat → Nat → stepper_t → Bool
  | 0, k, m => P k m
  | n + 1, k, m => P k m && allTicks oob P n (k + 1) (DoMotor oob m).motor

/-! ## `Init` (lines 281-326) -/

def STEP_ENA1 : Nat := 1 <<< 2
def STEP_DIR1 : Nat := 1 <<< 3
def STEP_CLK1 : Nat := 1 <<< 4
def STEP_ENA2 : Nat := 1 <<< 15
def STEP_DIR2 : Nat := 1 <<< 17
def STEP_CLK2 : Nat := 1 <<< 18
def STEP_ENA3 : Nat := 1 <<< 22
def STEP_DIR3 : Nat := 1 <<< 23
def STEP_CLK3 : Nat := 1 <<< 24

/-- An element of the global array `motors` before `Init`: static storage, all zero. -/
def zeroMotor : stepper_t := ⟨0, 0, 0, 0, 0, 0, 0, 0, 0, 0, 0, 0⟩

/-- The draw axis `motors[0]` as left by `Init`. -/
def InitDraw : stepper_t :=
  { zeroMotor with Pos := 0, Target := 0, ENABLE := STEP_ENA1, DIR := STEP_DIR1,
                   CLOCK := STEP_CLK1, MaxSpeed := 128, RampStretch := 1 }

/-- The tilt axis `motors[1]` as left by `Init`. -/
def InitTilt : stepper_t :=
  { zeroMotor with Pos := 0, Target := 0, ENABLE := STEP_ENA2, DIR := STEP_DIR2,
                   CLOCK := STEP_CLK2, MaxSpeed := 50, RampStretch := 10 }

/-- The turret axis `motors[2]` as left by `Init`. -/
def InitTurret : stepper_t :=
  { zeroMotor with Pos := 0, Target := 0, ENABLE := STEP_ENA3, DIR := STEP_DIR3,
                   CLOCK := STEP_CLK3, MaxSpeed := 100, RampStretch := 12 }

/-! ## One iteration of the loop of `RunStepping` (lines 352-485) -/

def HISTLEN : Nat := 6

/-- The variables of `RunStepping` that live across iterations, with the block-scope statics
`XHist`, `YHist`, `LastShotX`, `LastShotY` and the three elements of `motors`. -/
structure loop_t where
  motors0 : stepper_t
  motors1 : stepper_t
  motors2 : stepper_t
  numticks : Int
  last_fired : Int
  last_seen : Int
  GoHome : Int
  taking_shot : Int
  IsIdle : Int
  XHist : List Int
  YHist : List Int
  LastShotX : Int
  LastShotY : Int
  deriving DecidableEq

/-- What one iteration receives from outside: `time1`, the counter value at which the busy
wait ended, and what `CheckUdp` returns if it is called in this iteration (`none` when it
returns 0, otherwise the `xDeg` and `yDeg` it stores). -/
structure TickIn where
  time1 : Int
  udp : Option (Int × Int)
  deriving DecidableEq

/-- The state at the first iteration (lines 341-350): `last_seen` is not initialised by the
program and is a parameter here. -/
def RunSteppingInit (last_seen : Int) : loop_t :=
  { motors0 := InitDraw, motors1 := InitTilt, motors2 := InitTurret,
    numticks := 0, last_fired := 0, last_seen := last_seen, GoHome := 0,
    taking_shot := 0, IsIdle := 0,
    XHist := List.replicate HISTLEN 0, YHist := List.replicate HISTLEN 0,
    LastShotX := -1000, LastShotY := 0 }

/-- The test of lines 381-383. -/
def allIdle (L : loop_t) : Prop :=
  L.motors0.Speed = 0 ∧ L.motors0.Wait = 0 ∧ L.motors1.Speed = 0 ∧ L.motors1.Wait = 0
    ∧ L.motors2.Speed = 0

instance (L : loop_t) : Decidable (allIdle L) := by unfold allIdle; infer_instance

/-- The range computed by the history loop. -/
structure Range where
  XMin : Int
  XMax : Int
  YMin : Int
  YMax : Int
  deriving DecidableEq

/-- One pass of the body of the loop `for (a=1;a<HISTLEN;a++)` (lines 405-411). -/
def histStep (acc : Range × List Int × List Int) (a : Nat) : Range × List Int × List Int :=
  let r := acc.1
  let XHist := acc.2.1
  let YHist := acc.2.2
  let r := if XHist.getD a 0 < r.XMin then { r with XMin := XHist.getD a 0 } else r
  let r := if XHist.getD a 0 > r.XMax then { r with XMax := XHist.getD a 0 } else r
  let r := if YHist.getD a 0 < r.YMin then { r with YMin := YHist.getD a 0 } else r
  let r := if YHist.getD a 0 > r.YMax then { r with YMax := YHist.getD a 0 } else r
  (r, XHist.set (a - 1) (XHist.getD a 0), YHist.set (a - 1) (YHist.getD a 0))

/-- Lines 402-415: scroll the history, find the range, store the new entry. -/
def histScroll (xDeg yDeg : Int) (XHist YHist : List Int) : Range × List Int × List Int :=
  let acc := (List.range' 1 (HISTLEN - 1)).foldl histStep (⟨xDeg, xDeg, yDeg, yDeg⟩, XHist, YHist)
  (acc.1, acc.2.1.set (HISTLEN - 1) xDeg, acc.2.2.set (HISTLEN - 1) yDeg)

/-- The test of line 418: the target is staying put. -/
def stable (r : Range) : Prop := wrap32 (r.XMax - r.XMin) < 5 ∧ wrap32 (r.YMax - r.YMin) < 5

instance (r : Range) : Decidable (stable r) := by unfold stable; infer_instance

/-- The test of lines 421-422, which sets `OldLoc`. -/
def OldLoc (L : loop_t) (xDeg yDeg : Int) : Prop :=
  wrap32 (L.LastShotX - xDeg) < 3 ∧ wrap32 (L.LastShotX - xDeg) > -3 ∧
  wrap32 (L.LastShotY - yDeg) < 3 ∧ wrap32 (L.LastShotY - yDeg) > -3

instance (L : loop_t) (x y : Int) : Decidable (OldLoc L x y) := by
  unfold OldLoc; infer_instance

/-- The condition under which lines 428-433 run ("Shoot now!"). -/
def shootNow (time1 : Int) (r : Range) (xDeg yDeg : Int) (L : loop_t) : Prop :=
  stable r ∧ ¬ OldLoc L xDeg yDeg ∧ wrap32 (time1 - L.last_fired) > 8 * 1000000

instance (t : Int) (r : Range) (x y : Int) (L : loop_t) : Decidable (shootNow t r x y L) := by
  unfold shootNow; infer_instance

/-- Lines 418-435: the decision to fire, given the range found by the history loop. -/
def fireBlock (time1 : Int) (r : Range) (xDeg yDeg : Int) (L : loop_t) : loop_t :=
  if stable r then
    if ¬ OldLoc L xDeg yDeg ∧ wrap32 (time1 - L.last_fired) > 8 * 1000000 then
      { L with motors0 := { L.motors0 with Target := SHOT_DRAW_STEPS },
               taking_shot := SHOT_DRAW_DELAY,
               last_fired := time1,
               LastShotX := xDeg,
               LastShotY := yDeg }
    else L
  else L

/-- Lines 390-415: the coordinates become the targets of the turret and tilt axes and
enter the history. -/
def intakePrep (xDeg yDeg : Int) (L : loop_t) : loop_t :=
  { L with
    motors2 :=
      { L.motors2 with Target := Int.tdiv (wrap32 (wrap32 (wrap32 (-xDeg) * 972) * 4)) 1000 },
    motors1 := { L.motors1 with Target := Int.tdiv (wrap32 (yDeg * 3110)) 1000 },
    XHist := (histScroll xDeg yDeg L.XHist L.YHist).2.1,
    YHist := (histScroll xDeg yDeg L.XHist L.YHist).2.2 }

/-- Lines 390-450: what is done with a target returned by `CheckUdp`. -/
def intake (time1 xDeg yDeg : Int) (L : loop_t) : loop_t :=
  { fireBlock time1 (histScroll xDeg yDeg L.XHist L.YHist).1 xDeg yDeg (intakePrep xDeg yDeg L)
    with last_seen := time1, GoHome := 0 }

/-- Whether lines 457-459 ("Return home") run. -/
def homeNow (time1 : Int) (L : loop_t) : Prop :=
  wrap32 (time1 - L.last_seen) > 5000000 ∧ L.GoHome = 0

instance (t : Int) (L : loop_t) : Decidable (homeNow t L) := by unfold homeNow; infer_instance

/-- Lines 454-469: return home, later disable the motors. -/
def homing (time1 : Int) (L : loop_t) : loop_t × List GpioWrite :=
  if wrap32 (time1 - L.last_seen) > 5000000 then
    if L.GoHome = 0 then
      ({ L with motors2 := { L.motors2 with Target := 0 },
                motors1 := { L.motors1 with Target := 0 },
                GoHome := 1 }, [])
    else if wrap32 (time1 - L.last_seen) > 8000000 then
      (L, [GpioWrite.set (L.motors0.ENABLE ||| L.motors1.ENABLE ||| L.motors2.ENABLE)])
    else (L, [])
  else (L, [])

/-- Lines 471-480: the dwell with the band drawn, then the return of the draw axis. -/
def shotDwell (L : loop_t) : loop_t :=
  if L.taking_shot ≠ 0 then
    if L.motors0.Speed = 0 ∧ L.motors0.Wait = 0 then
      -- Draw motion is complete, now wait a bit to let cap drop.
      if wrap32 (L.taking_shot - 1) = 0 then
        -- Drawn back dwell period over, time to return.
        { L with taking_shot := wrap32 (L.taking_shot - 1),
                 motors0 := { L.motors0 with Target := 0 } }
      else { L with taking_shot := wrap32 (L.taking_shot - 1) }
    else L
  else L

/-- Lines 366-378: the three calls of `DoMotor` and the tick counter. -/
def motorPhase (oob : Int → Nat) (time1 : Int) (L : loop_t) : loop_t × List GpioWrite :=
  let o0 := DoMotor oob L.motors0
  let o1 := DoMotor oob L.motors1
  let o2 := DoMotor oob L.motors2
  let L := { L with motors0 := o0.motor, motors1 := o1.motor, motors2 := o2.motor }
  let L := if L.numticks = 0 then { L with last_fired := time1 } else L
  ({ L with numticks := wrap32 (L.numticks + 1) }, o0.gpio ++ o1.gpio ++ o2.gpio)

/-- Lines 384-480: what is done when all motions are complete. -/
def idlePhase (inp : TickIn) (L : loop_t) : loop_t × List GpioWrite :=
  let L := { L with IsIdle := 1 }
  let L := match inp.udp with
    | some (xDeg, yDeg) => intake inp.time1 xDeg yDeg L
    | none => L
  let hg := homing inp.time1 L
  (shotDwell hg.1, hg.2)

/-- One iteration of the outer `for(;;)` of `RunStepping`, after the busy wait. -/
def loopBody (oob : Int → Nat) (inp : TickIn) (L : loop_t) : loop_t × List GpioWrite :=
  let mp := motorPhase oob inp.time1 L
  if allIdle mp.1 then
    let ip := idlePhase inp mp.1
    (ip.1, mp.2 ++ ip.2)
  else
    ({ mp.1 with IsIdle := 0 }, mp.2)

/-- The state after the iterations fed with `ins`, in order. -/
def runLoop (oob : Int → Nat) : List TickIn → loop_t → loop_t
  | [], L => L
  | inp :: ins, L => runLoop oob ins (loopBody oob inp L).1

/-! ## Predicates used in the statements -/

/-- The axis is at its target, stopped, with no wait left. -/
def settled (m : stepper_t) : Prop := m.Pos = m.Target ∧ m.Speed = 0 ∧ m.Wait = 0

instance (m : stepper_t) : Decidable (settled m) := by unfold settled; infer_instance

/-- The position `p` lies between 0 and `T` inclusive. -/
def between0 (T p : Int) : Prop := (0 ≤ p ∧ p ≤ T) ∨ (T ≤ p ∧ p ≤ 0)

instance (T p : Int) : Decidable (between0 T p) := by unfold between0; infer_instance

/-- What holds of an axis throughout a move from 0 to `T`. -/
structure MoveInv (T : Int) (m : stepper_t) : Prop where
  target : m.Target = T
  range : isInt32 T
  pos : between0 T m.Pos
  wait : 0 ≤ m.Wait ∧ m.Wait ≤ 20
  speed : 0 ≤ m.Speed ∧ m.Speed ≤ 255
  maxs : 0 ≤ m.MaxSpeed
  moving : m.Speed ≠ 0 → m.Pos ≠ T →
    0 ≤ m.CountDown ∧ m.CountDown ≤ 255 ∧ m.Dir = (if T - m.Pos > 0 then 1 else -1)

/-- A bound on the number of calls of `DoMotor` still needed to settle. -/
def moveMeasure (m : stepper_t) : Nat :=
  if m.Pos = m.Target then m.Wait.toNat + (if m.Speed = 0 then 0 else 1)
  else (m.Target - m.Pos).natAbs * 300 + m.Wait.toNat
        + (if m.Speed = 0 then 130 else m.CountDown.toNat + 1)

/-- The states an axis can reach from `init` by calls of `DoMotor` (whatever lies outside the
table at each call) and by assignments to `Target` that `ok` allows. -/
inductive Reach (ok : stepper_t → Int → Prop) (init : stepper_t) : stepper_t → Prop where
  | init : Reach ok init init
  | tick (oob : Int → Nat) {m : stepper_t} :
      Reach ok init m → Reach ok init (DoMotor oob m).motor
  | retarget (t : Int) {m : stepper_t} :
      Reach ok init m → ok m t → Reach ok init { m with Target := t }

/-- `Target` may be given any value while the axis is quiescent. -/
def whenQuiescent (m : stepper_t) (_t : Int) : Prop := quiescent m

/-- `Target` may be given a value that `RunStepping` can assign (a quotient by 1000 of a
32-bit product, 0, or `SHOT_DRAW_STEPS`: at most 2147483 in magnitude) while the axis is
quiescent. -/
def whenQuiescentInRange (m : stepper_t) (t : Int) : Prop :=
  quiescent m ∧ -2147483 ≤ t ∧ t ≤ 2147483

/-- What holds of `RampIndex` in every reachable state: it is reset to 0 when a move starts
and counts the completed steps of the move, so it stays non-negative and below the distance
still to go subtracted from 4294966. -/
structure RampInv (m : stepper_t) : Prop where
  target : -2147483 ≤ m.Target ∧ m.Target ≤ 2147483
  pos : -2147483 ≤ m.Pos ∧ m.Pos ≤ 2147483
  index : 0 ≤ m.RampIndex ∧ m.RampIndex ≤ 4294966
  moving : m.Speed ≠ 0 → m.Pos ≠ m.Target →
    m.Dir = (if m.Target - m.Pos > 0 then 1 else -1) ∧
    m.RampIndex + (m.Target - m.Pos).natAbs ≤ 4294966

/-- Whether every table read of the call `DoMotor oob m` is inside the table. -/
def readsInTable (oob : Int → Nat) (m : stepper_t) : Bool :=
  (DoMotor oob m).reads.all (fun i => decide (0 ≤ i ∧ i < NUM_RAMP_STEPS))

/-- The axis of the worked example: `MaxSpeed = 128`, `RampStretch = 1` (the draw axis of
`Init`), quiescent at `Pos = 0`, with `Target = 1000`. -/
def example1000 : stepper_t := { InitDraw with Target := 1000 }

/-- The worked example, at the axis `s` after `k` calls of `DoMotor` and the axis `next`
after one call more.
* once started and until the 28th step is complete, `Speed` is `RampUp[Pos]`: 25 at first
  and `RampUp[j]` after the `j`-th step;
* from the 28th step on and while at least 28 steps remain, `Speed` is 128;
* with `r ≤ 27` steps remaining, `Speed` is `RampUp[r + 1]`: 126, 124, ... down to 30
  (line 221 takes `ToGo` before line 244 advances `Pos`, so the lookup of line 251 is one
  step behind and `RampUp[0] = 25` is not taken on the way down);
* a call advances `Pos` by one step or not at all;
* the last step is made by call 2080, which leaves `Wait = 20`; during the 20 calls that
  follow `Speed` is not 0, and call 2101 leaves the axis settled at 1000. -/
def Example1000At (k : Nat) (s next : stepper_t) : Prop :=
  (0 ≤ s.Pos ∧ s.Pos ≤ 1000) ∧
  (k = 0 → s.Speed = 0 ∧ s.Pos = 0) ∧
  (1 ≤ k ∧ 0 ≤ s.Pos ∧ s.Pos ≤ 28 → s.Speed = RampUp.getD s.Pos.toNat 0) ∧
  (28 ≤ s.Pos ∧ 28 ≤ 1000 - s.Pos → s.Speed = 128) ∧
  (1000 - s.Pos ≤ 27 ∧ k ≤ 2100 → s.Speed = RampUp.getD (1000 - s.Pos + 1).toNat 0) ∧
  (next.Pos = s.Pos ∨ next.Pos = s.Pos + 1) ∧
  (k < 2080 → s.Pos < 1000) ∧
  (k = 2080 → s.Pos = 1000 ∧ s.Wait = 20) ∧
  (2080 ≤ k ∧ k ≤ 2100 → s.Pos = 1000 ∧ s.Speed ≠ 0) ∧
  (k = 2101 → s.Pos = 1000 ∧ s.Speed = 0 ∧ s.Wait = 0)

instance (k : Nat) (s next : stepper_t) : Decidable (Example1000At k s next) := by
  unfold Example1000At; infer_instance

/-! ## Events of an iteration of the loop -/

/-- The target accepted by the iteration fed with `inp` in state `L`: `CheckUdp` is called
(all motions are complete after the three calls of `DoMotor`) and returns a target. -/
def acceptAt (oob : Int → Nat) (inp : TickIn) (L : loop_t) : Option (Int × Int) :=
  if allIdle (motorPhase oob inp.time1 L).1 then inp.udp else none

/-- The range that the history loop finds when the iteration accepts `(xDeg, yDeg)`. -/
def rangeAt (oob : Int → Nat) (inp : TickIn) (L : loop_t) (xDeg yDeg : Int) : Range :=
  (histScroll xDeg yDeg (motorPhase oob inp.time1 L).1.XHist
    (motorPhase oob inp.time1 L).1.YHist).1

/-- Whether the iteration triggers a shot (runs lines 428-433), and at which target. -/
def shotAt (oob : Int → Nat) (inp : TickIn) (L : loop_t) : Option (Int × Int) :=
  match acceptAt oob inp L with
  | some (xDeg, yDeg) =>
    if shootNow inp.time1 (rangeAt oob inp L xDeg yDeg) xDeg yDeg (motorPhase oob inp.time1 L).1
    then some (xDeg, yDeg) else none
  | none => none

/-- Whether the iteration assigns the home position (runs lines 457-459). -/
def homeAt (oob : Int → Nat) (inp : TickIn) (L : loop_t) : Prop :=
  allIdle (motorPhase oob inp.time1 L).1 ∧
  homeNow inp.time1
    (match inp.udp with
     | some (xDeg, yDeg) => intake inp.time1 xDeg yDeg (motorPhase oob inp.time1 L).1
     | none => (motorPhase oob inp.time1 L).1)

instance (oob : Int → Nat) (inp : TickIn) (L : loop_t) : Decidable (homeAt oob inp L) := by
  unfold homeAt; infer_instance

/-- An iteration as seen from outside: the value of the free-running microsecond clock when
its busy wait ends, and what `CheckUdp` would return.  The counter register holds the clock
modulo 2^32 and the program reads it into an `int`. -/
structure Event where
  clock : Int
  udp : Option (Int × Int)
  deriving DecidableEq

/-- The input of the iteration: `time1` is the 32-bit register value. -/
def Event.tick (e : Event) : TickIn := ⟨wrap32 e.clock, e.udp⟩

/-- The state after the iterations of `evs`. -/
def runEvents (oob : Int → Nat) (evs : List Event) (L : loop_t) : loop_t :=
  runLoop oob (evs.map Event.tick) L

/-- The shots triggered by the iterations of `evs` from state `L`, in order: the clock value
and the target of each. -/
def shotLog (oob : Int → Nat) : List Event → loop_t → List (Int × Int × Int)
  | [], _ => []
  | e :: evs, L =>
    match shotAt oob e.tick L with
    | some (xDeg, yDeg) => (e.clock, xDeg, yDeg) :: shotLog oob evs (loopBody oob e.tick L).1
    | none => shotLog oob evs (loopBody oob e.tick L).1

/-- The targets accepted by the iterations of `evs` from state `L`, in order: the clock
value, the target, whether it was found stable (line 418) and whether it triggered a
shot (lines 428-433). -/
def intakeLog (oob : Int → Nat) : List Event → loop_t → List (Int × (Int × Int) × Bool × Bool)
  | [], _ => []
  | e :: evs, L =>
    match acceptAt oob e.tick L with
    | some (xDeg, yDeg) =>
      (e.clock, (xDeg, yDeg), decide (stable (rangeAt oob e.tick L xDeg yDeg)),
        (shotAt oob e.tick L).isSome) :: intakeLog oob evs (loopBody oob e.tick L).1
    | none => intakeLog oob evs (loopBody oob e.tick L).1

/-- Iterations `n` in number, 200 microseconds apart, the first at clock `c`, in which
`CheckUdp` has nothing to return. -/
def quietTicks (c : Int) (n : Nat) : List Event :=
  (List.range n).map (fun (k : Nat) => ⟨c + 200 * (k : Int), none⟩)

/-- The draw axis when a shot has just been triggered: at rest at 0 with `Target` set to
`SHOT_DRAW_STEPS`. -/
def drawStart : stepper_t := { InitDraw with Target := SHOT_DRAW_STEPS }

/-- The draw axis 1850 calls of `DoMotor` later: the 875 steps are made and the wait of 20
ticks is over; the next call stops the motor. -/
def drawnMotor : stepper_t :=
  { InitDraw with Pos := 875, Target := 875, Speed := 30, Dir := 1, CountDown := -33,
                  RampIndex := 875 }

/-- What is checked along the draw: the axis is not quiescent after any of the calls, and
after 1850 calls it is `drawnMotor`. -/
def drawCheck (k : Nat) (s : stepper_t) : Bool :=
  decide ((1 ≤ k → ¬ quiescent s) ∧ (k = 1850 → s = drawnMotor))

/-- A run of the program: the loop starts at clock 0, accepts the target (0, 0) at clock
9000000, which triggers a shot, and then runs 1850 iterations, 200 microseconds apart, in
which no target arrives, while the draw axis makes its 875 steps. -/
def demoRun : List Event :=
  [⟨0, none⟩, ⟨9000000, some (0, 0)⟩] ++ quietTicks 9000200 1850

/-- The state of the loop after the first two iterations of `demoRun`: the shot is triggered
and the draw axis has its target. -/
def shotState : loop_t :=
  { RunSteppingInit 9000000 with
    motors0 := drawStart, numticks := 2, last_fired := 9000000, taking_shot := 149,
    IsIdle := 1, LastShotX := 0, LastShotY := 0 }

/-- The state in which `demoRun` leaves the loop: the last shot was at (0, 0) at clock
9000000 and the draw axis is `drawnMotor`. -/
def drawnState : loop_t :=
  { shotState with motors0 := drawnMotor, numticks := 1852, IsIdle := 0 }

/-- A coordinate small enough that differences of coordinates do not overflow. -/
def coordOk (x : Int) : Prop := -1073741824 ≤ x ∧ x < 1073741824

instance (x : Int) : Decidable (coordOk x) := by unfold coordOk; infer_instance

/-- Whether, in the iteration fed with `inp` in state `L`, all motions are complete and the
time since `s`, as the loop computes it, exceeds the first threshold (line 454). -/
def dueAt (oob : Int → Nat) (s : Int) (inp : TickIn) (L : loop_t) : Prop :=
  allIdle (motorPhase oob inp.time1 L).1 ∧ wrap32 (inp.time1 - s) > 5000000

instance (oob : Int → Nat) (s : Int) (inp : TickIn) (L : loop_t) :
    Decidable (dueAt oob s inp L) := by unfold dueAt; infer_instance

/-- For each iteration of `evs` from state `L`, whether it is due for homing with respect
to the time `s`. -/
def dueLog (oob : Int → Nat) (s : Int) : List Event → loop_t → List Bool
  | [], _ => []
  | e :: evs, L => decide (dueAt oob s e.tick L) :: dueLog oob s evs (loopBody oob e.tick L).1

/-- For each iteration of `evs` from state `L`, whether it assigns the home position. -/
def homeLog (oob : Int → Nat) : List Event → loop_t → List Bool
  | [], _ => []
  | e :: evs, L => decide (homeAt oob e.tick L) :: homeLog oob evs (loopBody oob e.tick L).1

/-- Keeps the first `true` of a list and turns every later entry into `false`. -/
def firstOnly : List Bool → List Bool
  | [] => []
  | true :: r => true :: r.map (fun _ => false)
  | false :: r => false :: firstOnly r

/-! ## The clock line and what holds of an axis of `Init` in every reachable state -/

/-- The level of the line `mask` after the GPIO writes `ws`, `line` being its level before:
`GPIO_SET` sets the bits which are 1 and ignores the bits which are 0, `GPIO_CLR` clears
the bits which are 1 and ignores the bits which are 0 (lines 54-55). -/
def lineAfter (mask : Nat) (line : Bool) : List GpioWrite → Bool
  | [] => line
  | GpioWrite.set k :: ws => lineAfter mask (if k &&& mask ≠ 0 then true else line) ws
  | GpioWrite.clr k :: ws => lineAfter mask (if k &&& mask ≠ 0 then false else line) ws

/-- The states an axis can reach, as `Reach`, together with the level that the calls of
`DoMotor` made so far have given to its clock line: high when the last write to the line
was an assertion, low when it was a deassertion or when there was none yet. -/
inductive ReachLine (ok : stepper_t → Int → Prop) (init : stepper_t) :
    stepper_t → Bool → Prop where
  | init : ReachLine ok init init false
  | tick (oob : Int → Nat) {m : stepper_t} {c : Bool} :
      ReachLine ok init m c →
      ReachLine ok init (DoMotor oob m).motor (lineAfter m.CLOCK c (DoMotor oob m).gpio)
  | retarget (t : Int) {m : stepper_t} {c : Bool} :
      ReachLine ok init m c → ok m t → ReachLine ok init { m with Target := t } c

/-- What holds of an axis set up by `Init` in every reachable state. -/
structure AxisInv (m : stepper_t) : Prop where
  ramp : RampInv m
  maxs : 25 ≤ m.MaxSpeed ∧ m.MaxSpeed ≤ 128
  stretch : 1 ≤ m.RampStretch
  speed : 0 ≤ m.Speed ∧ m.Speed ≤ m.MaxSpeed
  wait : 0 ≤ m.Wait ∧ m.Wait ≤ 20
  dwell : m.Wait ≠ 0 → m.Speed ≠ 0
  phase : m.Speed ≠ 0 → m.Pos ≠ m.Target → 0 ≤ m.CountDown ∧ m.CountDown ≤ 255

/-- The three lines of an axis are distinct: the enable and direction masks have no bit
in common with the clock mask, which is not empty. -/
def LinesApart (m : stepper_t) : Prop :=
  m.ENABLE &&& m.CLOCK = 0 ∧ m.DIR &&& m.CLOCK = 0 ∧ m.CLOCK ≠ 0

instance (m : stepper_t) : Decidable (LinesApart m) := by unfold LinesApart; infer_instance

/-- The clock line is high only in the first half of a clock cycle of a running axis:
`CountDown` is then 128 or more. -/
def HighInv (m : stepper_t) (c : Bool) : Prop :=
  c = true → m.Speed ≠ 0 ∧ m.Wait = 0 ∧ m.Pos ≠ m.Target ∧ 128 ≤ m.CountDown

/-- The call of `DoMotor` on `m` finds the clock cycle in its second half: it decrements
`CountDown` to a value in 0..127 (and deasserts the clock line, line 264). -/
def lowPhase (m : stepper_t) : Prop :=
  m.Wait = 0 ∧ m.Speed ≠ 0 ∧ m.Pos ≠ m.Target ∧
  0 ≤ m.CountDown - m.Speed ∧ m.CountDown - m.Speed < 128

/-- The GPIO writes made by `n` consecutive calls of `DoMotor`, in order. -/
def gpioTrace (oob : Int → Nat) : Nat → stepper_t → List GpioWrite
  | 0, _ => []
  | n + 1, m => (DoMotor oob m).gpio ++ gpioTrace oob n (DoMotor oob m).motor

/-- The number of calls among `n` consecutive calls of `DoMotor` that change `Pos`. -/
def posChanges (oob : Int → Nat) : Nat → stepper_t → Nat
  | 0, _ => 0
  | n + 1, m =>
    (if (DoMotor oob m).motor.Pos ≠ m.Pos then 1 else 0) + posChanges oob n (DoMotor oob m).motor

/-- The axis `m'` is the axis `m` with, at most, another `Target`. -/
def sameAxis (m m' : stepper_t) : Prop := m' = { m with Target := m'.Target }

/-- A value of `Target` that `RunStepping` can assign: at most 2147483 in magnitude. -/
def targetOk (t : Int) : Prop := -2147483 ≤ t ∧ t ≤ 2147483

/-- The three axes of the loop state are in states they can reach from `Init` by calls of
`DoMotor` and by assignments to `Target` made while quiescent. -/
def LoopReach (L : loop_t) : Prop :=
  Reach whenQuiescentInRange InitDraw L.motors0 ∧
  Reach whenQuiescentInRange InitTilt L.motors1 ∧
  Reach whenQuiescentInRange InitTurret L.motors2

/-! ## The tests on elapsed time (lines 353-365, 427, 454-461) -/

def TICK_SIZE : Int := 200
def TICK_ERROR : Int := 280

/-- The value held by an `int` after a reading `u` of the 32-bit counter register is
assigned to it (`time2 = *(timerreg+1)`, line 355). -/
def readTimer (u : Nat) : Int := wrap32 (u % 4294967296)

/-- The test of line 357, `delta >= TICK_SIZE`, with `delta = time2-time1` an `int`. -/
def tickDue (time1 time2 : Int) : Prop := wrap32 (time2 - time1) ≥ TICK_SIZE

instance (a b : Int) : Decidable (tickDue a b) := by unfold tickDue; infer_instance

/-- The test of line 358, `delta > TICK_ERROR && IsIdle == 0`. -/
def tickTooLong (time1 time2 IsIdle : Int) : Prop :=
  wrap32 (time2 - time1) > TICK_ERROR ∧ IsIdle = 0

instance (a b c : Int) : Decidable (tickTooLong a b c) := by unfold tickTooLong; infer_instance

/-- The difference of two counter readings taken as an unsigned 32-bit number. -/
def unsignedDiff (now before : Int) : Int := (now - before) % 4294967296

/-! ## The wire record of `send_udp.c` (lines 34-95) -/

/-- Two's complement reduction of an integer to the range of a 16-bit C `short`: what an
assignment of an `int` to a `short` field stores. -/
def wrap16 (x : Int) : Int := (x + 32768) % 65536 - 32768

/-- Range of a 16-bit C `short`. -/
def isInt16 (x : Int) : Prop := -32768 ≤ x ∧ x < 32768

instance (x : Int) : Decidable (isInt16 x) := by unfold isInt16; infer_instance

def UDP_MAGIC : Int := 0x46c1

/-- The record `Udp_t` (lines 40-46): five `short` fields, in this order. -/
structure Udp_t where
  Ident : Int
  Level : Int
  xpos : Int
  ypos : Int
  IsMotion : Int
  deriving DecidableEq

/-- The record `Buf` that `SendUDP` fills (lines 72-78). -/
def SendUDP.Buf (x y level motion : Int) : Udp_t :=
  { Ident := wrap16 UDP_MAGIC, Level := wrap16 level, xpos := wrap16 x, ypos := wrap16 y,
    IsMotion := wrap16 motion }

/-- `SendUDP` (lines 61-95): the records handed to `sendto`, with the index of the
destination of each; none when `NumDests` is 0 ("UDP not initialized"). -/
def SendUDP (NumDests : Nat) (x y level motion : Int) : List (Nat × Udp_t) :=
  if NumDests = 0 then []
  else (List.range NumDests).map (fun (n : Nat) => (n, SendUDP.Buf x y level motion))

/-- The two bytes of a `short` in memory, low byte first (the program runs on little-endian
machines). -/
def shortBytes (v : Int) : List Nat := [(v % 65536).toNat % 256, (v % 65536).toNat / 256]

/-- The `sizeof(Udp_t)` bytes that `sendto` is given: the five fields in order, without
padding. -/
def Udp_t.bytes (r : Udp_t) : List Nat :=
  shortBytes r.Ident ++ shortBytes r.Level ++ shortBytes r.xpos ++ shortBytes r.ypos
    ++ shortBytes r.IsMotion

/-- The `short` held by two bytes, low byte first. -/
def shortOf (lo hi : Nat) : Int := wrap16 ((lo : Int) + 256 * (hi : Int))

/-- The five fields read back from the bytes of a datagram of the size of the record. -/
def Udp_t.decode : List Nat → Option Udp_t
  | [a0, a1, b0, b1, c0, c1, d0, d1, e0, e1] =>
    some ⟨shortOf a0 a1, shortOf b0 b1, shortOf c0 c1, shortOf d0 d1, shortOf e0 e1⟩
  | _ => none

/-- An axis sent from rest at 0 to `T`, seven calls of `DoMotor` later: started, its wait
over, the first clock cycle about to complete. -/
def firstStep (init : stepper_t) (T : Int) : stepper_t :=
  { init with Target := T, Speed := 25, Dir := if T > 0 then 1 else -1, CountDown := 2 }

/-- An axis in static storage before any move: at rest at 0 with target 0, whatever its
configuration. -/
def atRest (m : stepper_t) : Prop :=
  m.Pos = 0 ∧ m.Target = 0 ∧ m.Speed = 0 ∧ m.Wait = 0 ∧ m.RampIndex = 0

instance (m : stepper_t) : Decidable (atRest m) := by unfold atRest; infer_instance

/-- The value of `Speed`: 0, or an entry `v` of the table as read (25 at the start of a
move), or such an entry capped by `MaxSpeed`. -/
def speedValue (m : stepper_t) : Prop :=
  m.Speed = 0 ∨ ∃ v : Int, 25 ≤ v ∧ v ≤ 128 ∧ (m.Speed = v ∨ m.Speed = min v m.MaxSpeed)

/-- What holds, in every reachable state, of an axis that starts at rest with
`MaxSpeed >= 1`: while it waits it is not stopped. -/
structure StopInv (m : stepper_t) : Prop where
  ramp : RampInv m
  maxs : 1 ≤ m.MaxSpeed
  stretch : isInt32 (NUM_RAMP_STEPS * m.RampStretch)
  speed : 0 ≤ m.Speed
  dwell : m.Wait ≠ 0 → m.Speed ≠ 0

/-- The closed form of the speed after the `k`-th completed step of a positive move of `D`
steps, for `RampStretch = 1` and `MaxSpeed = M`:
`min(RampUp[min(k, 28)], RampUp[min(D - k + 1, 28)], M)`. -/
def closedForm (D M k : Int) : Int :=
  min (min (RampUp.getD (min k 28).toNat 0) (RampUp.getD (min (D - k + 1) 28).toNat 0)) M

/-- What holds throughout a positive move of `D` steps from 0 of an axis with
`RampStretch = 1`: once started, `RampIndex` counts the steps made and `Speed` is 25 before
the first step and the closed form after each. -/
structure ProfInv (D : Int) (s : stepper_t) : Prop where
  target : s.Target = D
  stretch : s.RampStretch = 1
  maxs : 1 ≤ s.MaxSpeed
  dist : 1 ≤ D ∧ D ≤ 2147483646
  pos : 0 ≤ s.Pos ∧ s.Pos ≤ D
  wait : 0 ≤ s.Wait ∧ s.Wait ≤ 20
  rest : s.Speed = 0 → s.Pos = 0 ∨ s.Pos = D
  run : s.Speed ≠ 0 →
    s.Dir = 1 ∧ s.RampIndex = s.Pos ∧ (s.Pos = 0 → s.Speed = 25) ∧
    (1 ≤ s.Pos → s.Speed = closedForm D s.MaxSpeed s.Pos) ∧
    (s.Pos < D → 0 ≤ s.CountDown ∧ s.CountDown ≤ 255)

/-! ## The name filter of `DoDirectoryFunc` (`main.c` lines 290-317) -/

/-- The expression `ThisName[i]` on a C string given by its bytes: the byte at `i`, the
terminating 0 right after the last one. -/
def byteAt (ThisName : List Nat) (i : Int) : Nat :=
  if 0 ≤ i then ThisName.getD i.toNat 0 else 0

/-- Lines 290-298: a name equal to that of one of the last two pictures has its first byte
zeroed, which leaves the empty string. -/
def markSeen (last0 last1 FileName : List Nat) : List Nat :=
  if FileName = last0 ∨ FileName = last1 then [] else FileName

/-- The value of `l` after line 314: one less when the byte before the last is `e` (101)
or `E` (69). -/
def lenAfterE (ThisName : List Nat) : Int :=
  if byteAt ThisName ((ThisName.length : Int) - 2) = 101 ∨
      byteAt ThisName ((ThisName.length : Int) - 2) = 69
  then (ThisName.length : Int) - 1 else (ThisName.length : Int)

/-- Lines 308-317: whether the name is loaded, and the indices at which the name was read,
in order.  The bytes are `g` 103, `G` 71, `p` 112, `P` 80, `j` 106, `J` 74, `.` 46. -/
def useName (ThisName : List Nat) : Bool × List Int :=
  if byteAt ThisName 0 = 0 then (false, [0])  -- We already did this one.
  else if (ThisName.length : Int) < 5 then (false, [0])
  else if byteAt ThisName ((ThisName.length : Int) - 1) ≠ 103 ∧
      byteAt ThisName ((ThisName.length : Int) - 1) ≠ 71 then
    (false, [0, (ThisName.length : Int) - 1])
  else if byteAt ThisName (lenAfterE ThisName - 2) ≠ 112 ∧
      byteAt ThisName (lenAfterE ThisName - 2) ≠ 80 then
    (false, [0, (ThisName.length : Int) - 1, (ThisName.length : Int) - 2,
      lenAfterE ThisName - 2])
  else if byteAt ThisName (lenAfterE ThisName - 3) ≠ 106 ∧
      byteAt ThisName (lenAfterE ThisName - 3) ≠ 74 then
    (false, [0, (ThisName.length : Int) - 1, (ThisName.length : Int) - 2,
      lenAfterE ThisName - 2, lenAfterE ThisName - 3])
  else if byteAt ThisName (lenAfterE ThisName - 4) ≠ 46 then
    (false, [0, (ThisName.length : Int) - 1, (ThisName.length : Int) - 2,
      lenAfterE ThisName - 2, lenAfterE ThisName - 3, lenAfterE ThisName - 4])
  else
    (true, [0, (ThisName.length : Int) - 1, (ThisName.length : Int) - 2,
      lenAfterE ThisName - 2, lenAfterE ThisName - 3, lenAfterE ThisName - 4])

/-- The lower-case form of a byte in the C locale: `A`..`Z` (65..90) become `a`..`z`. -/
def lowerByte (c : Nat) : Nat := if 65 ≤ c ∧ c ≤ 90 then c + 32 else c

/-- The name ends in `suffix` (given in lower case), compared case-insensitively byte by
byte. -/
def endsIn (name suffix : List Nat) : Prop :=
  suffix.length ≤ name.length ∧
  (name.drop (name.length - suffix.length)).map lowerByte = suffix

instance (name suffix : List Nat) : Decidable (endsIn name suffix) := by
  unfold endsIn; infer_instance

/-- The name filter as the specification states it: at least 5 bytes, ending
case-insensitively in `.jpg` or `.jpeg`. -/
def isJpegName (name : List Nat) : Prop :=
  5 ≤ name.length ∧ (endsIn name [46, 106, 112, 103] ∨ endsIn name [46, 106, 112, 101, 103])

instance (name : List Nat) : Decidable (isJpegName name) := by
  unfold isJpegName; infer_instance

/-! # Theorems -/



/-! ## Basic facts -/

theorem wrap32_eq_self (x : Int) (h1 : -2147483648 ≤ x) (h2 : x < 2147483648) :
    wrap32 x = x := by
  unfold wrap32; omega

theorem wrap32_isInt32 (x : Int) : isInt32 (wrap32 x) := by
  unfold wrap32 isInt32; omega

theorem RampUp_getD_bounds (n : Nat) (h : n < 29) :
    25 ≤ RampUp.getD n 0 ∧ RampUp.getD n 0 ≤ 128 := by
  interval_cases n <;> simp [RampUp]

theorem rampRead_bounds (oob : Int → Nat) (i : Int) :
    0 ≤ rampRead oob i ∧ rampRead oob i ≤ 255 := by
  unfold rampRead NUM_RAMP_STEPS
  split
  · rename_i h
    have := RampUp_getD_bounds i.toNat (by omega)
    omega
  · omega

theorem rampRead_zero (oob : Int → Nat) : rampRead oob 0 = 25 := by
  simp [rampRead, NUM_RAMP_STEPS, RampUp]

/-! ## The branches of `DoMotor` -/

theorem DoMotor_wait (oob : Int → Nat) (m : stepper_t) (h : m.Wait ≠ 0) :
    DoMotor oob m = ⟨{ m with Wait := wrap32 (m.Wait - 1) }, [], []⟩ := by
  rw [DoMotor, if_pos h]

theorem DoMotor_arrived (oob : Int → Nat) (m : stepper_t) (h : m.Wait = 0) (hg : toGo m = 0) :
    DoMotor oob m = ⟨{ m with Speed := 0 }, [], []⟩ := by
  rw [DoMotor, if_neg (not_not.mpr h), if_neg (not_not.mpr hg)]
  by_cases hs : m.Speed = 0
  · rw [if_neg (not_not.mpr hs)]; cases m; simp_all
  · rw [if_pos hs]

theorem DoMotor_start (oob : Int → Nat) (m : stepper_t) (h : m.Wait = 0) (hg : toGo m ≠ 0)
    (hs : m.Speed = 0) :
    DoMotor oob m =
      ⟨{ m with RampIndex := 0, Speed := rampRead oob 0,
                Dir := if toGo m > 0 then 1 else -1, CountDown := 127, Wait := 1 },
       [GpioWrite.clr m.ENABLE,
        if toGo m > 0 then GpioWrite.set m.DIR else GpioWrite.clr m.DIR], [0]⟩ := by
  rw [DoMotor, if_neg (not_not.mpr h), if_pos hg, if_pos hs]

theorem DoMotor_coast (oob : Int → Nat) (m : stepper_t) (h : m.Wait = 0) (hg : toGo m ≠ 0)
    (hs : m.Speed ≠ 0) (hc : 0 ≤ wrap32 (m.CountDown - m.Speed)) :
    DoMotor oob m =
      ⟨{ m with CountDown := wrap32 (m.CountDown - m.Speed) },
       if wrap32 (m.CountDown - m.Speed) < 128 then [GpioWrite.clr m.CLOCK] else [], []⟩ := by
  rw [DoMotor, if_neg (not_not.mpr h), if_pos hg, if_neg hs, if_neg (Int.not_lt.mpr hc)]
  split <;> rfl

theorem DoMotor_step (oob : Int → Nat) (m : stepper_t) (h : m.Wait = 0) (hg : toGo m ≠ 0)
    (hs : m.Speed ≠ 0) (hc : wrap32 (m.CountDown - m.Speed) < 0) :
    DoMotor oob m = stepDone oob m := by
  rw [DoMotor, if_neg (not_not.mpr h), if_pos hg, if_neg hs, if_pos hc]

/-! ## What the ramp computation leaves alone -/

theorem rampUpStep_frame (oob : Int → Nat) (m : stepper_t) :
    (rampUpStep oob m).1 = { m with RampIndex := (rampUpStep oob m).1.RampIndex,
                                    Speed := (rampUpStep oob m).1.Speed } := by
  unfold rampUpStep; split <;> rfl

theorem rampDownStep_frame (oob : Int → Nat) (m : stepper_t) (g a : Int) :
    (rampDownStep oob m g a).1 = { m with Speed := (rampDownStep oob m g a).1.Speed } := by
  unfold rampDownStep; split_ifs <;> rfl

theorem clampSpeed_frame (m : stepper_t) :
    clampSpeed m = { m with Speed := (clampSpeed m).Speed } := by
  unfold clampSpeed; split <;> rfl

theorem newSpeed_frame (oob : Int → Nat) (m : stepper_t) (g a : Int) :
    (newSpeed oob m g a).1 = { m with RampIndex := wrap32 (m.RampIndex + 1),
                                      Speed := (newSpeed oob m g a).1.Speed } := by
  have hri : (rampUpStep oob m).1.RampIndex = wrap32 (m.RampIndex + 1) := by
    unfold rampUpStep; split <;> rfl
  unfold newSpeed
  simp only []
  rw [clampSpeed_frame, rampDownStep_frame, rampUpStep_frame, hri]

/-- The speed left by the ramp computation is a byte, and at most `MaxSpeed`. -/
theorem newSpeed_speed (oob : Int → Nat) (m : stepper_t) (g a : Int)
    (h0 : 0 ≤ m.Speed) (h1 : m.Speed ≤ 255) (hM : 0 ≤ m.MaxSpeed) :
    0 ≤ (newSpeed oob m g a).1.Speed ∧ (newSpeed oob m g a).1.Speed ≤ 255 ∧
    (newSpeed oob m g a).1.Speed ≤ m.MaxSpeed := by
  have b1 := rampRead_bounds oob (Int.tdiv (wrap32 (m.RampIndex + 1)) m.RampStretch)
  have b2 := rampRead_bounds oob (Int.tdiv a m.RampStretch)
  unfold newSpeed clampSpeed rampDownStep rampUpStep
  simp only []
  split_ifs <;> simp at * <;> omega




/-! ## Convergence of a move (C1) -/

theorem DoMotor_move (oob : Int → Nat) (T : Int) (m : stepper_t) (h : MoveInv T m)
    (hn : ¬ settled m) :
    MoveInv T (DoMotor oob m).motor ∧
    moveMeasure (DoMotor oob m).motor < moveMeasure m ∧
    (T - (DoMotor oob m).motor.Pos).natAbs ≤ (T - m.Pos).natAbs := by
  obtain ⟨ht, hr, hp, hw, hsp, hM, hmv⟩ := h
  unfold isInt32 at hr
  unfold between0 at hp
  unfold settled at hn
  have htg : toGo m = T - m.Pos := by
    unfold toGo; rw [ht]; apply wrap32_eq_self <;> omega
  by_cases hW : m.Wait = 0
  · by_cases hg : T - m.Pos = 0
    · -- at the target: stop
      rw [DoMotor_arrived oob m hW (by rw [htg]; exact hg)]
      have hpos : m.Pos = T := by omega
      have hs0 : m.Speed ≠ 0 := fun h0 => hn ⟨by rw [ht]; exact hpos, h0, hW⟩
      refine ⟨⟨ht, hr, hp, hw, by simp, hM, by simp⟩, ?_, le_refl _⟩
      unfold moveMeasure
      simp [ht, hpos, hs0, hW]
    · have hg' : toGo m ≠ 0 := by rw [htg]; exact hg
      have hpT : m.Pos ≠ T := by omega
      by_cases hs : m.Speed = 0
      · -- start
        rw [DoMotor_start oob m hW hg' hs]
        refine ⟨⟨ht, hr, hp, by simp, by simp [rampRead_zero], hM, ?_⟩, ?_, le_refl _⟩
        · intro _ _; simp [htg]
        · unfold moveMeasure
          simp [ht, hpT, hs, hW, rampRead_zero]
      · obtain ⟨hc0, hc1, hd⟩ := hmv hs hpT
        have hcd : wrap32 (m.CountDown - m.Speed) = m.CountDown - m.Speed := by
          apply wrap32_eq_self <;> omega
        by_cases hc : 0 ≤ m.CountDown - m.Speed
        · -- the clock cycle goes on
          rw [DoMotor_coast oob m hW hg' hs (by rw [hcd]; exact hc)]
          refine ⟨⟨ht, hr, hp, hw, hsp, hM, ?_⟩, ?_, le_refl _⟩
          · intro _ _; simp only [hcd]; exact ⟨hc, by omega, hd⟩
          · unfold moveMeasure
            simp only [ht, hpT, hs, hcd, if_false]
            omega
        · -- the clock cycle is complete
          rw [DoMotor_step oob m hW hg' hs (by rw [hcd]; omega)]
          have hfr := newSpeed_frame oob (stepped m) (toGo m) (toGoAbs m)
          have hns := newSpeed_speed oob (stepped m) (toGo m) (toGoAbs m) hsp.1 hsp.2 hM
          generalize (newSpeed oob (stepped m) (toGo m) (toGoAbs m)).1.Speed = v at hfr hns
          have hdir : (T - m.Pos > 0 ∧ m.Dir = 1) ∨ (¬ T - m.Pos > 0 ∧ m.Dir = -1) := by
            rw [hd]; split <;> simp_all
          have hpos' : wrap32 (m.Pos + m.Dir) = m.Pos + m.Dir := by
            apply wrap32_eq_self <;> omega
          unfold stepDone
          rw [hfr]
          simp only [stepped, hpos', hcd, ht]
          have hcd2 : wrap32 (m.CountDown - m.Speed + 256) = m.CountDown - m.Speed + 256 := by
            apply wrap32_eq_self <;> omega
          by_cases hat : m.Pos + m.Dir = T
          · rw [if_neg (not_not.mpr hat)]
            refine ⟨⟨rfl, hr, ?_, by simp, ⟨hns.1, hns.2.1⟩, hM, ?_⟩, ?_, ?_⟩
            · simp only [hat]; unfold between0; omega
            · intro _ h2; exact absurd hat h2
            · unfold moveMeasure
              simp only [ht, hat, hpT, hs, if_true, if_false]
              split <;> omega
            · simp only [hat]; omega
          · rw [if_pos hat]
            refine ⟨⟨rfl, hr, ?_, hw, ⟨hns.1, hns.2.1⟩, hM, ?_⟩, ?_, ?_⟩
            · show between0 T (m.Pos + m.Dir)
              unfold between0; omega
            · intro _ _
              refine ⟨by simp only [hcd2]; omega, by simp only [hcd2]; omega, ?_⟩
              show m.Dir = if T - (m.Pos + m.Dir) > 0 then 1 else -1
              split <;> omega
            · unfold moveMeasure
              simp only [ht, hat, hpT, hs, hW, hcd2, if_false]
              split <;> omega
            · show (T - (m.Pos + m.Dir)).natAbs ≤ (T - m.Pos).natAbs
              omega
  · -- waiting
    rw [DoMotor_wait oob m hW]
    have hw' : wrap32 (m.Wait - 1) = m.Wait - 1 := by apply wrap32_eq_self <;> omega
    refine ⟨⟨ht, hr, hp, by simp only [hw']; omega, hsp, hM, hmv⟩, ?_, le_refl _⟩
    unfold moveMeasure
    simp only [hw']
    split <;> omega

theorem ticks_succ (oob : Int → Nat) (n : Nat) (m : stepper_t) :
    ticks oob (n + 1) m = ticks oob n (DoMotor oob m).motor := rfl

theorem ticks_succ_right (oob : Int → Nat) (n : Nat) (m : stepper_t) :
    ticks oob (n + 1) m = (DoMotor oob (ticks oob n m)).motor := by
  induction n generalizing m with
  | zero => rfl
  | succ n ih => rw [ticks_succ, ih, ← ticks_succ]

/-- From any state of a move the axis settles, keeping the invariant and never moving away
from the target. -/
theorem settles_of_MoveInv (oob : Int → Nat) (T : Int) :
    ∀ (N : Nat) (m : stepper_t), moveMeasure m ≤ N → MoveInv T m →
      ∃ n, settled (ticks oob n m) ∧
        (∀ k, k ≤ n → MoveInv T (ticks oob k m)) ∧
        (∀ k, k < n →
          (T - (ticks oob (k + 1) m).Pos).natAbs ≤ (T - (ticks oob k m).Pos).natAbs) := by
  intro N
  induction N with
  | zero =>
    intro m hN hI
    by_cases hs : settled m
    · exact ⟨0, hs, fun k hk => by
        have : k = 0 := by omega
        subst this; exact hI, fun k hk => by omega⟩
    · have := (DoMotor_move oob T m hI hs).2.1
      omega
  | succ N ih =>
    intro m hN hI
    by_cases hs : settled m
    · exact ⟨0, hs, fun k hk => by
        have : k = 0 := by omega
        subst this; exact hI, fun k hk => by omega⟩
    · obtain ⟨hI', hlt, hd⟩ := DoMotor_move oob T m hI hs
      obtain ⟨n, h1, h2, h3⟩ := ih (DoMotor oob m).motor (by omega) hI'
      refine ⟨n + 1, h1, ?_, ?_⟩
      · intro k hk
        cases k with
        | zero => exact hI
        | succ k => exact h2 k (by omega)
      · intro k hk
        cases k with
        | zero => exact hd
        | succ k => exact h3 k (by omega)

/-- C1. Convergence of `DoMotor`: for every `Target` in the 32-bit range and every axis with
`RampStretch ≥ 1` and `MaxSpeed ≥ 1`, starting from `Pos = 0`, `Speed = 0`, `Wait = 0` and
with `Target` held fixed, some finite number `n` of calls of `DoMotor` leaves the axis with
`Pos = Target`, `Speed = 0` and `Wait = 0`; after every number `k ≤ n` of calls `Pos` lies
between 0 and `Target` inclusive, and `|Target - Pos|` never increases from one call to the
next.  This holds for every content `oob` of the memory outside the table. -/
theorem C1_DoMotor_converges (oob : Int → Nat) (m : stepper_t)
    (hT : isInt32 m.Target) (_hRS : 1 ≤ m.RampStretch) (hMS : 1 ≤ m.MaxSpeed)
    (hP : m.Pos = 0) (hS : m.Speed = 0) (hW : m.Wait = 0) :
    ∃ n, (ticks oob n m).Pos = m.Target ∧ (ticks oob n m).Speed = 0 ∧
      (ticks oob n m).Wait = 0 ∧
      (∀ k, k ≤ n → (ticks oob k m).Target = m.Target ∧
        between0 m.Target (ticks oob k m).Pos) ∧
      (∀ k, k < n → (m.Target - (ticks oob (k + 1) m).Pos).natAbs
                      ≤ (m.Target - (ticks oob k m).Pos).natAbs) := by
  have hI : MoveInv m.Target m :=
    ⟨rfl, hT, by unfold isInt32 at hT; unfold between0; omega, by omega, by omega, by omega,
     fun h => absurd hS h⟩
  obtain ⟨n, h1, h2, h3⟩ := settles_of_MoveInv oob m.Target (moveMeasure m) m (le_refl _) hI
  refine ⟨n, ?_, h1.2.1, h1.2.2, fun k hk => ⟨(h2 k hk).target, (h2 k hk).pos⟩, h3⟩
  rw [h1.1, (h2 n (le_refl _)).target]

/-- C1 at the move of the draw axis to `SHOT_DRAW_STEPS`. -/
theorem C1_DoMotor_converges_witness :
    isInt32 875 ∧ ∃ n, (ticks (fun _ => 0) n { InitDraw with Target := 875 }).Pos = 875 ∧
      (ticks (fun _ => 0) n { InitDraw with Target := 875 }).Speed = 0 ∧
      (ticks (fun _ => 0) n { InitDraw with Target := 875 }).Wait = 0 ∧
      (∀ k, k ≤ n → (ticks (fun _ => 0) k { InitDraw with Target := 875 }).Target = 875 ∧
        between0 875 (ticks (fun _ => 0) k { InitDraw with Target := 875 }).Pos) ∧
      (∀ k, k < n →
        ((875 : Int) - (ticks (fun _ => 0) (k + 1) { InitDraw with Target := 875 }).Pos).natAbs
          ≤ ((875 : Int) - (ticks (fun _ => 0) k { InitDraw with Target := 875 }).Pos).natAbs) :=
  ⟨by decide, C1_DoMotor_converges (fun _ => 0) { InitDraw with Target := 875 }
    (by decide) (by decide) (by decide) rfl rfl rfl⟩

/-! ## The speed invariant (C2) -/

theorem newSpeed_le_max (oob : Int → Nat) (m : stepper_t) (g a : Int) :
    (newSpeed oob m g a).1.Speed ≤ m.MaxSpeed := by
  unfold newSpeed clampSpeed rampDownStep rampUpStep
  simp only []
  split_ifs <;> simp at * <;> omega

theorem newSpeed_nonneg (oob : Int → Nat) (m : stepper_t) (g a : Int)
    (h0 : 0 ≤ m.Speed) (hM : 0 ≤ m.MaxSpeed) : 0 ≤ (newSpeed oob m g a).1.Speed := by
  have b1 := rampRead_bounds oob (Int.tdiv (wrap32 (m.RampIndex + 1)) m.RampStretch)
  have b2 := rampRead_bounds oob (Int.tdiv a m.RampStretch)
  unfold newSpeed clampSpeed rampDownStep rampUpStep
  simp only []
  split_ifs <;> simp at * <;> omega

/-- What a completed clock cycle leaves: the ramp computation applied to the stepped axis,
then either the next cycle armed or the wait of 20 ticks. -/
theorem stepDone_motor (oob : Int → Nat) (m : stepper_t) :
    ∃ v : Int, v = (newSpeed oob (stepped m) (toGo m) (toGoAbs m)).1.Speed ∧
      ((stepDone oob m).motor =
          { m with Pos := wrap32 (m.Pos + m.Dir), Speed := v,
                   RampIndex := wrap32 (m.RampIndex + 1),
                   CountDown := wrap32 (wrap32 (m.CountDown - m.Speed) + 256) } ∨
       (stepDone oob m).motor =
          { m with Pos := wrap32 (m.Pos + m.Dir), Speed := v,
                   RampIndex := wrap32 (m.RampIndex + 1),
                   CountDown := wrap32 (m.CountDown - m.Speed), Wait := 20 }) := by
  refine ⟨_, rfl, ?_⟩
  have hfr := newSpeed_frame oob (stepped m) (toGo m) (toGoAbs m)
  unfold stepDone
  split
  · left; rw [hfr]; rfl
  · right; rw [hfr]; rfl

/-- `DoMotor` never writes `Target`, `RampStretch`, `MaxSpeed` or the line identifiers. -/
theorem DoMotor_const (oob : Int → Nat) (m : stepper_t) :
    (DoMotor oob m).motor.Target = m.Target ∧
    (DoMotor oob m).motor.RampStretch = m.RampStretch ∧
    (DoMotor oob m).motor.MaxSpeed = m.MaxSpeed ∧
    (DoMotor oob m).motor.ENABLE = m.ENABLE ∧
    (DoMotor oob m).motor.DIR = m.DIR ∧
    (DoMotor oob m).motor.CLOCK = m.CLOCK := by
  by_cases hW : m.Wait = 0
  · by_cases hg : toGo m = 0
    · rw [DoMotor_arrived oob m hW hg]; simp
    · by_cases hs : m.Speed = 0
      · rw [DoMotor_start oob m hW hg hs]; simp
      · by_cases hc : 0 ≤ wrap32 (m.CountDown - m.Speed)
        · rw [DoMotor_coast oob m hW hg hs hc]; simp
        · rw [DoMotor_step oob m hW hg hs (by omega)]
          obtain ⟨v, _, h | h⟩ := stepDone_motor oob m <;> rw [h] <;> simp
  · rw [DoMotor_wait oob m hW]; simp

/-- One call of `DoMotor` keeps `0 ≤ Speed ≤ MaxSpeed` when `MaxSpeed` is at least the first
ramp value. -/
theorem DoMotor_speed_range (oob : Int → Nat) (m : stepper_t) (hM : 25 ≤ m.MaxSpeed)
    (h : 0 ≤ m.Speed ∧ m.Speed ≤ m.MaxSpeed) :
    0 ≤ (DoMotor oob m).motor.Speed ∧ (DoMotor oob m).motor.Speed ≤ m.MaxSpeed := by
  by_cases hW : m.Wait = 0
  · by_cases hg : toGo m = 0
    · rw [DoMotor_arrived oob m hW hg]; simp; omega
    · by_cases hs : m.Speed = 0
      · rw [DoMotor_start oob m hW hg hs]; simp [rampRead_zero]; omega
      · by_cases hc : 0 ≤ wrap32 (m.CountDown - m.Speed)
        · rw [DoMotor_coast oob m hW hg hs hc]; exact h
        · rw [DoMotor_step oob m hW hg hs (by omega)]
          have h1 := newSpeed_le_max oob (stepped m) (toGo m) (toGoAbs m)
          have h2 := newSpeed_nonneg oob (stepped m) (toGo m) (toGoAbs m) h.1 (by
            show 0 ≤ m.MaxSpeed; omega)
          obtain ⟨v, hv, h | h⟩ := stepDone_motor oob m <;> rw [h, hv] <;>
            exact ⟨h2, h1⟩
  · rw [DoMotor_wait oob m hW]; exact h

theorem speed_range_of_Reach (ok : stepper_t → Int → Prop) (init m : stepper_t)
    (h0 : init.Speed = 0) (hM : 25 ≤ init.MaxSpeed) (h : Reach ok init m) :
    m.MaxSpeed = init.MaxSpeed ∧ 0 ≤ m.Speed ∧ m.Speed ≤ m.MaxSpeed := by
  induction h with
  | init => omega
  | @tick oob s _ ih =>
    have hc := (DoMotor_const oob s).2.2.1
    have hs := DoMotor_speed_range oob s (by omega) ih.2
    omega
  | retarget t _ _ ih => exact ih

/-- C2. Speed invariant: for each of the three axes as configured by `Init` (`MaxSpeed`
128, 50, 100 and `RampStretch` 1, 10, 12), in every state reachable from the zero-initialised
start by calls of `DoMotor` and by changes of `Target` made while the axis is quiescent,
`0 ≤ Speed ≤ MaxSpeed`, with `MaxSpeed` the value set by `Init`. -/
theorem C2_speed_invariant (init m : stepper_t)
    (hi : init = InitDraw ∨ init = InitTilt ∨ init = InitTurret)
    (h : Reach whenQuiescent init m) :
    0 ≤ m.Speed ∧ m.Speed ≤ m.MaxSpeed ∧ m.MaxSpeed = init.MaxSpeed := by
  have h0 : init.Speed = 0 := by rcases hi with h | h | h <;> rw [h] <;> rfl
  have hM : 25 ≤ init.MaxSpeed := by rcases hi with h | h | h <;> rw [h] <;> decide
  have := speed_range_of_Reach whenQuiescent init m h0 hM h
  omega

/-- C2 at the tilt axis after its target is set to 311 and `DoMotor` is called once. -/
theorem C2_speed_invariant_witness :
    0 ≤ (DoMotor (fun _ => 0) { InitTilt with Target := 311 }).motor.Speed ∧
    (DoMotor (fun _ => 0) { InitTilt with Target := 311 }).motor.Speed
      ≤ (DoMotor (fun _ => 0) { InitTilt with Target := 311 }).motor.MaxSpeed ∧
    (DoMotor (fun _ => 0) { InitTilt with Target := 311 }).motor.MaxSpeed = InitTilt.MaxSpeed :=
  C2_speed_invariant InitTilt _ (Or.inr (Or.inl rfl))
    (Reach.tick (fun _ => 0) (Reach.retarget 311 Reach.init ⟨rfl, rfl⟩))

/-! ## `RampIndex` (C3) -/

theorem allTicks_spec (oob : Int → Nat) (P : Nat → stepper_t → Bool) :
    ∀ (n k : Nat) (m : stepper_t), allTicks oob P n k m = true →
      ∀ j, j ≤ n → P (k + j) (ticks oob j m) = true := by
  intro n
  induction n with
  | zero =>
    intro k m h j hj
    have : j = 0 := by omega
    subst this; exact h
  | succ n ih =>
    intro k m h j hj
    rw [allTicks, Bool.and_eq_true] at h
    cases j with
    | zero => exact h.1
    | succ j =>
      have := ih (k + 1) (DoMotor oob m).motor h.2 j (by omega)
      rw [show k + (j + 1) = k + 1 + j by omega]
      exact this

theorem Reach_ticks (ok : stepper_t → Int → Prop) (init : stepper_t) (oob : Int → Nat) :
    ∀ (n : Nat) (m : stepper_t), Reach ok init m → Reach ok init (ticks oob n m) := by
  intro n
  induction n with
  | zero => intro m h; exact h
  | succ n ih => intro m h; exact ih _ (Reach.tick oob h)

/-- C3 as stated fails: on the draw axis, 105 calls of `DoMotor` into the move to
`SHOT_DRAW_STEPS` the 29th step is complete and `RampIndex` is 29, which is not below
`NUM_RAMP_STEPS * RampStretch = 29`. -/
theorem C3_counterexample :
    ∃ m, Reach whenQuiescent InitDraw m ∧ ¬ (m.RampIndex < NUM_RAMP_STEPS * m.RampStretch) := by
  refine ⟨ticks (fun _ => 0) 105 { InitDraw with Target := SHOT_DRAW_STEPS },
    Reach_ticks _ _ _ _ _ (Reach.retarget _ Reach.init (And.intro (Eq.refl (0 : Int)) (Eq.refl (0 : Int)))), ?_⟩
  have h := allTicks_spec (fun _ => 0)
    (fun k s => decide (s.RampIndex = s.Pos) &&
      decide (k = 105 → s.RampIndex = 29 ∧ s.RampStretch = 1))
    105 0 { InitDraw with Target := SHOT_DRAW_STEPS } (by decide!) 105 (le_refl _)
  simp only [Bool.and_eq_true, decide_eq_true_eq] at h
  obtain ⟨h1, h2⟩ := h.2 trivial
  rw [h1, h2]; decide

theorem wrap32_mul_le (r : Int) (h : 1 ≤ r) : wrap32 (29 * r) ≤ 29 * r := by
  unfold wrap32; omega

/-- Under its guard, the index `RampIndex / RampStretch` is inside the table. -/
theorem rampUpStep_reads (oob : Int → Nat) (m : stepper_t) (h0 : 0 ≤ m.RampIndex)
    (h1 : m.RampIndex + 1 < 2147483648) (hr : 1 ≤ m.RampStretch) :
    ∀ i ∈ (rampUpStep oob m).2, 0 ≤ i ∧ i < NUM_RAMP_STEPS := by
  intro i hi
  have hw : wrap32 (m.RampIndex + 1) = m.RampIndex + 1 := by
    apply wrap32_eq_self <;> omega
  unfold rampUpStep at hi
  split at hi
  · rename_i hg
    simp only [List.mem_singleton] at hi
    have hle := wrap32_mul_le m.RampStretch hr
    rw [hw] at hg hi
    unfold NUM_RAMP_STEPS at hg ⊢
    rw [hi, Int.tdiv_eq_ediv (by omega) (by omega)]
    exact ⟨Int.ediv_nonneg (by omega) (by omega),
      Int.ediv_lt_of_lt_mul (by omega) (by omega)⟩
  · simp at hi

theorem DoMotor_RampInv (oob : Int → Nat) (m : stepper_t) (h : RampInv m) :
    RampInv (DoMotor oob m).motor := by
  obtain ⟨ht, hp, hi, hmv⟩ := h
  have htg : toGo m = m.Target - m.Pos := by
    unfold toGo; apply wrap32_eq_self <;> omega
  by_cases hW : m.Wait = 0
  · by_cases hg : toGo m = 0
    · rw [DoMotor_arrived oob m hW hg]
      exact ⟨ht, hp, hi, fun h => absurd rfl h⟩
    · have hpT : m.Pos ≠ m.Target := by rw [htg] at hg; omega
      by_cases hs : m.Speed = 0
      · rw [DoMotor_start oob m hW hg hs]
        refine ⟨ht, hp, by simp, fun _ _ => ?_⟩
        simp only [htg]
        exact ⟨trivial, by omega⟩
      · obtain ⟨hd, hb⟩ := hmv hs hpT
        by_cases hc : 0 ≤ wrap32 (m.CountDown - m.Speed)
        · rw [DoMotor_coast oob m hW hg hs hc]
          exact ⟨ht, hp, hi, hmv⟩
        · rw [DoMotor_step oob m hW hg hs (by omega)]
          have hdir : (m.Target - m.Pos > 0 ∧ m.Dir = 1) ∨
              (¬ m.Target - m.Pos > 0 ∧ m.Dir = -1) := by
            rw [hd]; split <;> simp_all
          have hpos' : wrap32 (m.Pos + m.Dir) = m.Pos + m.Dir := by
            apply wrap32_eq_self <;> omega
          have hri : wrap32 (m.RampIndex + 1) = m.RampIndex + 1 := by
            apply wrap32_eq_self <;> omega
          obtain ⟨v, _, h | h⟩ := stepDone_motor oob m <;> rw [h, hpos', hri] <;>
            refine ⟨ht, by dsimp only; omega, by dsimp only; omega, fun _ hne => ?_⟩ <;>
            dsimp only at hne ⊢ <;>
            refine ⟨?_, by omega⟩ <;> split <;> omega
  · rw [DoMotor_wait oob m hW]
    exact ⟨ht, hp, hi, hmv⟩

theorem RampInv_of_Reach (init m : stepper_t)
    (hz : init.Pos = 0 ∧ init.Target = 0 ∧ init.Speed = 0 ∧ init.RampIndex = 0)
    (h : Reach whenQuiescentInRange init m) :
    RampInv m ∧ m.RampStretch = init.RampStretch := by
  induction h with
  | init =>
    exact ⟨⟨by omega, by omega, by omega, fun h => absurd hz.2.2.1 h⟩, rfl⟩
  | @tick oob s _ ih =>
    exact ⟨DoMotor_RampInv oob s ih.1, by rw [(DoMotor_const oob s).2.1, ih.2]⟩
  | @retarget t s _ hok ih =>
    obtain ⟨⟨_, hp, hi, _⟩, hr⟩ := ih
    exact ⟨⟨hok.2, hp, hi, fun h => absurd hok.1.1 h⟩, hr⟩

/-- C3, amended. For each of the three axes as configured by `Init`, in every state
reachable from the initial state by calls of `DoMotor` and by changes of `Target` made while
the axis is quiescent (to values `RunStepping` can assign), `0 ≤ RampIndex`, and every index
`RampIndex / RampStretch` at which a completed step reads the table lies in 0..28.
`RampIndex` itself counts the completed steps of the move and is not bounded by
`NUM_RAMP_STEPS * RampStretch`. -/
theorem C3_RampIndex_invariant (init m : stepper_t)
    (hi : init = InitDraw ∨ init = InitTilt ∨ init = InitTurret)
    (h : Reach whenQuiescentInRange init m) :
    0 ≤ m.RampIndex ∧
    ∀ (oob : Int → Nat), ∀ i ∈ (rampUpStep oob m).2, 0 ≤ i ∧ i < NUM_RAMP_STEPS := by
  have hz : init.Pos = 0 ∧ init.Target = 0 ∧ init.Speed = 0 ∧ init.RampIndex = 0 := by
    rcases hi with h | h | h <;> rw [h] <;> exact ⟨rfl, rfl, rfl, rfl⟩
  have hr : 1 ≤ init.RampStretch := by rcases hi with h | h | h <;> rw [h] <;> decide
  obtain ⟨⟨_, _, hidx, _⟩, hrs⟩ := RampInv_of_Reach init m hz h
  exact ⟨hidx.1, fun oob => rampUpStep_reads oob m hidx.1 (by omega) (by omega)⟩

/-- C3 (amended) at the draw axis after its target is set to `SHOT_DRAW_STEPS` and `DoMotor`
is called once. -/
theorem C3_RampIndex_invariant_witness :
    0 ≤ (DoMotor (fun _ => 0) { InitDraw with Target := 875 }).motor.RampIndex ∧
    ∀ (oob : Int → Nat),
      ∀ i ∈ (rampUpStep oob (DoMotor (fun _ => 0) { InitDraw with Target := 875 }).motor).2,
        0 ≤ i ∧ i < NUM_RAMP_STEPS :=
  C3_RampIndex_invariant InitDraw _ (Or.inl rfl)
    (Reach.tick (fun _ => 0) (Reach.retarget 875 Reach.init ⟨⟨rfl, rfl⟩, by decide, by decide⟩))

/-! ## Runs that stay inside the table do not depend on the memory around it -/

theorem rampRead_inTable (oob oob' : Int → Nat) (i : Int) (h : 0 ≤ i ∧ i < NUM_RAMP_STEPS) :
    rampRead oob' i = rampRead oob i := by
  unfold rampRead; rw [if_pos h, if_pos h]

theorem newSpeed_indep (oob oob' : Int → Nat) (m : stepper_t) (g a : Int)
    (h : ∀ i ∈ (newSpeed oob m g a).2, 0 ≤ i ∧ i < NUM_RAMP_STEPS) :
    newSpeed oob' m g a = newSpeed oob m g a := by
  have hup : rampUpStep oob' m = rampUpStep oob m := by
    unfold rampUpStep
    split
    · rename_i hg
      have := h (Int.tdiv (wrap32 (m.RampIndex + 1)) m.RampStretch) (by
        unfold newSpeed rampUpStep; simp [hg])
      rw [rampRead_inTable oob oob' _ this]
    · rfl
  have hdown : rampDownStep oob' (rampUpStep oob m).1 g a
      = rampDownStep oob (rampUpStep oob m).1 g a := by
    unfold rampDownStep
    split
    · rename_i hg
      have hgin := h g (by
        unfold newSpeed; simp only [List.mem_append]; right
        unfold rampDownStep; rw [if_pos hg]; split <;> simp)
      rw [rampRead_inTable oob oob' g hgin]
      split
      · rename_i hc
        have := h (Int.tdiv a (rampUpStep oob m).1.RampStretch) (by
          unfold newSpeed; simp only [List.mem_append]; right
          unfold rampDownStep; rw [if_pos hg, if_pos hc]; simp)
        rw [rampRead_inTable oob oob' _ this]
      · rfl
    · rfl
  unfold newSpeed
  rw [hup, hdown]

theorem DoMotor_indep (oob oob' : Int → Nat) (m : stepper_t)
    (h : readsInTable oob m = true) : DoMotor oob' m = DoMotor oob m := by
  by_cases hW : m.Wait = 0
  · by_cases hg : toGo m = 0
    · rw [DoMotor_arrived oob m hW hg, DoMotor_arrived oob' m hW hg]
    · by_cases hs : m.Speed = 0
      · rw [DoMotor_start oob m hW hg hs, DoMotor_start oob' m hW hg hs,
          rampRead_zero, rampRead_zero]
      · by_cases hc : 0 ≤ wrap32 (m.CountDown - m.Speed)
        · rw [DoMotor_coast oob m hW hg hs hc, DoMotor_coast oob' m hW hg hs hc]
        · have hn : ∀ i ∈ (newSpeed oob (stepped m) (toGo m) (toGoAbs m)).2,
              0 ≤ i ∧ i < NUM_RAMP_STEPS := by
            unfold readsInTable at h
            rw [DoMotor_step oob m hW hg hs (by omega)] at h
            have hr : (stepDone oob m).reads
                = (newSpeed oob (stepped m) (toGo m) (toGoAbs m)).2 := by
              unfold stepDone; split <;> rfl
            rw [hr, List.all_eq_true] at h
            intro i hi
            simpa using h i hi
          rw [DoMotor_step oob m hW hg hs (by omega), DoMotor_step oob' m hW hg hs (by omega)]
          unfold stepDone
          rw [newSpeed_indep oob oob' _ _ _ hn]
  · rw [DoMotor_wait oob m hW, DoMotor_wait oob' m hW]

theorem ticks_indep (oob oob' : Int → Nat) :
    ∀ (n : Nat) (m : stepper_t),
      (∀ j, j ≤ n → readsInTable oob (ticks oob j m) = true) →
      ∀ j, j ≤ n + 1 → ticks oob' j m = ticks oob j m := by
  intro n m h j
  induction j with
  | zero => intro _; rfl
  | succ j ih =>
    intro hj
    rw [ticks_succ_right, ticks_succ_right, ih (by omega),
      DoMotor_indep oob oob' _ (h j (by omega))]

/-! ## The worked example (C4) -/

theorem example1000_check :
    allTicks (fun _ => 0)
      (fun k s => decide (Example1000At k s (DoMotor (fun _ => 0) s).motor)
        && readsInTable (fun _ => 0) s) 2101 0 example1000 = true := by
  decide!

/-- The worked example holds call by call, whatever lies outside the table. -/
theorem example1000_run (oob : Int → Nat) (k : Nat) (hk : k ≤ 2101) :
    Example1000At k (ticks oob k example1000) (ticks oob (k + 1) example1000) := by
  have hall := allTicks_spec _ _ 2101 0 example1000 example1000_check
  have hin : ∀ j, j ≤ 2101 → readsInTable (fun _ => 0) (ticks (fun _ => 0) j example1000)
      = true := by
    intro j hj
    have := hall j hj
    rw [Bool.and_eq_true] at this
    exact this.2
  have hk1 := ticks_indep (fun _ => 0) oob 2101 example1000 hin k (by omega)
  have hk2 := ticks_indep (fun _ => 0) oob 2101 example1000 hin (k + 1) (by omega)
  have := hall k hk
  rw [Bool.and_eq_true, decide_eq_true_eq, Nat.zero_add] at this
  rw [hk1, hk2, ticks_succ_right]
  exact this.1

/-- C4, the code on the worked example: the axis with `MaxSpeed = 128`, `RampStretch = 1`,
quiescent at `Pos = 0`, with `Target = 1000`.  After every number `k ≤ 2101` of calls of
`DoMotor`, whatever lies outside the table: `Speed` starts at `RampUp[0] = 25` and equals
`RampUp[j]` after the `j`-th completed step for `1 ≤ j ≤ 28`, so the table is traversed in
order up to 128; `Speed` stays at 128 while the remaining distance is 28 or more; with
`r ≤ 27` steps remaining `Speed` is `RampUp[r + 1]`, not `RampUp[r]`: the descent runs from
126 down to `RampUp[1] = 30`, the speed at arrival, and never takes `RampUp[0] = 25`, so it
is not the table in mirrored order; the steps are made one at a time; the last one is made
by call 2080 and brings `Pos` to 1000 with `Wait = 20`; `Speed` is still not 0 (it is 30)
during the 20 calls of the dwell, and call 2101 leaves `Pos = 1000`, `Speed = 0`,
`Wait = 0` (see `Example1000At`). -/
theorem C4_worked_example (oob : Int → Nat) (k : Nat) (hk : k ≤ 2101) :
    Example1000At k (ticks oob k example1000) (ticks oob (k + 1) example1000) :=
  example1000_run oob k hk

/-- C4 at the last call: the axis is settled at 1000. -/
theorem C4_worked_example_witness :
    Example1000At 2101 (ticks (fun _ => 0) 2101 example1000)
      (ticks (fun _ => 0) (2101 + 1) example1000) :=
  C4_worked_example (fun _ => 0) 2101 (le_refl _)

/-! ## The two ramps of a move (C5) -/

theorem RampUp_getD_ge (n : Nat) (h1 : 1 ≤ n) (h2 : n < 29) : 30 ≤ RampUp.getD n 0 := by
  interval_cases n <;> simp [RampUp]

/-- C5, the code at the failing input: the worked example of the specification, the axis
with `MaxSpeed = 128`, `RampStretch = 1` moving from rest at 0 to 1000, a move longer than
the ramp.  The ramp up starts at `RampUp[0] = 25`: that is `Speed` after the first call.
From the 28th step on, through cruise and ramp down to the end of the move, `Speed` is
never 25 (and not 0 before the move is over): the ramp down stops at `RampUp[1] = 30`, the
value of `Speed` when call 2080 brings `Pos` to 1000.  So the values observed from the end
of cruise to arrival are not the reverse of those observed from the start to cruise. -/
theorem C5_ramp_down_stops_at_30 (oob : Int → Nat) :
    (ticks oob 1 example1000).Speed = 25 ∧
    (∀ k, k ≤ 2100 → 28 ≤ (ticks oob k example1000).Pos →
      (ticks oob k example1000).Speed ≠ 25 ∧ (ticks oob k example1000).Speed ≠ 0) ∧
    (ticks oob 2080 example1000).Pos = 1000 ∧ (ticks oob 2080 example1000).Speed = 30 := by
  refine ⟨?_, ?_, ?_, ?_⟩
  · show (DoMotor oob example1000).motor.Speed = 25
    rw [DoMotor_start oob example1000 rfl (by decide!) rfl]
    exact rampRead_zero oob
  · intro k hk hpos
    obtain ⟨hp, _, _, hcruise, hdown, _, _, _, hdwell, _⟩ := example1000_run oob k (by omega)
    by_cases h28 : 28 ≤ 1000 - (ticks oob k example1000).Pos
    · rw [hcruise ⟨hpos, h28⟩]; decide
    · have hd := hdown ⟨by omega, hk⟩
      have hge := RampUp_getD_ge (1000 - (ticks oob k example1000).Pos + 1).toNat
        (by omega) (by omega)
      omega
  · exact ((example1000_run oob 2080 (by omega)).2.2.2.2.2.2.2.1 rfl).1
  · have h := example1000_run oob 2080 (by omega)
    have hp := (h.2.2.2.2.2.2.2.1 rfl).1
    have hs := h.2.2.2.2.1 ⟨by omega, by omega⟩
    rw [hs, hp]; decide

/-! ## One iteration of the loop: what it does to the bookkeeping variables -/

theorem motorPhase_fields (oob : Int → Nat) (t : Int) (L : loop_t) :
    (motorPhase oob t L).1.last_fired = (if L.numticks = 0 then t else L.last_fired) ∧
    (motorPhase oob t L).1.numticks = wrap32 (L.numticks + 1) ∧
    (motorPhase oob t L).1.last_seen = L.last_seen ∧
    (motorPhase oob t L).1.GoHome = L.GoHome ∧
    (motorPhase oob t L).1.taking_shot = L.taking_shot ∧
    (motorPhase oob t L).1.XHist = L.XHist ∧
    (motorPhase oob t L).1.YHist = L.YHist ∧
    (motorPhase oob t L).1.LastShotX = L.LastShotX ∧
    (motorPhase oob t L).1.LastShotY = L.LastShotY := by
  unfold motorPhase
  simp only []
  split <;> simp

theorem fireBlock_fields (t : Int) (r : Range) (x y : Int) (L : loop_t) :
    (fireBlock t r x y L).last_seen = L.last_seen ∧
    (fireBlock t r x y L).GoHome = L.GoHome ∧
    (fireBlock t r x y L).numticks = L.numticks ∧
    (fireBlock t r x y L).motors1 = L.motors1 ∧
    (fireBlock t r x y L).motors2 = L.motors2 ∧
    (fireBlock t r x y L).XHist = L.XHist ∧
    (fireBlock t r x y L).YHist = L.YHist := by
  unfold fireBlock
  split_ifs <;> simp

theorem fireBlock_shoot (t : Int) (r : Range) (x y : Int) (L : loop_t)
    (h : shootNow t r x y L) :
    fireBlock t r x y L =
      { L with motors0 := { L.motors0 with Target := SHOT_DRAW_STEPS },
               taking_shot := SHOT_DRAW_DELAY, last_fired := t,
               LastShotX := x, LastShotY := y } := by
  unfold shootNow at h
  unfold fireBlock
  rw [if_pos h.1, if_pos h.2]

theorem fireBlock_hold (t : Int) (r : Range) (x y : Int) (L : loop_t)
    (h : ¬ shootNow t r x y L) : fireBlock t r x y L = L := by
  unfold shootNow at h
  unfold fireBlock
  split_ifs with h1 h2
  · exact absurd ⟨h1, h2⟩ h
  · rfl
  · rfl

/-! ## The decision to fire (C6) -/

theorem shootNow_congr (t : Int) (r : Range) (x y : Int) (L M : loop_t)
    (h1 : M.LastShotX = L.LastShotX) (h2 : M.LastShotY = L.LastShotY)
    (h3 : M.last_fired = L.last_fired) : shootNow t r x y M ↔ shootNow t r x y L := by
  unfold shootNow OldLoc; rw [h1, h2, h3]

/-- C6. Fire decision rule, for the handling of a target `(x, y)` accepted at time `t` in
state `L` (lines 390-450), with `r` the range found by the history loop.  A shot is
triggered (lines 428-433 run) exactly when `XMax - XMin < 5`, `YMax - YMin < 5`, the target
is not within tolerance of the last fired position (`OldLoc` is not set) and
`t - last_fired > 8000000`; so a target within tolerance triggers no shot whatever the
elapsed time, and neither does an unstable one.  When a shot is triggered the draw axis
`Target` becomes `SHOT_DRAW_STEPS = 875`, the dwell countdown `taking_shot` becomes
`SHOT_DRAW_DELAY = 150`, the last fired position becomes `(x, y)` and `last_fired` becomes
`t`; when none is triggered these four keep their values. -/
theorem C6_fire_decision (t x y : Int) (L : loop_t) :
    (shootNow t (histScroll x y L.XHist L.YHist).1 x y L ↔
      (wrap32 ((histScroll x y L.XHist L.YHist).1.XMax
          - (histScroll x y L.XHist L.YHist).1.XMin) < 5 ∧
       wrap32 ((histScroll x y L.XHist L.YHist).1.YMax
          - (histScroll x y L.XHist L.YHist).1.YMin) < 5) ∧
      ¬ OldLoc L x y ∧ wrap32 (t - L.last_fired) > 8000000) ∧
    (OldLoc L x y → ¬ shootNow t (histScroll x y L.XHist L.YHist).1 x y L) ∧
    (shootNow t (histScroll x y L.XHist L.YHist).1 x y L →
      (intake t x y L).motors0.Target = 875 ∧ (intake t x y L).taking_shot = 150 ∧
      (intake t x y L).LastShotX = x ∧ (intake t x y L).LastShotY = y ∧
      (intake t x y L).last_fired = t) ∧
    (¬ shootNow t (histScroll x y L.XHist L.YHist).1 x y L →
      (intake t x y L).motors0.Target = L.motors0.Target ∧
      (intake t x y L).taking_shot = L.taking_shot ∧
      (intake t x y L).LastShotX = L.LastShotX ∧ (intake t x y L).LastShotY = L.LastShotY ∧
      (intake t x y L).last_fired = L.last_fired) := by
  refine ⟨?_, ?_, ?_, ?_⟩
  · unfold shootNow stable; rfl
  · intro h hs; exact hs.2.1 h
  · intro h
    unfold intake
    rw [fireBlock_shoot _ _ _ _ _ ((shootNow_congr _ _ _ _ L (intakePrep x y L) rfl rfl rfl).mpr h)]
    exact ⟨rfl, rfl, rfl, rfl, rfl⟩
  · intro h
    unfold intake
    rw [fireBlock_hold _ _ _ _ _ (fun hs => h ((shootNow_congr _ _ _ _ L (intakePrep x y L) rfl rfl rfl).mp hs))]
    exact ⟨rfl, rfl, rfl, rfl, rfl⟩

/-! ## The bookkeeping of one iteration -/

theorem homing_fields (t : Int) (L : loop_t) :
    (homing t L).1.last_fired = L.last_fired ∧ (homing t L).1.LastShotX = L.LastShotX ∧
    (homing t L).1.LastShotY = L.LastShotY ∧ (homing t L).1.numticks = L.numticks ∧
    (homing t L).1.last_seen = L.last_seen ∧ (homing t L).1.taking_shot = L.taking_shot ∧
    (homing t L).1.motors0 = L.motors0 ∧
    (homing t L).1.GoHome = (if homeNow t L then 1 else L.GoHome) := by
  unfold homing homeNow
  split_ifs <;> simp_all

theorem shotDwell_fields (L : loop_t) :
    (shotDwell L).last_fired = L.last_fired ∧ (shotDwell L).LastShotX = L.LastShotX ∧
    (shotDwell L).LastShotY = L.LastShotY ∧ (shotDwell L).numticks = L.numticks ∧
    (shotDwell L).last_seen = L.last_seen ∧ (shotDwell L).GoHome = L.GoHome ∧
    (shotDwell L).motors1 = L.motors1 ∧ (shotDwell L).motors2 = L.motors2 := by
  unfold shotDwell
  split_ifs <;> simp

theorem wrap32_sub_self (t : Int) : wrap32 (t - t) = 0 := by
  rw [Int.sub_self]; decide

theorem intake_fields (t x y : Int) (L : loop_t) :
    (intake t x y L).last_seen = t ∧ (intake t x y L).GoHome = 0 ∧
    (intake t x y L).numticks = L.numticks ∧ ¬ homeNow t (intake t x y L) := by
  refine ⟨rfl, rfl, ?_, ?_⟩
  · unfold intake
    exact (fireBlock_fields _ _ _ _ _).2.2.1
  · unfold homeNow
    intro h
    have : (intake t x y L).last_seen = t := rfl
    rw [this, wrap32_sub_self] at h
    omega

/-- What an iteration does to the tick counter, to the record of the last shot and to the
homing variables. -/
theorem loopBody_book (oob : Int → Nat) (inp : TickIn) (L : loop_t) :
    (loopBody oob inp L).1.numticks = wrap32 (L.numticks + 1) ∧
    (match shotAt oob inp L with
     | some (x, y) =>
        (loopBody oob inp L).1.last_fired = inp.time1 ∧
        (loopBody oob inp L).1.LastShotX = x ∧ (loopBody oob inp L).1.LastShotY = y ∧
        L.numticks ≠ 0 ∧ wrap32 (inp.time1 - L.last_fired) > 8000000 ∧
        ¬ OldLoc L x y ∧ acceptAt oob inp L = some (x, y)
     | none =>
        (loopBody oob inp L).1.last_fired = (if L.numticks = 0 then inp.time1 else L.last_fired) ∧
        (loopBody oob inp L).1.LastShotX = L.LastShotX ∧
        (loopBody oob inp L).1.LastShotY = L.LastShotY) ∧
    (match acceptAt oob inp L with
     | some _ =>
        (loopBody oob inp L).1.last_seen = inp.time1 ∧ (loopBody oob inp L).1.GoHome = 0 ∧
        ¬ homeAt oob inp L
     | none =>
        (loopBody oob inp L).1.last_seen = L.last_seen ∧
        (loopBody oob inp L).1.GoHome = (if homeAt oob inp L then 1 else L.GoHome)) := by
  obtain ⟨m1, m2, m3, m4, m5, m6, m7, m8, m9⟩ := motorPhase_fields oob inp.time1 L
  by_cases hidle : allIdle (motorPhase oob inp.time1 L).1
  · -- all motions complete
    have hbody : (loopBody oob inp L).1
        = (idlePhase inp (motorPhase oob inp.time1 L).1).1 := by
      unfold loopBody; rw [if_pos hidle]
    rw [hbody]
    unfold idlePhase
    simp only []
    cases hudp : inp.udp with
    | none =>
      have ha : acceptAt oob inp L = none := by unfold acceptAt; rw [if_pos hidle, hudp]
      have hs : shotAt oob inp L = none := by unfold shotAt; rw [ha]
      have hh : homeAt oob inp L ↔ homeNow inp.time1 { (motorPhase oob inp.time1 L).1 with IsIdle := 1 } := by
        unfold homeAt; rw [hudp]; simp only [hidle, true_and]; unfold homeNow; rfl
      rw [ha, hs]
      simp only []
      obtain ⟨s1, s2, s3, s4, s5, s6, s7, s8⟩ := shotDwell_fields
        (homing inp.time1 { (motorPhase oob inp.time1 L).1 with IsIdle := 1 }).1
      obtain ⟨g1, g2, g3, g4, g5, g6, g7, g8⟩ := homing_fields inp.time1
        { (motorPhase oob inp.time1 L).1 with IsIdle := 1 }
      rw [s1, s2, s3, s4, s5, s6, g1, g2, g3, g4, g5, g8]
      refine ⟨m2, ⟨m1, m8, m9⟩, m3, ?_⟩
      by_cases hn : homeNow inp.time1 { (motorPhase oob inp.time1 L).1 with IsIdle := 1 }
      · rw [if_pos hn, if_pos (hh.mpr hn)]
      · rw [if_neg hn, if_neg (fun h => hn (hh.mp h))]; exact m4
    | some xy =>
      obtain ⟨x, y⟩ := xy
      have ha : acceptAt oob inp L = some (x, y) := by
        unfold acceptAt; rw [if_pos hidle, hudp]
      simp only []
      obtain ⟨i1, i2, i3, i4⟩ := intake_fields inp.time1 x y
        { (motorPhase oob inp.time1 L).1 with IsIdle := 1 }
      obtain ⟨s1, s2, s3, s4, s5, s6, s7, s8⟩ := shotDwell_fields
        (homing inp.time1 (intake inp.time1 x y
          { (motorPhase oob inp.time1 L).1 with IsIdle := 1 })).1
      obtain ⟨g1, g2, g3, g4, g5, g6, g7, g8⟩ := homing_fields inp.time1
        (intake inp.time1 x y { (motorPhase oob inp.time1 L).1 with IsIdle := 1 })
      have hh : ¬ homeAt oob inp L := by
        unfold homeAt; rw [hudp]; simp only [hidle, true_and]
        intro h
        apply i4
        unfold homeNow at h ⊢
        exact h
      rw [ha]
      simp only []
      rw [s1, s2, s3, s4, s5, s6, g1, g2, g3, g4, g5, g8, if_neg i4, i1, i2, i3]
      refine ⟨m2, ?_, rfl, rfl, hh⟩
      unfold shotAt; rw [ha]
      simp only []
      unfold rangeAt
      by_cases hsn : shootNow inp.time1
          (histScroll x y (motorPhase oob inp.time1 L).1.XHist
            (motorPhase oob inp.time1 L).1.YHist).1 x y (motorPhase oob inp.time1 L).1
      · rw [if_pos hsn]
        simp only []
        have hsn' := (shootNow_congr inp.time1 _ x y (motorPhase oob inp.time1 L).1
          (intakePrep x y { (motorPhase oob inp.time1 L).1 with IsIdle := 1 })
          rfl rfl rfl).mpr hsn
        unfold intake
        rw [fireBlock_shoot _ _ _ _ _ hsn']
        refine ⟨rfl, rfl, rfl, ?_⟩
        unfold shootNow OldLoc at hsn
        rw [m1, m8, m9] at hsn
        obtain ⟨_, ho, he⟩ := hsn
        by_cases hz : L.numticks = 0
        · rw [if_pos hz, wrap32_sub_self] at he; omega
        · rw [if_neg hz] at he
          exact ⟨hz, he, by unfold OldLoc; exact ho, trivial⟩
      · rw [if_neg hsn]
        simp only []
        have hsn' : ¬ shootNow inp.time1
            (histScroll x y (motorPhase oob inp.time1 L).1.XHist
              (motorPhase oob inp.time1 L).1.YHist).1 x y
            (intakePrep x y { (motorPhase oob inp.time1 L).1 with IsIdle := 1 }) :=
          fun h => hsn ((shootNow_congr inp.time1 _ x y (motorPhase oob inp.time1 L).1
            (intakePrep x y { (motorPhase oob inp.time1 L).1 with IsIdle := 1 })
            rfl rfl rfl).mp h)
        unfold intake
        rw [fireBlock_hold _ _ _ _ _ hsn']
        exact ⟨m1, m8, m9⟩
  · -- some axis is still moving
    have hbody : (loopBody oob inp L).1 = { (motorPhase oob inp.time1 L).1 with IsIdle := 0 } := by
      unfold loopBody; rw [if_neg hidle]
    have ha : acceptAt oob inp L = none := by unfold acceptAt; rw [if_neg hidle]
    have hs : shotAt oob inp L = none := by unfold shotAt; rw [ha]
    have hh : ¬ homeAt oob inp L := fun h => hidle h.1
    rw [hbody, ha, hs, if_neg hh]
    exact ⟨m2, ⟨m1, m8, m9⟩, m3, m4⟩

/-! ## Shots are more than the cooldown apart (C7) -/

theorem wrap32_elapsed (a c : Int) (h0 : c ≤ a) (h1 : a - c < 2147483648) :
    wrap32 (wrap32 a - wrap32 c) = a - c := by
  unfold wrap32; omega

/-- From a state whose `last_fired` is the register value of clock `c`, with the clock of
every coming iteration at or after `c` and less than 2^31 later: every shot comes more
than 8000000 after `c`, and any two shots are more than 8000000 apart. -/
theorem shotLog_gaps (oob : Int → Nat) :
    ∀ (evs : List Event) (L : loop_t) (c : Int),
      evs.Pairwise (fun a b => a.clock ≤ b.clock ∧ b.clock - a.clock < 2147483648) →
      L.last_fired = wrap32 c →
      (∀ e ∈ evs, c ≤ e.clock ∧ e.clock - c < 2147483648) →
      (∀ s ∈ shotLog oob evs L, s.1 - c > 8000000) ∧
      (shotLog oob evs L).Pairwise (fun a b => b.1 - a.1 > 8000000) := by
  intro evs
  induction evs with
  | nil => intro L c _ _ _; exact ⟨fun s hs => by simp [shotLog] at hs, List.Pairwise.nil⟩
  | cons e evs ih =>
    intro L c hp hl hc
    rw [List.pairwise_cons] at hp
    obtain ⟨hpe, hpt⟩ := hp
    have hce := hc e (List.mem_cons_self _ _)
    have hbook := (loopBody_book oob e.tick L).2.1
    cases hs : shotAt oob e.tick L with
    | none =>
      rw [hs] at hbook
      simp only [] at hbook
      have hlog : shotLog oob (e :: evs) L = shotLog oob evs (loopBody oob e.tick L).1 := by
        rw [shotLog, hs]
      rw [hlog]
      by_cases hz : L.numticks = 0
      · rw [if_pos hz] at hbook
        obtain ⟨h1, h2⟩ := ih (loopBody oob e.tick L).1 e.clock hpt hbook.1 hpe
        exact ⟨fun s hs => by have := h1 s hs; omega, h2⟩
      · rw [if_neg hz, hl] at hbook
        exact ih (loopBody oob e.tick L).1 c hpt hbook.1
          (fun e' he' => hc e' (List.mem_cons_of_mem _ he'))
    | some xy =>
      obtain ⟨x, y⟩ := xy
      rw [hs] at hbook
      simp only [] at hbook
      have hlog : shotLog oob (e :: evs) L
          = (e.clock, x, y) :: shotLog oob evs (loopBody oob e.tick L).1 := by
        rw [shotLog, hs]
      rw [hlog]
      have hel : e.clock - c > 8000000 := by
        have := hbook.2.2.2.2.1
        rw [hl] at this
        change wrap32 (wrap32 e.clock - wrap32 c) > 8000000 at this
        rw [wrap32_elapsed e.clock c hce.1 hce.2] at this
        exact this
      obtain ⟨h1, h2⟩ := ih (loopBody oob e.tick L).1 e.clock hpt hbook.1 hpe
      refine ⟨?_, List.Pairwise.cons (fun s hs => h1 s hs) h2⟩
      intro s hs
      rw [List.mem_cons] at hs
      rcases hs with hs | hs
      · rw [hs]; exact hel
      · have := h1 s hs; omega

/-- C7. Dedup, suppression half.  In every run of the control loop from its initial state
whose iterations lie less than 2^31 microseconds apart, any two shots triggered are more
than 8000000 microseconds apart, and every shot comes more than 8000000 microseconds after
the first iteration, where the loop starts its cooldown clock.  So two accepted stable
targets of which the second is accepted no more than the cooldown after the first do not
both trigger a shot, within tolerance of each other or not. -/
theorem C7_shots_apart (oob : Int → Nat) (last_seen : Int) (e0 : Event) (evs : List Event)
    (hclock : (e0 :: evs).Pairwise
      (fun a b => a.clock ≤ b.clock ∧ b.clock - a.clock < 2147483648)) :
    (shotLog oob (e0 :: evs) (RunSteppingInit last_seen)).Pairwise
      (fun a b => b.1 - a.1 > 8000000) ∧
    (∀ s ∈ shotLog oob (e0 :: evs) (RunSteppingInit last_seen), s.1 - e0.clock > 8000000) ∧
    (shotLog oob (e0 :: evs) (RunSteppingInit last_seen)).Pairwise
      (fun a b => ¬ (b.1 - a.1 ≤ 8000000)) := by
  rw [List.pairwise_cons] at hclock
  obtain ⟨hpe, hpt⟩ := hclock
  have hbook := (loopBody_book oob e0.tick (RunSteppingInit last_seen)).2.1
  have hs : shotAt oob e0.tick (RunSteppingInit last_seen) = none := by
    cases h : shotAt oob e0.tick (RunSteppingInit last_seen) with
    | none => rfl
    | some xy =>
      rw [h] at hbook
      exact absurd rfl hbook.2.2.2.1
  rw [hs] at hbook
  have hlog : shotLog oob (e0 :: evs) (RunSteppingInit last_seen)
      = shotLog oob evs (loopBody oob e0.tick (RunSteppingInit last_seen)).1 := by
    rw [shotLog, hs]
  rw [hlog]
  have hlf : (loopBody oob e0.tick (RunSteppingInit last_seen)).1.last_fired
      = wrap32 e0.clock := hbook.1
  obtain ⟨h1, h2⟩ := shotLog_gaps oob evs _ e0.clock hpt hlf hpe
  exact ⟨h2, h1, h2.imp (fun h => by omega)⟩

/-- C7 on a run of three iterations: the loop starts at clock 0, accepts the stable target
(0, 0) at 9000000 and again at 9000200. -/
theorem C7_shots_apart_witness :
    (shotLog (fun _ => 0) [⟨0, none⟩, ⟨9000000, some (0, 0)⟩, ⟨9000200, some (0, 0)⟩]
      (RunSteppingInit 0)).Pairwise (fun a b => b.1 - a.1 > 8000000) ∧
    (∀ s ∈ shotLog (fun _ => 0) [⟨0, none⟩, ⟨9000000, some (0, 0)⟩, ⟨9000200, some (0, 0)⟩]
      (RunSteppingInit 0), s.1 - (⟨0, none⟩ : Event).clock > 8000000) ∧
    (shotLog (fun _ => 0) [⟨0, none⟩, ⟨9000000, some (0, 0)⟩, ⟨9000200, some (0, 0)⟩]
      (RunSteppingInit 0)).Pairwise (fun a b => ¬ (b.1 - a.1 ≤ 8000000)) :=
  C7_shots_apart (fun _ => 0) 0 ⟨0, none⟩ [⟨9000000, some (0, 0)⟩, ⟨9000200, some (0, 0)⟩]
    (by decide)

/-! ## Runs of the loop -/

theorem runEvents_cons (oob : Int → Nat) (e : Event) (evs : List Event) (L : loop_t) :
    runEvents oob (e :: evs) L = runEvents oob evs (loopBody oob e.tick L).1 := rfl

/-! ## Runs: appending, quiet iterations, and what survives between shots -/

theorem runEvents_append (oob : Int → Nat) :
    ∀ (a b : List Event) (L : loop_t),
      runEvents oob (a ++ b) L = runEvents oob b (runEvents oob a L) := by
  intro a
  induction a with
  | nil => intro b L; rfl
  | cons e a ih => intro b L; rw [List.cons_append, runEvents_cons, runEvents_cons, ih]

theorem intakeLog_append (oob : Int → Nat) :
    ∀ (a b : List Event) (L : loop_t),
      intakeLog oob (a ++ b) L = intakeLog oob a L ++ intakeLog oob b (runEvents oob a L) := by
  intro a
  induction a with
  | nil => intro b L; rfl
  | cons e a ih =>
    intro b L
    rw [List.cons_append, intakeLog, intakeLog, runEvents_cons]
    cases acceptAt oob e.tick L with
    | none => simp only []; rw [ih]
    | some xy => obtain ⟨x, y⟩ := xy; simp only []; rw [ih, List.cons_append]

theorem acceptAt_quiet (oob : Int → Nat) (e : Event) (L : loop_t) (h : e.udp = none) :
    acceptAt oob e.tick L = none := by
  unfold acceptAt
  split
  · exact h
  · rfl

theorem quietTicks_udp (c : Int) (n : Nat) : ∀ e ∈ quietTicks c n, e.udp = none := by
  intro e he
  unfold quietTicks at he
  rw [List.mem_map] at he
  obtain ⟨k, _, hk⟩ := he
  rw [← hk]

theorem intakeLog_quiet (oob : Int → Nat) :
    ∀ (evs : List Event) (L : loop_t), (∀ e ∈ evs, e.udp = none) → intakeLog oob evs L = [] := by
  intro evs
  induction evs with
  | nil => intro L _; rfl
  | cons e evs ih =>
    intro L h
    rw [intakeLog, acceptAt_quiet oob e L (h e (List.mem_cons_self _ _))]
    exact ih _ (fun e' he' => h e' (List.mem_cons_of_mem _ he'))

theorem shotLog_quiet (oob : Int → Nat) :
    ∀ (evs : List Event) (L : loop_t), (∀ e ∈ evs, e.udp = none) → shotLog oob evs L = [] := by
  intro evs
  induction evs with
  | nil => intro L _; rfl
  | cons e evs ih =>
    intro L h
    have hs : shotAt oob e.tick L = none := by
      unfold shotAt; rw [acceptAt_quiet oob e L (h e (List.mem_cons_self _ _))]
    rw [shotLog, hs]
    exact ih _ (fun e' he' => h e' (List.mem_cons_of_mem _ he'))

/-- Iterations that trigger no shot, the first one apart, leave the record of the last shot
alone. -/
theorem shotLog_nil_keeps (oob : Int → Nat) :
    ∀ (evs : List Event) (L : loop_t),
      1 ≤ L.numticks → L.numticks + evs.length < 2147483648 → shotLog oob evs L = [] →
      (runEvents oob evs L).last_fired = L.last_fired ∧
      (runEvents oob evs L).LastShotX = L.LastShotX ∧
      (runEvents oob evs L).LastShotY = L.LastShotY ∧
      (runEvents oob evs L).numticks = L.numticks + evs.length := by
  intro evs
  induction evs with
  | nil => intro L _ _ _; exact ⟨rfl, rfl, rfl, by simp [runEvents, runLoop]⟩
  | cons e evs ih =>
    intro L h1 h2 hlog
    rw [List.length_cons] at h2
    obtain ⟨hn, hbook, _⟩ := loopBody_book oob e.tick L
    have hn' : (loopBody oob e.tick L).1.numticks = L.numticks + 1 := by
      rw [hn]; apply wrap32_eq_self <;> omega
    cases hs : shotAt oob e.tick L with
    | some xy =>
      obtain ⟨x, y⟩ := xy
      rw [shotLog, hs] at hlog
      exact absurd hlog (List.cons_ne_nil _ _)
    | none =>
      rw [shotLog, hs] at hlog
      rw [hs] at hbook
      simp only [] at hbook
      rw [if_neg (by omega)] at hbook
      obtain ⟨i1, i2, i3, i4⟩ := ih (loopBody oob e.tick L).1 (by omega) (by omega) hlog
      refine ⟨by rw [runEvents_cons, i1, hbook.1], by rw [runEvents_cons, i2, hbook.2.1],
        by rw [runEvents_cons, i3, hbook.2.2], ?_⟩
      rw [runEvents_cons, i4, hn', List.length_cons]
      push_cast
      omega

/-! ## A run of the program up to the drawn band -/

theorem DoMotor_settled (oob : Int → Nat) (m : stepper_t) (h : settled m) :
    DoMotor oob m = ⟨m, [], []⟩ := by
  obtain ⟨hp, hs, hw⟩ := h
  have hg : toGo m = 0 := by unfold toGo; rw [hp, Int.sub_self]; decide
  rw [DoMotor_arrived oob m hw hg]
  cases m
  simp_all

/-- An iteration in which the tilt and turret axes are settled and the draw axis is still
not quiescent after its call of `DoMotor` only advances the draw axis and the tick
counter. -/
theorem loopBody_busy (oob : Int → Nat) (inp : TickIn) (L : loop_t)
    (h1 : settled L.motors1) (h2 : settled L.motors2) (hn : 1 ≤ L.numticks)
    (hn' : L.numticks + 1 < 2147483648)
    (hb : ¬ quiescent (DoMotor oob L.motors0).motor) :
    (loopBody oob inp L).1 =
      { L with motors0 := (DoMotor oob L.motors0).motor, numticks := L.numticks + 1,
               IsIdle := 0 } := by
  have hmp : (motorPhase oob inp.time1 L).1 =
      { L with motors0 := (DoMotor oob L.motors0).motor, numticks := L.numticks + 1 } := by
    have hz : L.numticks ≠ 0 := by omega
    unfold motorPhase
    rw [DoMotor_settled oob _ h1, DoMotor_settled oob _ h2]
    simp only [hz, if_false]
    rw [wrap32_eq_self _ (by omega) (by omega)]
  have hidle : ¬ allIdle (motorPhase oob inp.time1 L).1 := by
    rw [hmp]
    intro h
    exact hb ⟨h.1, h.2.1⟩
  unfold loopBody
  rw [if_neg hidle, hmp]

/-- Iterations during which the draw axis moves, the other two axes being settled: the
state changes only by the calls of `DoMotor` on the draw axis and by the tick counter. -/
theorem runEvents_busy (oob : Int → Nat) :
    ∀ (evs : List Event) (L : loop_t),
      settled L.motors1 → settled L.motors2 → 1 ≤ L.numticks →
      L.numticks + evs.length < 2147483648 →
      (∀ j, 1 ≤ j → j ≤ evs.length → ¬ quiescent (ticks oob j L.motors0)) →
      evs ≠ [] →
      runEvents oob evs L =
        { L with motors0 := ticks oob evs.length L.motors0,
                 numticks := L.numticks + evs.length, IsIdle := 0 } := by
  intro evs
  induction evs with
  | nil => intro L _ _ _ _ _ h; exact absurd rfl h
  | cons e evs ih =>
    intro L h1 h2 hn hlen hb _
    rw [List.length_cons] at hlen hb
    push_cast at hlen
    have hstep := loopBody_busy oob e.tick L h1 h2 hn (by omega)
      (hb 1 (le_refl _) (by omega))
    rw [runEvents_cons, hstep]
    by_cases hnil : evs = []
    · subst hnil
      rfl
    · have hrec := ih
        { L with motors0 := (DoMotor oob L.motors0).motor, numticks := L.numticks + 1,
                 IsIdle := 0 }
        h1 h2 (by show 1 ≤ L.numticks + 1; omega)
        (by show L.numticks + 1 + (evs.length : Int) < 2147483648; omega)
        (fun j hj1 hj2 => hb (j + 1) (by omega) (by omega)) hnil
      rw [hrec]
      show _ = { L with motors0 := ticks oob evs.length (DoMotor oob L.motors0).motor,
                        numticks := L.numticks + ((evs.length + 1 : Nat) : Int), IsIdle := 0 }
      congr 1
      push_cast
      omega

theorem quietTicks_length (c : Int) (n : Nat) : (quietTicks c n).length = n := by
  unfold quietTicks
  rw [List.length_map, List.length_range]

/-- The draw of 875 steps, call by call. -/
theorem draw_check : allTicks (fun _ => 0) drawCheck 1850 0 drawStart = true := by
  decide!

theorem demoRun_start :
    runEvents (fun _ => 0) [⟨0, none⟩, ⟨9000000, some (0, 0)⟩] (RunSteppingInit 0)
      = shotState := by
  decide!

set_option maxRecDepth 100000 in
theorem demoRun_state : runEvents (fun _ => 0) demoRun (RunSteppingInit 0) = drawnState := by
  have hall := allTicks_spec (fun _ => 0) drawCheck 1850 0 drawStart draw_check
  have hbusy : ∀ j, 1 ≤ j → j ≤ (quietTicks 9000200 1850).length →
      ¬ quiescent (ticks (fun _ => 0) j shotState.motors0) := by
    intro j hj1 hj2
    rw [quietTicks_length] at hj2
    have := hall j hj2
    unfold drawCheck at this
    rw [decide_eq_true_eq, Nat.zero_add] at this
    exact this.1 hj1
  have hend : ticks (fun _ => 0) 1850 shotState.motors0 = drawnMotor := by
    have := hall 1850 (le_refl _)
    unfold drawCheck at this
    rw [decide_eq_true_eq] at this
    exact this.2 rfl
  have hne : quietTicks 9000200 1850 ≠ [] := by
    intro h
    have := quietTicks_length 9000200 1850
    rw [h] at this
    exact absurd this (by decide)
  unfold demoRun
  rw [runEvents_append, demoRun_start,
    runEvents_busy (fun _ => 0) _ shotState (by decide) (by decide) (by decide)
      (by rw [quietTicks_length]; decide) hbusy hne,
    quietTicks_length, hend]
  rfl

/-! ## Shooting the same spot again (C8) -/

theorem OldLoc_iff (L : loop_t) (x y : Int) (hx : coordOk L.LastShotX ∧ coordOk x)
    (hy : coordOk L.LastShotY ∧ coordOk y) :
    OldLoc L x y ↔ (-3 < L.LastShotX - x ∧ L.LastShotX - x < 3 ∧
                     -3 < L.LastShotY - y ∧ L.LastShotY - y < 3) := by
  unfold coordOk at hx hy
  unfold OldLoc
  rw [wrap32_eq_self (L.LastShotX - x) (by omega) (by omega),
    wrap32_eq_self (L.LastShotY - y) (by omega) (by omega)]
  constructor <;> intro h <;> omega

/-- C8 as stated fails.  In the run `demoRun` followed by one more iteration the loop
accepts the stable target (0, 0) at clock 9000000 and again at clock 20000000, more than
the cooldown later; nothing else is accepted in between; the first triggers a shot and the
second, at the very same position, does not. -/
theorem C8_counterexample :
    intakeLog (fun _ => 0) (demoRun ++ [⟨20000000, some (0, 0)⟩]) (RunSteppingInit 0)
      = [(9000000, (0, 0), true, true), (20000000, (0, 0), true, false)] := by
  rw [intakeLog_append, demoRun_state]
  have h1 : intakeLog (fun _ => 0) demoRun (RunSteppingInit 0)
      = [(9000000, (0, 0), true, true)] := by
    unfold demoRun
    rw [intakeLog_append,
      intakeLog_quiet _ (quietTicks 9000200 1850) _ (quietTicks_udp 9000200 1850)]
    decide!
  rw [h1]
  decide!

/-- C8, amended.  If an iteration triggers a shot at target `(x1, y1)`, the iterations
`mid` that follow trigger none, and the next iteration accepts a stable target `(x2, y2)`,
then that iteration triggers a shot exactly when `(x2, y2)` differs from `(x1, y1)` by 3 or
more on some axis and the time since the shot as the program computes it, the signed
32-bit difference of the two clock readings, exceeds 8000000.  So a target accepted more
than 8000000 and less than 2^31 microseconds after the shot triggers a shot exactly when
it differs by 3 or more on some axis; and a target less than 3 away on both axes, the same
position included, triggers none, however long after the shot. -/
theorem C8_retrigger (oob : Int → Nat) (L : loop_t) (a : Event) (mid : List Event)
    (b : Event) (x1 y1 x2 y2 : Int)
    (hn : 0 ≤ L.numticks ∧ L.numticks + mid.length + 2 < 2147483648)
    (hshot : shotAt oob a.tick L = some (x1, y1))
    (hmid : shotLog oob mid (loopBody oob a.tick L).1 = [])
    (hacc : acceptAt oob b.tick (runEvents oob (a :: mid) L) = some (x2, y2))
    (hstable : stable (rangeAt oob b.tick (runEvents oob (a :: mid) L) x2 y2))
    (hx : coordOk x1 ∧ coordOk x2) (hy : coordOk y1 ∧ coordOk y2) :
    shotAt oob b.tick (runEvents oob (a :: mid) L) =
      (if -3 < x1 - x2 ∧ x1 - x2 < 3 ∧ -3 < y1 - y2 ∧ y1 - y2 < 3 then none
       else if 8000000 < wrap32 (wrap32 b.clock - wrap32 a.clock) then some (x2, y2)
       else none) ∧
    (8000000 < b.clock - a.clock → b.clock - a.clock < 2147483648 →
      shotAt oob b.tick (runEvents oob (a :: mid) L) =
        (if -3 < x1 - x2 ∧ x1 - x2 < 3 ∧ -3 < y1 - y2 ∧ y1 - y2 < 3 then none
         else some (x2, y2))) := by
  obtain ⟨hnt, hbook, _⟩ := loopBody_book oob a.tick L
  rw [hshot] at hbook
  simp only [] at hbook
  obtain ⟨hlf, hlx, hly, hz, _⟩ := hbook
  have hnt' : (loopBody oob a.tick L).1.numticks = L.numticks + 1 := by
    rw [hnt]; apply wrap32_eq_self <;> omega
  obtain ⟨k1, k2, k3, k4⟩ := shotLog_nil_keeps oob mid (loopBody oob a.tick L).1
    (by omega) (by omega) hmid
  rw [← runEvents_cons] at k1 k2 k3 k4
  generalize runEvents oob (a :: mid) L = M at *
  obtain ⟨m1, _, _, _, _, _, _, m8, m9⟩ := motorPhase_fields oob b.tick.time1 M
  have hM0 : M.numticks ≠ 0 := by omega
  rw [if_neg hM0] at m1
  have hold : OldLoc (motorPhase oob b.tick.time1 M).1 x2 y2 ↔
      (-3 < x1 - x2 ∧ x1 - x2 < 3 ∧ -3 < y1 - y2 ∧ y1 - y2 < 3) := by
    have := OldLoc_iff (motorPhase oob b.tick.time1 M).1 x2 y2
      (by rw [m8, k2, hlx]; exact hx) (by rw [m9, k3, hly]; exact hy)
    rw [m8, m9, k2, k3, hlx, hly] at this
    exact this
  have hel : wrap32 (b.tick.time1 - (motorPhase oob b.tick.time1 M).1.last_fired)
      = wrap32 (wrap32 b.clock - wrap32 a.clock) := by
    rw [m1, k1, hlf]
    rfl
  have hgen : shotAt oob b.tick M =
      (if -3 < x1 - x2 ∧ x1 - x2 < 3 ∧ -3 < y1 - y2 ∧ y1 - y2 < 3 then none
       else if 8000000 < wrap32 (wrap32 b.clock - wrap32 a.clock) then some (x2, y2)
       else none) := by
    unfold shotAt
    rw [hacc]
    simp only []
    unfold shootNow
    by_cases hc : -3 < x1 - x2 ∧ x1 - x2 < 3 ∧ -3 < y1 - y2 ∧ y1 - y2 < 3
    · rw [if_pos hc, if_neg (fun h => h.2.1 (hold.mpr hc))]
    · rw [if_neg hc]
      by_cases ht : 8000000 < wrap32 (wrap32 b.clock - wrap32 a.clock)
      · rw [if_pos ht, if_pos ⟨hstable, fun h => hc (hold.mp h), by rw [hel]; exact ht⟩]
      · rw [if_neg ht, if_neg (fun h => ht (by have h3 := h.2.2; rw [hel] at h3; exact h3))]
  refine ⟨hgen, ?_⟩
  intro hlate hwin
  rw [hgen, wrap32_elapsed b.clock a.clock (by omega) hwin, if_pos hlate]

set_option maxRecDepth 100000 in
/-- C8 (amended) on a run of the program: the shot at (0, 0) at clock 9000000, the 1850
iterations of the draw, then the stable target (4, 0) accepted at clock 20000000, which
triggers a shot. -/
theorem C8_retrigger_witness :
    shotAt (fun _ => 0) (⟨20000000, some (4, 0)⟩ : Event).tick
      (runEvents (fun _ => 0) (⟨9000000, some (0, 0)⟩ :: quietTicks 9000200 1850)
        (loopBody (fun _ => 0) (⟨0, none⟩ : Event).tick (RunSteppingInit 0)).1) =
      (if -3 < (0 : Int) - 4 ∧ (0 : Int) - 4 < 3 ∧ -3 < (0 : Int) - 0 ∧ (0 : Int) - 0 < 3
       then none else some (4, 0)) := by
  have hst : runEvents (fun _ => 0) (⟨9000000, some (0, 0)⟩ :: quietTicks 9000200 1850)
      (loopBody (fun _ => 0) (⟨0, none⟩ : Event).tick (RunSteppingInit 0)).1 = drawnState := by
    have h := demoRun_state
    unfold demoRun at h
    rw [List.cons_append, List.cons_append, List.nil_append, runEvents_cons] at h
    exact h
  exact (C8_retrigger (fun _ => 0) _ ⟨9000000, some (0, 0)⟩ (quietTicks 9000200 1850)
    ⟨20000000, some (4, 0)⟩ 0 0 4 0 (by decide!) (by decide!)
    (shotLog_quiet _ _ _ (quietTicks_udp 9000200 1850))
    (by rw [hst]; decide!) (by rw [hst]; decide!) (by decide)
    (by decide)).2 (by decide) (by decide)

/-! ## The tolerance around the last shot (C9) -/

/-- C9 as stated fails.  In the run `demoRun` followed by one more iteration the last fired
position is (0, 0); the stable target (3, 0), accepted at clock 20000000 after the cooldown,
differs from it by exactly 3 on one axis and 0 on the other, is not taken for the old spot
and triggers a shot. -/
theorem C9_counterexample :
    intakeLog (fun _ => 0) (demoRun ++ [⟨20000000, some (3, 0)⟩]) (RunSteppingInit 0)
      = [(9000000, (0, 0), true, true), (20000000, (3, 0), true, true)] ∧
    (runEvents (fun _ => 0) demoRun (RunSteppingInit 0)).LastShotX = 0 ∧
    (runEvents (fun _ => 0) demoRun (RunSteppingInit 0)).LastShotY = 0 ∧
    ¬ OldLoc (runEvents (fun _ => 0) demoRun (RunSteppingInit 0)) 3 0 := by
  rw [intakeLog_append, demoRun_state]
  have h1 : intakeLog (fun _ => 0) demoRun (RunSteppingInit 0)
      = [(9000000, (0, 0), true, true)] := by
    unfold demoRun
    rw [intakeLog_append,
      intakeLog_quiet _ (quietTicks 9000200 1850) _ (quietTicks_udp 9000200 1850)]
    decide!
  rw [h1]
  exact ⟨by decide!, by decide!, by decide!, by decide!⟩

/-- C9, amended.  A target counts as within tolerance of the last fired position (`OldLoc`
is set) exactly when `|LastShotX - x| ≤ 2` and `|LastShotY - y| ≤ 2`, that is when both
differences are strictly below 3; a stable target that differs from the last fired position
by exactly 3 on an axis is a new spot and triggers a shot once the cooldown has elapsed. -/
theorem C9_tolerance (L : loop_t) (x y : Int) (hx : coordOk L.LastShotX ∧ coordOk x)
    (hy : coordOk L.LastShotY ∧ coordOk y) :
    (OldLoc L x y ↔ (L.LastShotX - x).natAbs ≤ 2 ∧ (L.LastShotY - y).natAbs ≤ 2) ∧
    (∀ (t : Int) (r : Range), stable r →
      (L.LastShotX - x).natAbs = 3 ∨ (L.LastShotY - y).natAbs = 3 →
      wrap32 (t - L.last_fired) > 8000000 → shootNow t r x y L) := by
  have h := OldLoc_iff L x y hx hy
  refine ⟨?_, ?_⟩
  · rw [h]; constructor <;> intro h' <;> omega
  · intro t r hs h3 hel
    exact ⟨hs, fun ho => by rw [h] at ho; omega, hel⟩

/-- C9 (amended) at the state left by `demoRun`, last shot at (0, 0), and the target
(3, 0). -/
theorem C9_tolerance_witness :
    (OldLoc drawnState 3 0 ↔ (drawnState.LastShotX - 3).natAbs ≤ 2 ∧
      (drawnState.LastShotY - 0).natAbs ≤ 2) ∧
    (∀ (t : Int) (r : Range), stable r →
      (drawnState.LastShotX - 3).natAbs = 3 ∨ (drawnState.LastShotY - 0).natAbs = 3 →
      wrap32 (t - drawnState.last_fired) > 8000000 → shootNow t r 3 0 drawnState) :=
  C9_tolerance drawnState 3 0 (by decide) (by decide)

/-! ## Homing (C10) -/

/-- In an iteration that accepts no target, the home position is assigned exactly when all
motions are complete, the time since `last_seen` exceeds the first threshold and `GoHome`
is still 0. -/
theorem homeAt_iff (oob : Int → Nat) (inp : TickIn) (L : loop_t)
    (h : acceptAt oob inp L = none) :
    homeAt oob inp L ↔ dueAt oob L.last_seen inp L ∧ L.GoHome = 0 := by
  obtain ⟨_, _, m3, m4, _⟩ := motorPhase_fields oob inp.time1 L
  unfold homeAt dueAt
  by_cases hidle : allIdle (motorPhase oob inp.time1 L).1
  · have hu : inp.udp = none := by
      unfold acceptAt at h; rw [if_pos hidle] at h; exact h
    rw [hu]
    simp only [hidle, true_and]
    unfold homeNow
    rw [m3, m4]
  · simp only [hidle, false_and]

/-- The iteration that assigns the home position leaves the tilt and turret targets at 0 and
`GoHome` at 1. -/
theorem homeAt_effect (oob : Int → Nat) (inp : TickIn) (L : loop_t) (h : homeAt oob inp L) :
    (loopBody oob inp L).1.motors1.Target = 0 ∧ (loopBody oob inp L).1.motors2.Target = 0 ∧
    (loopBody oob inp L).1.GoHome = 1 := by
  obtain ⟨hidle, hn⟩ := h
  have hbody : (loopBody oob inp L).1
      = (idlePhase inp (motorPhase oob inp.time1 L).1).1 := by
    unfold loopBody; rw [if_pos hidle]
  rw [hbody]
  unfold idlePhase
  simp only []
  have key : ∀ M : loop_t, homeNow inp.time1 M →
      (shotDwell (homing inp.time1 M).1).motors1.Target = 0 ∧
      (shotDwell (homing inp.time1 M).1).motors2.Target = 0 ∧
      (shotDwell (homing inp.time1 M).1).GoHome = 1 := by
    intro M hM
    obtain ⟨_, _, _, _, _, s6, s7, s8⟩ := shotDwell_fields (homing inp.time1 M).1
    rw [s6, s7, s8]
    unfold homeNow at hM
    unfold homing
    rw [if_pos hM.1, if_pos hM.2]
    exact ⟨rfl, rfl, rfl⟩
  cases hu : inp.udp with
  | none =>
    rw [hu] at hn
    simp only []
    exact key _ (by unfold homeNow at hn ⊢; exact hn)
  | some xy =>
    obtain ⟨x, y⟩ := xy
    rw [hu] at hn
    simp only [] at hn ⊢
    exact key _ (by unfold homeNow at hn ⊢; exact hn)

theorem firstOnly_false (n : List Bool) (h : ∀ b ∈ n, b = false) : firstOnly n = n := by
  induction n with
  | nil => rfl
  | cons b r ih =>
    have hb := h b (List.mem_cons_self _ _)
    subst hb
    rw [firstOnly, ih (fun b hb => h b (List.mem_cons_of_mem _ hb))]

/-- Along iterations that accept no target, with `last_seen = s`: if `GoHome` is already set
the home position is not assigned again; if it is still 0 it is assigned at the first due
iteration and at no other. -/
theorem homeLog_segment (oob : Int → Nat) (s : Int) :
    ∀ (evs : List Event) (L : loop_t), L.last_seen = s → intakeLog oob evs L = [] →
      (L.GoHome ≠ 0 → homeLog oob evs L = (dueLog oob s evs L).map (fun _ => false)) ∧
      (L.GoHome = 0 → homeLog oob evs L = firstOnly (dueLog oob s evs L)) := by
  intro evs
  induction evs with
  | nil => intro L _ _; exact ⟨fun _ => rfl, fun _ => rfl⟩
  | cons e evs ih =>
    intro L hs hlog
    have hacc : acceptAt oob e.tick L = none := by
      cases h : acceptAt oob e.tick L with
      | none => rfl
      | some xy =>
        obtain ⟨x, y⟩ := xy
        rw [intakeLog, h] at hlog
        exact absurd hlog (List.cons_ne_nil _ _)
    rw [intakeLog, hacc] at hlog
    have hbook := (loopBody_book oob e.tick L).2.2
    rw [hacc] at hbook
    simp only [] at hbook
    obtain ⟨b1, b2⟩ := hbook
    have hiff := homeAt_iff oob e.tick L hacc
    rw [hs] at hiff
    obtain ⟨ih1, ih2⟩ := ih (loopBody oob e.tick L).1 (by rw [b1, hs]) hlog
    refine ⟨?_, ?_⟩
    · intro hg
      have hno : ¬ homeAt oob e.tick L := fun h => hg (hiff.mp h).2
      rw [homeLog, dueLog, List.map_cons, decide_eq_false hno,
        ih1 (by rw [b2, if_neg hno]; exact hg)]
    · intro hg
      rw [homeLog, dueLog]
      by_cases hd : dueAt oob s e.tick L
      · have hy : homeAt oob e.tick L := hiff.mpr ⟨hd, hg⟩
        rw [decide_eq_true hy, decide_eq_true hd, firstOnly,
          ih1 (by rw [b2, if_pos hy]; decide)]
      · have hno : ¬ homeAt oob e.tick L := fun h => hd (hiff.mp h).1
        rw [decide_eq_false hno, decide_eq_false hd, firstOnly,
          ih2 (by rw [b2, if_neg hno]; exact hg)]

/-- C10 as stated fails.  The loop accepts a target at clock 0; the iteration at clock
5000000 finds all motions complete and the time since that target equal to the first
threshold, and does not assign the home position; the next iteration, at 5000200, does. -/
theorem C10_counterexample :
    acceptAt (fun _ => 0) (⟨0, some (0, 0)⟩ : Event).tick (RunSteppingInit 0) = some (0, 0) ∧
    allIdle (motorPhase (fun _ => 0) (⟨5000000, none⟩ : Event).tick.time1
      (runEvents (fun _ => 0) [⟨0, some (0, 0)⟩] (RunSteppingInit 0))).1 ∧
    (⟨5000000, none⟩ : Event).tick.time1 - (⟨0, some (0, 0)⟩ : Event).tick.time1 = 5000000 ∧
    homeLog (fun _ => 0) [⟨5000000, none⟩, ⟨5000200, none⟩]
      (runEvents (fun _ => 0) [⟨0, some (0, 0)⟩] (RunSteppingInit 0)) = [false, true] := by
  exact ⟨by decide!, by decide!, by decide!, by decide!⟩

/-- C10, amended.  Homing is edge-triggered.  An iteration that accepts a target does not
assign the home position and leaves `GoHome = 0` (re-armed).  Over the iterations that
follow it and accept no target, the home position is assigned in exactly one place: the
first iteration in which all motions are complete and the time since the accepted target,
as the loop computes it, exceeds 5000000 microseconds; it is assigned in no earlier and in no
later iteration.  The iteration that assigns it leaves the tilt and turret `Target` at 0. -/
theorem C10_homing_once (oob : Int → Nat) (L : loop_t) (a : Event) (mid : List Event)
    (xy : Int × Int) (hacc : acceptAt oob a.tick L = some xy)
    (hnone : intakeLog oob mid (loopBody oob a.tick L).1 = []) :
    ¬ homeAt oob a.tick L ∧ (loopBody oob a.tick L).1.GoHome = 0 ∧
    homeLog oob mid (loopBody oob a.tick L).1
      = firstOnly (dueLog oob a.tick.time1 mid (loopBody oob a.tick L).1) ∧
    (∀ (e : Event) (M : loop_t), homeAt oob e.tick M →
      (loopBody oob e.tick M).1.motors1.Target = 0 ∧
      (loopBody oob e.tick M).1.motors2.Target = 0) := by
  have hbook := (loopBody_book oob a.tick L).2.2
  rw [hacc] at hbook
  simp only [] at hbook
  obtain ⟨b1, b2, b3⟩ := hbook
  refine ⟨b3, b2, ?_, fun e M h => ⟨(homeAt_effect oob e.tick M h).1,
    (homeAt_effect oob e.tick M h).2.1⟩⟩
  exact (homeLog_segment oob a.tick.time1 mid _ b1 hnone).2 b2

/-- C10 (amended) on the run that accepts a target at clock 0 and then iterates at clocks
5000000, 5000200 and 5000400 with no target. -/
theorem C10_homing_once_witness :
    ¬ homeAt (fun _ => 0) (⟨0, some (0, 0)⟩ : Event).tick (RunSteppingInit 0) ∧
    (loopBody (fun _ => 0) (⟨0, some (0, 0)⟩ : Event).tick (RunSteppingInit 0)).1.GoHome = 0 ∧
    homeLog (fun _ => 0) [⟨5000000, none⟩, ⟨5000200, none⟩, ⟨5000400, none⟩]
        (loopBody (fun _ => 0) (⟨0, some (0, 0)⟩ : Event).tick (RunSteppingInit 0)).1
      = firstOnly (dueLog (fun _ => 0) (⟨0, some (0, 0)⟩ : Event).tick.time1
          [⟨5000000, none⟩, ⟨5000200, none⟩, ⟨5000400, none⟩]
          (loopBody (fun _ => 0) (⟨0, some (0, 0)⟩ : Event).tick (RunSteppingInit 0)).1) ∧
    (∀ (e : Event) (M : loop_t), homeAt (fun _ => 0) e.tick M →
      (loopBody (fun _ => 0) e.tick M).1.motors1.Target = 0 ∧
      (loopBody (fun _ => 0) e.tick M).1.motors2.Target = 0) :=
  C10_homing_once (fun _ => 0) (RunSteppingInit 0) ⟨0, some (0, 0)⟩
    [⟨5000000, none⟩, ⟨5000200, none⟩, ⟨5000400, none⟩] (0, 0) (by decide!)
    (intakeLog_quiet _ _ _ (by decide))

/-! ## The branches of `DoMotor` as the specification states them (C11, C16, C17) -/

theorem toGo_ne_zero (m : stepper_t) (hP : isInt32 m.Pos) (hT : isInt32 m.Target)
    (hne : m.Target ≠ m.Pos) : toGo m ≠ 0 := by
  unfold isInt32 at hP hT
  unfold toGo wrap32
  omega

theorem toGo_exact (m : stepper_t) (h : isInt32 (m.Target - m.Pos)) :
    toGo m = m.Target - m.Pos := by
  unfold isInt32 at h
  unfold toGo
  exact wrap32_eq_self _ h.1 h.2

theorem toGo_self (m : stepper_t) (h : m.Pos = m.Target) : toGo m = 0 := by
  unfold toGo; rw [h, Int.sub_self]; rfl

/-- C11. Start transition: when `DoMotor` is called with `Wait == 0`, `Speed == 0` and
`Target != Pos` (both 32-bit values), its GPIO writes are `GPIO_CLR = ENABLE` followed by
`GPIO_SET = DIR` if `ToGo > 0` and `GPIO_CLR = DIR` otherwise, and nothing else, so no
write to the clock line when the three line identifiers differ; it leaves the axis with
`RampIndex = 0`, `Speed = RampUp[0] = 25`, `Dir` the sign of `ToGo`, `CountDown = 127`,
`Wait = 1` and every other field, `Pos` and `Target` among them, as it was.  `ToGo` is
`Target - Pos` as the program computes it: it is that difference whenever the difference is
a 32-bit value. -/
theorem C11_start_transition (oob : Int → Nat) (m : stepper_t)
    (hP : isInt32 m.Pos) (hT : isInt32 m.Target)
    (hW : m.Wait = 0) (hS : m.Speed = 0) (hne : m.Target ≠ m.Pos) :
    (DoMotor oob m).gpio =
      [GpioWrite.clr m.ENABLE,
       if toGo m > 0 then GpioWrite.set m.DIR else GpioWrite.clr m.DIR] ∧
    (DoMotor oob m).motor =
      { m with RampIndex := 0, Speed := RampUp.getD 0 0, Dir := Int.sign (toGo m),
               CountDown := 127, Wait := 1 } ∧
    RampUp.getD 0 0 = 25 ∧
    (isInt32 (m.Target - m.Pos) → toGo m = m.Target - m.Pos) ∧
    (m.ENABLE ≠ m.CLOCK → m.DIR ≠ m.CLOCK →
      GpioWrite.set m.CLOCK ∉ (DoMotor oob m).gpio ∧
      GpioWrite.clr m.CLOCK ∉ (DoMotor oob m).gpio) := by
  have hg := toGo_ne_zero m hP hT hne
  have hsign : (if toGo m > 0 then (1 : Int) else -1) = Int.sign (toGo m) := by
    split
    · rename_i h; exact (Int.sign_eq_one_of_pos h).symm
    · rename_i h; exact (Int.sign_eq_neg_one_of_neg (by omega)).symm
  rw [DoMotor_start oob m hW hg hS, rampRead_zero, hsign]
  refine ⟨rfl, rfl, rfl, toGo_exact m, fun h1 h2 => ?_⟩
  constructor
  · intro h
    simp only [List.mem_cons, List.mem_singleton, List.not_mem_nil, or_false] at h
    rcases h with h | h
    · exact absurd h (by simp)
    · split at h
      · exact h2 (by injection h with h; exact h.symm)
      · exact absurd h (by simp)
  · intro h
    simp only [List.mem_cons, List.mem_singleton, List.not_mem_nil, or_false] at h
    rcases h with h | h
    · exact h1 (by injection h with h; exact h.symm)
    · split at h
      · exact absurd h (by simp)
      · exact h2 (by injection h with h; exact h.symm)

/-- C11 at the draw axis of `Init` with `Target` set to `SHOT_DRAW_STEPS`. -/
theorem C11_start_transition_witness :
    (DoMotor (fun _ => 0) { InitDraw with Target := 875 }).gpio =
      [GpioWrite.clr InitDraw.ENABLE,
       if toGo { InitDraw with Target := 875 } > 0 then GpioWrite.set InitDraw.DIR
       else GpioWrite.clr InitDraw.DIR] ∧
    (DoMotor (fun _ => 0) { InitDraw with Target := 875 }).motor =
      { InitDraw with Target := 875, RampIndex := 0, Speed := RampUp.getD 0 0,
                      Dir := Int.sign (toGo { InitDraw with Target := 875 }),
                      CountDown := 127, Wait := 1 } ∧
    RampUp.getD 0 0 = 25 ∧
    (isInt32 ((875 : Int) - 0) → toGo { InitDraw with Target := 875 } = 875 - 0) ∧
    (InitDraw.ENABLE ≠ InitDraw.CLOCK → InitDraw.DIR ≠ InitDraw.CLOCK →
      GpioWrite.set InitDraw.CLOCK ∉ (DoMotor (fun _ => 0) { InitDraw with Target := 875 }).gpio ∧
      GpioWrite.clr InitDraw.CLOCK ∉ (DoMotor (fun _ => 0) { InitDraw with Target := 875 }).gpio) :=
  C11_start_transition (fun _ => 0) { InitDraw with Target := 875 } (by decide) (by decide)
    rfl rfl (by decide)

/-- C16. Wait tick: a call of `DoMotor` with `Wait > 0` decrements `Wait` by exactly 1 and
does nothing else: every other field is unchanged, no GPIO write is made (and the table is
not read).  In every branch, whatever the axis, `DoMotor` leaves `Target`, `RampStretch`,
`MaxSpeed` and the three line identifiers as they were. -/
theorem C16_wait_tick (oob : Int → Nat) (m : stepper_t) :
    (0 < m.Wait → m.Wait < 2147483648 →
      DoMotor oob m = ⟨{ m with Wait := m.Wait - 1 }, [], []⟩) ∧
    ((DoMotor oob m).motor.Target = m.Target ∧
     (DoMotor oob m).motor.RampStretch = m.RampStretch ∧
     (DoMotor oob m).motor.MaxSpeed = m.MaxSpeed ∧
     (DoMotor oob m).motor.ENABLE = m.ENABLE ∧
     (DoMotor oob m).motor.DIR = m.DIR ∧
     (DoMotor oob m).motor.CLOCK = m.CLOCK) := by
  refine ⟨fun h1 h2 => ?_, DoMotor_const oob m⟩
  rw [DoMotor_wait oob m (by omega), wrap32_eq_self _ (by omega) (by omega)]

/-- C16 at the draw axis of `Init` with 20 ticks of wait left. -/
theorem C16_wait_tick_witness :
    DoMotor (fun _ => 0) { InitDraw with Wait := 20, Speed := 30 }
      = ⟨{ InitDraw with Wait := 20 - 1, Speed := 30 }, [], []⟩ :=
  (C16_wait_tick (fun _ => 0) { InitDraw with Wait := 20, Speed := 30 }).1
    (by decide) (by decide)

theorem ticks_settled (oob : Int → Nat) (m : stepper_t) (h : settled m) :
    ∀ n, ticks oob n m = m := by
  intro n
  induction n with
  | zero => rfl
  | succ n ih => rw [ticks, DoMotor_settled oob m h]; exact ih

/-- C17. At-target tick: a call of `DoMotor` with `Wait == 0` and `Pos == Target` sets
`Speed` to 0, changes no other field and makes no GPIO write (and no table read); so an
axis that is quiescent at its target is left as it is by any number of calls. -/
theorem C17_at_target (oob : Int → Nat) (m : stepper_t) (hW : m.Wait = 0)
    (hP : m.Pos = m.Target) :
    DoMotor oob m = ⟨{ m with Speed := 0 }, [], []⟩ ∧
    (m.Speed = 0 → DoMotor oob m = ⟨m, [], []⟩ ∧ ∀ n, ticks oob n m = m) := by
  refine ⟨DoMotor_arrived oob m hW (toGo_self m hP), fun hs => ?_⟩
  exact ⟨DoMotor_settled oob m ⟨hP, hs, hW⟩, ticks_settled oob m ⟨hP, hs, hW⟩⟩

/-- C17 at the draw axis drawn to 875, its wait over and `Speed` still 30. -/
theorem C17_at_target_witness :
    DoMotor (fun _ => 0) drawnMotor = ⟨{ drawnMotor with Speed := 0 }, [], []⟩ ∧
    (drawnMotor.Speed = 0 → DoMotor (fun _ => 0) drawnMotor = ⟨drawnMotor, [], []⟩ ∧
      ∀ n, ticks (fun _ => 0) n drawnMotor = drawnMotor) :=
  C17_at_target (fun _ => 0) drawnMotor rfl rfl

/-! ## Arrival and dwell (C12) -/

theorem rampRead_table_ge (oob : Int → Nat) (i : Int) (h : 0 ≤ i ∧ i < NUM_RAMP_STEPS) :
    25 ≤ rampRead oob i := by
  unfold rampRead
  rw [if_pos h]
  unfold NUM_RAMP_STEPS at h
  exact (RampUp_getD_bounds i.toNat (by omega)).1

theorem tdiv_inTable (x r : Int) (h0 : 0 ≤ x) (h1 : x < wrap32 (NUM_RAMP_STEPS * r))
    (hr : 1 ≤ r) : 0 ≤ Int.tdiv x r ∧ Int.tdiv x r < NUM_RAMP_STEPS := by
  have hle := wrap32_mul_le r hr
  unfold NUM_RAMP_STEPS at h1 ⊢
  rw [Int.tdiv_eq_ediv (by omega) (by omega)]
  exact ⟨Int.ediv_nonneg (by omega) (by omega), Int.ediv_lt_of_lt_mul (by omega) (by omega)⟩

/-- The speed left by the ramp computation of a running axis is positive: every value it
assigns is an entry of the table, capped by `MaxSpeed`. -/
theorem newSpeed_pos (oob : Int → Nat) (m : stepper_t) (g a : Int)
    (hS : 0 < m.Speed) (hM : 1 ≤ m.MaxSpeed) (hR : 1 ≤ m.RampStretch)
    (hI : 0 ≤ m.RampIndex ∧ m.RampIndex + 1 < 2147483648) (ha : 0 ≤ a) :
    0 < (newSpeed oob m g a).1.Speed := by
  have hw : wrap32 (m.RampIndex + 1) = m.RampIndex + 1 := by
    apply wrap32_eq_self <;> omega
  have b1 : wrap32 (m.RampIndex + 1) < wrap32 (NUM_RAMP_STEPS * m.RampStretch) →
      25 ≤ rampRead oob (Int.tdiv (wrap32 (m.RampIndex + 1)) m.RampStretch) := fun h =>
    rampRead_table_ge oob _ (tdiv_inTable _ _ (by omega) h hR)
  have b2 : a < wrap32 (NUM_RAMP_STEPS * m.RampStretch) →
      25 ≤ rampRead oob (Int.tdiv a m.RampStretch) := fun h =>
    rampRead_table_ge oob _ (tdiv_inTable _ _ ha h hR)
  unfold newSpeed clampSpeed rampDownStep rampUpStep
  simp only []
  split_ifs <;> simp at * <;> omega

/-- While an axis waits, each call of `DoMotor` takes one tick off `Wait` and nothing
else happens. -/
theorem ticks_wait (oob : Int → Nat) :
    ∀ (j : Nat) (a : stepper_t), (j : Int) ≤ a.Wait → a.Wait < 2147483648 →
      ticks oob j a = { a with Wait := a.Wait - j } := by
  intro j
  induction j with
  | zero => intro a _ _; simp [ticks]
  | succ j ih =>
    intro a h1 h2
    push_cast at h1
    rw [ticks, DoMotor_wait oob a (by omega), wrap32_eq_self _ (by omega) (by omega),
      ih _ (by show (j : Int) ≤ a.Wait - 1; omega) (by show a.Wait - 1 < 2147483648; omega)]
    show { a with Wait := a.Wait - 1 - (j : Int) } = { a with Wait := a.Wait - ((j + 1 : Nat) : Int) }
    congr 1
    push_cast
    omega

/-- The dwell: an axis at its target with `Wait = 20` only counts `Wait` down during the
next 20 calls of `DoMotor`; the 21st sets `Speed` to 0. -/
theorem dwell_21 (oob : Int → Nat) (a : stepper_t) (hP : a.Pos = a.Target)
    (hW : a.Wait = 20) :
    (∀ j, j ≤ 20 → ticks oob j a = { a with Wait := 20 - (j : Int) }) ∧
    ticks oob 21 a = { a with Wait := 0, Speed := 0 } := by
  have hw : ∀ j, j ≤ 20 → ticks oob j a = { a with Wait := 20 - (j : Int) } := by
    intro j hj
    rw [ticks_wait oob j a (by rw [hW]; omega) (by rw [hW]; decide), hW]
  refine ⟨hw, ?_⟩
  have h20 : ticks oob 20 a = { a with Wait := 0 } := by
    rw [hw 20 (le_refl _)]; rfl
  rw [ticks_succ_right, h20,
    DoMotor_arrived oob { a with Wait := 0 } rfl (toGo_self { a with Wait := 0 } hP)]

/-- What the call that makes the last step of a move leaves. -/
theorem DoMotor_arrival (oob : Int → Nat) (m : stepper_t)
    (hW : m.Wait = 0) (hS : 0 < m.Speed) (hc : wrap32 (m.CountDown - m.Speed) < 0)
    (hT : isInt32 m.Target) (hD : m.Dir = 1 ∨ m.Dir = -1) (hA : m.Pos + m.Dir = m.Target)
    (hM : 1 ≤ m.MaxSpeed) (hR : 1 ≤ m.RampStretch)
    (hI : 0 ≤ m.RampIndex ∧ m.RampIndex + 1 < 2147483648) :
    ∃ v : Int, 0 < v ∧
      DoMotor oob m =
        ⟨{ m with Pos := m.Target, Speed := v, RampIndex := m.RampIndex + 1,
                  CountDown := wrap32 (m.CountDown - m.Speed), Wait := 20 }, [],
         (newSpeed oob (stepped m) (toGo m) (toGoAbs m)).2⟩ := by
  unfold isInt32 at hT
  have hg : toGo m = m.Dir := by
    unfold toGo
    rw [← hA, show m.Pos + m.Dir - m.Pos = m.Dir by omega]
    apply wrap32_eq_self <;> omega
  have hga : toGoAbs m = 1 := by
    unfold toGoAbs
    rw [hg]
    rcases hD with h | h <;> rw [h] <;> decide
  have hpos : wrap32 (m.Pos + m.Dir) = m.Target := by
    rw [hA]; exact wrap32_eq_self _ hT.1 hT.2
  have hri : wrap32 (m.RampIndex + 1) = m.RampIndex + 1 := by
    apply wrap32_eq_self <;> omega
  have hv := newSpeed_pos oob (stepped m) (toGo m) (toGoAbs m) hS hM hR hI (by rw [hga]; decide)
  have hfr := newSpeed_frame oob (stepped m) (toGo m) (toGoAbs m)
  refine ⟨_, hv, ?_⟩
  rw [DoMotor_step oob m hW (by rw [hg]; omega) (by omega) hc]
  unfold stepDone
  rw [if_neg (by rw [hfr]; exact not_not.mpr hpos), hfr]
  simp only [stepped, hpos, hri]

/-- C12 as stated fails.  The draw axis of `Init` sent one step away: the 8th call of
`DoMotor` makes the step (`Pos` goes from 0 to 1, the target) and leaves `Wait = 20`; after
20 further calls `Wait` is 0 but `Speed` is still 30, so the axis is not quiescent; it is
after the 21st. -/
theorem C12_counterexample :
    (ticks (fun _ => 0) 7 { InitDraw with Target := 1 }).Pos = 0 ∧
    (ticks (fun _ => 0) 8 { InitDraw with Target := 1 }).Pos = 1 ∧
    (ticks (fun _ => 0) 8 { InitDraw with Target := 1 }).Wait = 20 ∧
    ¬ quiescent (ticks (fun _ => 0) (8 + 20) { InitDraw with Target := 1 }) ∧
    quiescent (ticks (fun _ => 0) (8 + 21) { InitDraw with Target := 1 }) := by
  decide!

/-- C12, amended.  On the call whose step brings `Pos` to `Target` (a running axis with no
wait left whose clock cycle is complete, one step of its direction away from `Target`),
`DoMotor` sets `Wait = 20` and does not re-arm the clock: it makes no GPIO write and
`CountDown` is left as decremented.  With `Target` held fixed, `Pos` then stays equal to
`Target`; the axis is not quiescent after any of the next 20 calls, which bring `Wait` down
to 0 with `Speed` still not 0, and is quiescent after exactly 21 further calls, the 21st
being the one that sets `Speed` to 0. -/
theorem C12_arrival_dwell (oob : Int → Nat) (m : stepper_t)
    (hW : m.Wait = 0) (hS : 0 < m.Speed) (hc : wrap32 (m.CountDown - m.Speed) < 0)
    (hT : isInt32 m.Target) (hD : m.Dir = 1 ∨ m.Dir = -1) (hA : m.Pos + m.Dir = m.Target)
    (hM : 1 ≤ m.MaxSpeed) (hR : 1 ≤ m.RampStretch)
    (hI : 0 ≤ m.RampIndex ∧ m.RampIndex + 1 < 2147483648) :
    (DoMotor oob m).motor.Pos = m.Target ∧
    (DoMotor oob m).motor.Wait = 20 ∧
    (DoMotor oob m).gpio = [] ∧
    (DoMotor oob m).motor.CountDown = wrap32 (m.CountDown - m.Speed) ∧
    (∀ j, j ≤ 21 → (ticks oob j (DoMotor oob m).motor).Pos = m.Target) ∧
    (∀ j, j ≤ 20 → (ticks oob j (DoMotor oob m).motor).Wait = 20 - (j : Int) ∧
      ¬ quiescent (ticks oob j (DoMotor oob m).motor)) ∧
    quiescent (ticks oob 21 (DoMotor oob m).motor) := by
  obtain ⟨v, hv, h⟩ := DoMotor_arrival oob m hW hS hc hT hD hA hM hR hI
  rw [h]
  obtain ⟨d1, d2⟩ := dwell_21 oob
    { m with Pos := m.Target, Speed := v, RampIndex := m.RampIndex + 1,
             CountDown := wrap32 (m.CountDown - m.Speed), Wait := 20 } rfl rfl
  refine ⟨rfl, rfl, rfl, rfl, fun j hj => ?_, fun j hj => ?_, ?_⟩
  · by_cases h20 : j ≤ 20
    · rw [d1 j h20]
    · have : j = 21 := by omega
      rw [this, d2]
  · rw [d1 j hj]
    exact ⟨rfl, fun hq => by have := hq.1; simp at this; omega⟩
  · rw [d2]
    exact ⟨rfl, rfl⟩

/-- C12 (amended) at the draw axis of `Init` one step away from its target 1, its first
clock cycle about to complete. -/
theorem C12_arrival_dwell_witness :
    (DoMotor (fun _ => 0) (ticks (fun _ => 0) 7 { InitDraw with Target := 1 })).motor.Pos = 1 ∧
    quiescent (ticks (fun _ => 0) 21
      (DoMotor (fun _ => 0) (ticks (fun _ => 0) 7 { InitDraw with Target := 1 })).motor) := by
  have h := C12_arrival_dwell (fun _ => 0) (ticks (fun _ => 0) 7 { InitDraw with Target := 1 })
    (by decide!) (by decide!) (by decide!) (by decide!) (by decide!) (by decide!) (by decide!)
    (by decide!) (by decide!)
  exact ⟨h.1.trans (by decide!), h.2.2.2.2.2.2⟩

/-! ## The ramp-down lookup (C13) -/

theorem RampUp_getD_mono (r : Nat) (h : r + 1 < 29) :
    RampUp.getD r 0 ≤ RampUp.getD (r + 1) 0 := by
  have h' : r < 28 := by omega
  interval_cases r <;> simp [RampUp]

theorem rampUpStep_const (oob : Int → Nat) (m : stepper_t) :
    (rampUpStep oob m).1.MaxSpeed = m.MaxSpeed ∧
    (rampUpStep oob m).1.RampStretch = m.RampStretch := by
  rw [rampUpStep_frame]; exact ⟨rfl, rfl⟩

/-- The ramp computation in one formula: the speed of the ramp-up rule, replaced by the
table value of the lookup when the comparison of line 251 holds, then capped. -/
theorem newSpeed_eq (oob : Int → Nat) (m : stepper_t) (g a : Int) :
    (newSpeed oob m g a).1.Speed =
      min (if a < wrap32 (NUM_RAMP_STEPS * m.RampStretch) ∧
              rampRead oob g < (rampUpStep oob m).1.Speed
           then rampRead oob (Int.tdiv a m.RampStretch)
           else (rampUpStep oob m).1.Speed) m.MaxSpeed := by
  obtain ⟨c1, c2⟩ := rampUpStep_const oob m
  unfold newSpeed clampSpeed rampDownStep
  simp only [c1, c2]
  split_ifs <;> simp_all <;> omega

/-- The speed after a call that completes a step is the one the ramp computation gives. -/
theorem stepDone_speed (oob : Int → Nat) (m : stepper_t) :
    (stepDone oob m).motor.Speed = (newSpeed oob (stepped m) (toGo m) (toGoAbs m)).1.Speed ∧
    (stepDone oob m).motor.Pos = wrap32 (m.Pos + m.Dir) := by
  obtain ⟨v, hv, h | h⟩ := stepDone_motor oob m <;> rw [h, hv] <;> exact ⟨rfl, rfl⟩

/-- C13 as stated fails.  The draw axis of `Init` (`RampStretch = 1`, `MaxSpeed = 128`):
in the move from 0 to 10 the 8th call of `DoMotor` completes the first step; 9 steps
remain (10 before the step), below the ramp length, and the new `Speed` is 30, neither
`min(RampUp[9], 128) = 70` nor `min(RampUp[10], 128) = 75`.  In the move from 0 to 1 the
8th call makes the step that arrives at the target, and `Speed` is 30 there, not
`RampUp[0] = 25`. -/
theorem C13_counterexample :
    (ticks (fun _ => 0) 7 { InitDraw with Target := 10 }).Pos = 0 ∧
    (ticks (fun _ => 0) 8 { InitDraw with Target := 10 }).Pos = 1 ∧
    (ticks (fun _ => 0) 8 { InitDraw with Target := 10 }).Speed
      ≠ min (RampUp.getD (10 - (ticks (fun _ => 0) 8 { InitDraw with Target := 10 }).Pos).toNat 0)
          InitDraw.MaxSpeed ∧
    (ticks (fun _ => 0) 8 { InitDraw with Target := 10 }).Speed
      ≠ min (RampUp.getD (10 - (ticks (fun _ => 0) 7 { InitDraw with Target := 10 }).Pos).toNat 0)
          InitDraw.MaxSpeed ∧
    (ticks (fun _ => 0) 7 { InitDraw with Target := 1 }).Pos = 0 ∧
    (ticks (fun _ => 0) 8 { InitDraw with Target := 1 }).Pos = 1 ∧
    (ticks (fun _ => 0) 8 { InitDraw with Target := 1 }).Speed = 30 ∧
    (ticks (fun _ => 0) 8 { InitDraw with Target := 1 }).Speed
      ≠ min (RampUp.getD 0 0) InitDraw.MaxSpeed := by
  decide!

/-- C13, amended.  A call of `DoMotor` that completes a step, the axis being away from
its target.  Write `S` for the speed that the ramp-up rule of lines 247-248 gives at this
step (`RampUp[RampIndex / RampStretch]` inside the ramp, the previous `Speed` after it).
The new `Speed` is `min(S, MaxSpeed)`, or `min(V, MaxSpeed)` for an entry `V` of the table
taken by the lookup.  For travel in the positive direction with `RampStretch = 1`, when
the distance `r` that remains after the step is below the ramp length 29, the lookup only
lowers the speed: the new `Speed` is at most `min(S, MaxSpeed)`, at least
`min(S, RampUp[r], MaxSpeed)`, and for `r < 28` at most `RampUp[r + 1]`. -/
theorem C13_deceleration (oob : Int → Nat) (m : stepper_t)
    (hW : m.Wait = 0) (hS : m.Speed ≠ 0) (hc : wrap32 (m.CountDown - m.Speed) < 0)
    (hP : isInt32 m.Pos) (hT : isInt32 m.Target) (hne : m.Target ≠ m.Pos)
    (hd : -2147483648 < m.Target - m.Pos ∧ m.Target - m.Pos < 2147483648)
    (hR : 1 ≤ m.RampStretch) :
    ((DoMotor oob m).motor.Speed = min (rampUpStep oob (stepped m)).1.Speed m.MaxSpeed ∨
     ∃ i : Nat, i < 29 ∧ (DoMotor oob m).motor.Speed = min (RampUp.getD i 0) m.MaxSpeed) ∧
    (m.RampStretch = 1 → m.Dir = 1 → ∀ r : Nat, m.Target - m.Pos = r + 1 → r < 29 →
      m.Target - (DoMotor oob m).motor.Pos = r ∧
      min (min (rampUpStep oob (stepped m)).1.Speed (RampUp.getD r 0)) m.MaxSpeed
        ≤ (DoMotor oob m).motor.Speed ∧
      (DoMotor oob m).motor.Speed ≤ min (rampUpStep oob (stepped m)).1.Speed m.MaxSpeed ∧
      (r < 28 → (DoMotor oob m).motor.Speed ≤ RampUp.getD (r + 1) 0)) := by
  unfold isInt32 at hP hT
  have hg : toGo m = m.Target - m.Pos := by
    unfold toGo; apply wrap32_eq_self <;> omega
  have hga : 0 ≤ toGoAbs m := by
    unfold toGoAbs
    rw [hg]
    split
    · rw [wrap32_eq_self _ (by omega) (by omega)]; omega
    · omega
  rw [DoMotor_step oob m hW (by rw [hg]; omega) hS hc]
  obtain ⟨hsp, hpos⟩ := stepDone_speed oob m
  rw [hsp, hpos, newSpeed_eq]
  have hms : (stepped m).MaxSpeed = m.MaxSpeed := rfl
  have hrs : (stepped m).RampStretch = m.RampStretch := rfl
  rw [hms, hrs]
  constructor
  · split
    · rename_i h
      right
      obtain ⟨i0, i1⟩ := tdiv_inTable _ _ hga h.1 hR
      unfold NUM_RAMP_STEPS at i1
      refine ⟨(Int.tdiv (toGoAbs m) m.RampStretch).toNat, by omega, ?_⟩
      unfold rampRead
      rw [if_pos ⟨i0, i1⟩]
    · left; rfl
  · intro h1 hD r hr hr29
    have hga1 : toGoAbs m = r + 1 := by
      unfold toGoAbs; rw [hg, hr, if_neg (by omega)]
    rw [hg, hga1, hr, h1, hD, wrap32_eq_self (m.Pos + 1) (by omega) (by omega)]
    refine ⟨by omega, ?_⟩
    have hw29 : wrap32 (NUM_RAMP_STEPS * 1) = 29 := by decide
    rw [hw29]
    by_cases h28 : r < 28
    · have hin : (0 : Int) ≤ (r : Int) + 1 ∧ (r : Int) + 1 < NUM_RAMP_STEPS := by
        unfold NUM_RAMP_STEPS; omega
      have hread : rampRead oob ((r : Int) + 1) = RampUp.getD (r + 1) 0 := by
        unfold rampRead
        rw [if_pos hin]
        congr 1
      have hdiv : Int.tdiv ((r : Int) + 1) 1 = (r : Int) + 1 := by simp
      have hmono := RampUp_getD_mono r (by omega)
      rw [hdiv, hread]
      split <;> omega
    · have : r = 28 := by omega
      subst this
      rw [if_neg (by omega)]
      omega

/-- C13 (amended) at the draw axis of `Init` in the move from 0 to 10, its first clock
cycle about to complete: 9 steps remain after the step. -/
theorem C13_deceleration_witness :
    (10 : Int) - (DoMotor (fun _ => 0)
        { InitDraw with Target := 10, Speed := 25, Dir := 1, CountDown := 2 }).motor.Pos
      = (9 : Nat) ∧
    (DoMotor (fun _ => 0)
        { InitDraw with Target := 10, Speed := 25, Dir := 1, CountDown := 2 }).motor.Speed
      ≤ RampUp.getD (9 + 1) 0 := by
  have h := (C13_deceleration (fun _ => 0)
    { InitDraw with Target := 10, Speed := 25, Dir := 1, CountDown := 2 }
    rfl (by decide) (by decide) (by decide) (by decide) (by decide) (by decide)
    (by decide)).2 rfl rfl 9 (by decide) (by decide)
  exact ⟨h.1, h.2.2.2 (by decide)⟩

/-! ## The phase of the clock cycle (C14) -/

/-- The two ways a completed clock cycle ends: the next one is armed, or the axis has
arrived. -/
theorem stepDone_cases (oob : Int → Nat) (m : stepper_t) :
    ∃ v : Int, v = (newSpeed oob (stepped m) (toGo m) (toGoAbs m)).1.Speed ∧
      ((wrap32 (m.Pos + m.Dir) ≠ m.Target ∧
        stepDone oob m =
          ⟨{ m with Pos := wrap32 (m.Pos + m.Dir), Speed := v,
                    RampIndex := wrap32 (m.RampIndex + 1),
                    CountDown := wrap32 (wrap32 (m.CountDown - m.Speed) + 256) },
           [GpioWrite.set m.CLOCK],
           (newSpeed oob (stepped m) (toGo m) (toGoAbs m)).2⟩) ∨
       (wrap32 (m.Pos + m.Dir) = m.Target ∧
        stepDone oob m =
          ⟨{ m with Pos := wrap32 (m.Pos + m.Dir), Speed := v,
                    RampIndex := wrap32 (m.RampIndex + 1),
                    CountDown := wrap32 (m.CountDown - m.Speed), Wait := 20 }, [],
           (newSpeed oob (stepped m) (toGo m) (toGoAbs m)).2⟩)) := by
  refine ⟨_, rfl, ?_⟩
  have hfr := newSpeed_frame oob (stepped m) (toGo m) (toGoAbs m)
  have hp : (newSpeed oob (stepped m) (toGo m) (toGoAbs m)).1.Pos = wrap32 (m.Pos + m.Dir) := by
    rw [hfr]; rfl
  by_cases h : wrap32 (m.Pos + m.Dir) = m.Target
  · right
    refine ⟨h, ?_⟩
    unfold stepDone
    rw [if_neg (by rw [hp]; exact not_not.mpr h), hfr]
    rfl
  · left
    refine ⟨h, ?_⟩
    unfold stepDone
    rw [if_pos (by rw [hp]; exact h), hfr]
    rfl

theorem DoMotor_AxisInv (oob : Int → Nat) (m : stepper_t) (h : AxisInv m) :
    AxisInv (DoMotor oob m).motor := by
  have hramp := DoMotor_RampInv oob m h.ramp
  have hconst := DoMotor_const oob m
  have hspeed := DoMotor_speed_range oob m h.maxs.1 h.speed
  obtain ⟨⟨ht, hp, hi, hmv⟩, hM, hR, hS, hWt, hdw, hph⟩ := h
  have htg : toGo m = m.Target - m.Pos := by
    unfold toGo; apply wrap32_eq_self <;> omega
  suffices h3 : (0 ≤ (DoMotor oob m).motor.Wait ∧ (DoMotor oob m).motor.Wait ≤ 20) ∧
      ((DoMotor oob m).motor.Wait ≠ 0 → (DoMotor oob m).motor.Speed ≠ 0) ∧
      ((DoMotor oob m).motor.Speed ≠ 0 →
        (DoMotor oob m).motor.Pos ≠ (DoMotor oob m).motor.Target →
        0 ≤ (DoMotor oob m).motor.CountDown ∧ (DoMotor oob m).motor.CountDown ≤ 255) from
    ⟨hramp, by rw [hconst.2.2.1]; exact hM, by rw [hconst.2.1]; exact hR,
      by rw [hconst.2.2.1]; exact hspeed, h3.1, h3.2.1, h3.2.2⟩
  by_cases hW : m.Wait = 0
  · by_cases hg : toGo m = 0
    · rw [DoMotor_arrived oob m hW hg]
      exact ⟨by simp [hW], fun h => absurd hW h, fun h => absurd rfl h⟩
    · have hpT : m.Pos ≠ m.Target := by rw [htg] at hg; omega
      by_cases hs : m.Speed = 0
      · rw [DoMotor_start oob m hW hg hs]
        exact ⟨by simp, fun _ => by simp [rampRead_zero], fun _ _ => by simp⟩
      · obtain ⟨hc0, hc1⟩ := hph hs hpT
        have hcd : wrap32 (m.CountDown - m.Speed) = m.CountDown - m.Speed := by
          apply wrap32_eq_self <;> omega
        by_cases hc : 0 ≤ wrap32 (m.CountDown - m.Speed)
        · rw [DoMotor_coast oob m hW hg hs hc]
          refine ⟨hWt, hdw, fun _ _ => ?_⟩
          show 0 ≤ wrap32 (m.CountDown - m.Speed) ∧ wrap32 (m.CountDown - m.Speed) ≤ 255
          rw [hcd] at hc ⊢
          omega
        · rw [DoMotor_step oob m hW hg hs (by omega)]
          have hga : 0 ≤ toGoAbs m := by
            unfold toGoAbs
            rw [htg]
            split
            · rw [wrap32_eq_self _ (by omega) (by omega)]; omega
            · omega
          have hv := newSpeed_pos oob (stepped m) (toGo m) (toGoAbs m)
            (by show 0 < m.Speed; omega) (by show 1 ≤ m.MaxSpeed; omega) hR
            (by show 0 ≤ m.RampIndex ∧ m.RampIndex + 1 < 2147483648; omega) hga
          obtain ⟨v, hveq, ⟨hne, heq⟩ | ⟨hat, heq⟩⟩ := stepDone_cases oob m
          · rw [heq]
            refine ⟨hWt, fun hw0 => absurd hW hw0, fun _ _ => ?_⟩
            show 0 ≤ wrap32 (wrap32 (m.CountDown - m.Speed) + 256) ∧
              wrap32 (wrap32 (m.CountDown - m.Speed) + 256) ≤ 255
            rw [hcd] at hc ⊢
            rw [wrap32_eq_self _ (by omega) (by omega)]
            omega
          · rw [heq]
            refine ⟨by simp, fun _ => ?_, fun _ hne => absurd hat hne⟩
            show v ≠ 0
            omega
  · rw [DoMotor_wait oob m hW]
    have hw' : wrap32 (m.Wait - 1) = m.Wait - 1 := by apply wrap32_eq_self <;> omega
    refine ⟨by simp only [hw']; omega, fun _ => hdw hW, hph⟩

theorem AxisInv_init (init : stepper_t)
    (hi : init = InitDraw ∨ init = InitTilt ∨ init = InitTurret) :
    AxisInv init ∧ LinesApart init := by
  rcases hi with h | h | h <;> subst h <;>
    exact ⟨⟨⟨by decide, by decide, by decide, fun h => absurd rfl h⟩, by decide, by decide,
      by decide, by decide, fun h => absurd rfl h, fun h => absurd rfl h⟩, by decide⟩

theorem AxisInv_retarget (m : stepper_t) (t : Int) (h : AxisInv m)
    (hok : whenQuiescentInRange m t) : AxisInv { m with Target := t } := by
  obtain ⟨⟨_, hp, hi, _⟩, hM, hR, hS, hWt, hdw, _⟩ := h
  exact ⟨⟨hok.2, hp, hi, fun h => absurd hok.1.1 h⟩, hM, hR, hS, hWt, hdw,
    fun h => absurd hok.1.1 h⟩

theorem DoMotor_LinesApart (oob : Int → Nat) (m : stepper_t) (h : LinesApart m) :
    LinesApart (DoMotor oob m).motor := by
  obtain ⟨_, _, _, h1, h2, h3⟩ := DoMotor_const oob m
  unfold LinesApart
  rw [h1, h2, h3]
  exact h

theorem lineAfter_dir (m : stepper_t) (c : Bool) (p : Prop) [Decidable p]
    (h : LinesApart m) :
    lineAfter m.CLOCK c
      [GpioWrite.clr m.ENABLE, if p then GpioWrite.set m.DIR else GpioWrite.clr m.DIR] = c := by
  obtain ⟨h1, h2, _⟩ := h
  by_cases hp : p <;> simp [lineAfter, h1, h2, hp]

theorem clock_not_in_start (m : stepper_t) (p : Prop) [Decidable p] (h : LinesApart m) :
    GpioWrite.set m.CLOCK ∉
      [GpioWrite.clr m.ENABLE, if p then GpioWrite.set m.DIR else GpioWrite.clr m.DIR] ∧
    GpioWrite.clr m.CLOCK ∉
      [GpioWrite.clr m.ENABLE, if p then GpioWrite.set m.DIR else GpioWrite.clr m.DIR] := by
  obtain ⟨h1, h2, h3⟩ := h
  have hd : m.DIR ≠ m.CLOCK := by
    intro he; rw [he, Nat.and_self] at h2; exact h3 h2
  have he : m.ENABLE ≠ m.CLOCK := by
    intro he; rw [he, Nat.and_self] at h1; exact h3 h1
  by_cases hp : p <;> simp [hp, Ne.symm hd, Ne.symm he]

theorem lineAfter_set (m : stepper_t) (c : Bool) (h : LinesApart m) :
    lineAfter m.CLOCK c [GpioWrite.set m.CLOCK] = true := by
  simp [lineAfter, Nat.and_self, h.2.2]

theorem lineAfter_clr (m : stepper_t) (c : Bool) (h : LinesApart m) :
    lineAfter m.CLOCK c [GpioWrite.clr m.CLOCK] = false := by
  simp [lineAfter, Nat.and_self, h.2.2]

/-- One call of `DoMotor` on an axis of `Init`, with the level of its clock line. -/
theorem DoMotor_pulse (oob : Int → Nat) (m : stepper_t) (c : Bool) (h : AxisInv m)
    (hl : LinesApart m) (hh : HighInv m c) :
    HighInv (DoMotor oob m).motor (lineAfter m.CLOCK c (DoMotor oob m).gpio) ∧
    (GpioWrite.set m.CLOCK ∈ (DoMotor oob m).gpio ↔
      (DoMotor oob m).motor.Pos ≠ m.Pos ∧ (DoMotor oob m).motor.Pos ≠ m.Target) ∧
    (GpioWrite.set m.CLOCK ∈ (DoMotor oob m).gpio →
      c = false ∧ 128 ≤ (DoMotor oob m).motor.CountDown ∧
      (DoMotor oob m).motor.CountDown ≤ 255) ∧
    (GpioWrite.clr m.CLOCK ∈ (DoMotor oob m).gpio ↔ lowPhase m) ∧
    ((DoMotor oob m).motor.Pos ≠ m.Pos →
      (DoMotor oob m).motor.Wait ≠ 0 ∨
      ((DoMotor oob m).motor.Speed ≠ 0 ∧
       (DoMotor oob m).motor.Pos ≠ (DoMotor oob m).motor.Target ∧
       128 ≤ (DoMotor oob m).motor.CountDown)) := by
  have hinv' := DoMotor_AxisInv oob m h
  obtain ⟨⟨ht, hp, hi, hmv⟩, hM, hR, hS, hWt, hdw, hph⟩ := h
  have htg : toGo m = m.Target - m.Pos := by
    unfold toGo; apply wrap32_eq_self <;> omega
  unfold HighInv at hh ⊢
  unfold lowPhase
  by_cases hW : m.Wait = 0
  · by_cases hg : toGo m = 0
    · have hpT : m.Pos = m.Target := by rw [htg] at hg; omega
      rw [DoMotor_arrived oob m hW hg]
      refine ⟨fun hc => absurd hpT (hh hc).2.2.1, by simp, by simp, ?_, by simp⟩
      simp only [List.not_mem_nil, false_iff]
      exact fun hlo => hlo.2.2.1 hpT
    · have hpT : m.Pos ≠ m.Target := by rw [htg] at hg; omega
      by_cases hs : m.Speed = 0
      · rw [DoMotor_start oob m hW hg hs]
        obtain ⟨n1, n2⟩ := clock_not_in_start m (toGo m > 0) hl
        refine ⟨?_, ?_, fun hin => absurd hin n1, ?_, by simp⟩
        · rw [lineAfter_dir m c (toGo m > 0) hl]
          exact fun hc => absurd hs (hh hc).1
        · exact ⟨fun hin => absurd hin n1, fun hne => absurd rfl hne.1⟩
        · exact ⟨fun hin => absurd hin n2, fun hlo => absurd hs hlo.2.1⟩
      · obtain ⟨hc0, hc1⟩ := hph hs hpT
        have hcd : wrap32 (m.CountDown - m.Speed) = m.CountDown - m.Speed := by
          apply wrap32_eq_self <;> omega
        by_cases hc : 0 ≤ wrap32 (m.CountDown - m.Speed)
        · rw [DoMotor_coast oob m hW hg hs hc]
          rw [hcd] at hc ⊢
          by_cases h128 : m.CountDown - m.Speed < 128
          · rw [if_pos h128, lineAfter_clr m c hl]
            refine ⟨fun hc => absurd hc (by simp), by simp, by simp, ?_, by simp⟩
            simp only [List.mem_singleton, true_iff]
            exact ⟨hW, hs, hpT, hc, h128⟩
          · rw [if_neg h128]
            refine ⟨fun hc => ?_, by simp, by simp, ?_, by simp⟩
            · exact ⟨hs, hW, hpT, by show 128 ≤ m.CountDown - m.Speed; omega⟩
            · simp only [List.not_mem_nil, false_iff]
              exact fun hlo => h128 hlo.2.2.2.2
        · have hcf : c = false := by
            cases c with
            | false => rfl
            | true =>
              have := (hh rfl).2.2.2
              rw [hcd] at hc
              omega
          have hdir := (hmv hs hpT).1
          have hpos' : wrap32 (m.Pos + m.Dir) = m.Pos + m.Dir := by
            apply wrap32_eq_self <;> split at hdir <;> omega
          have hmoved : m.Pos + m.Dir ≠ m.Pos := by split at hdir <;> omega
          rw [DoMotor_step oob m hW hg hs (by omega)] at hinv' ⊢
          obtain ⟨v, hveq, ⟨hne, heq⟩ | ⟨hat, heq⟩⟩ := stepDone_cases oob m
          · rw [heq] at hinv' ⊢
            have hv := hinv'.speed
            have hcd2 : wrap32 (wrap32 (m.CountDown - m.Speed) + 256)
                = m.CountDown - m.Speed + 256 := by
              rw [hcd]; rw [hcd] at hc; apply wrap32_eq_self <;> omega
            rw [hcd] at hc
            have hv0 : v ≠ 0 := by
              have hga : 0 ≤ toGoAbs m := by
                unfold toGoAbs
                rw [htg]
                split
                · rw [wrap32_eq_self _ (by omega) (by omega)]; omega
                · omega
              have := newSpeed_pos oob (stepped m) (toGo m) (toGoAbs m)
                (by show 0 < m.Speed; omega) (by show 1 ≤ m.MaxSpeed; omega) hR
                (by show 0 ≤ m.RampIndex ∧ m.RampIndex + 1 < 2147483648; omega) hga
              omega
            rw [lineAfter_set m c hl]
            simp only [hcd2, hpos'] at hne ⊢
            refine ⟨fun _ => ⟨hv0, hW, hne, by omega⟩, ?_, ?_, ?_, ?_⟩
            · simp only [List.mem_singleton, true_iff]; exact ⟨hmoved, hne⟩
            · intro _; exact ⟨hcf, by omega, by omega⟩
            · simp only [List.mem_singleton, false_iff]
              exact ⟨by simp, fun hlo => by omega⟩
            · intro _; right; exact ⟨hv0, hne, by omega⟩
          · rw [heq]
            rw [hcd] at hc
            simp only [hpos'] at hat ⊢
            refine ⟨?_, ?_, by simp, ?_, fun _ => Or.inl (by simp)⟩
            · intro hc'
              rw [hcf] at hc'
              exact absurd hc' (by simp [lineAfter])
            · simp only [List.not_mem_nil, false_iff]
              exact fun hne => hne.2 hat
            · simp only [List.not_mem_nil, false_iff]
              exact fun hlo => by omega
  · rw [DoMotor_wait oob m hW]
    refine ⟨fun hc => absurd (hh hc).2.1 hW, by simp, by simp, ?_, by simp⟩
    simp only [List.not_mem_nil, false_iff]
    exact fun hlo => hW hlo.1

theorem pulse_of_ReachLine (init m : stepper_t) (c : Bool)
    (hi : init = InitDraw ∨ init = InitTilt ∨ init = InitTurret)
    (h : ReachLine whenQuiescentInRange init m c) :
    AxisInv m ∧ LinesApart m ∧ HighInv m c := by
  induction h with
  | init =>
    exact ⟨(AxisInv_init init hi).1, (AxisInv_init init hi).2, fun hc => absurd hc (by simp)⟩
  | @tick oob s c _ ih =>
    exact ⟨DoMotor_AxisInv oob s ih.1, DoMotor_LinesApart oob s ih.2.1,
      (DoMotor_pulse oob s c ih.1 ih.2.1 ih.2.2).1⟩
  | @retarget t s c _ hok ih =>
    exact ⟨AxisInv_retarget s t ih.1 hok, ih.2.1, fun hc => absurd hok.1.1 (ih.2.2 hc).1⟩

/-- A call of `DoMotor` on an axis that waits, or whose clock cycle is in its first half,
does not move `Pos`. -/
theorem DoMotor_pos_hold (oob : Int → Nat) (m : stepper_t) (h : AxisInv m)
    (hc : m.Wait ≠ 0 ∨ (m.Speed ≠ 0 ∧ m.Pos ≠ m.Target ∧ 128 ≤ m.CountDown)) :
    (DoMotor oob m).motor.Pos = m.Pos := by
  obtain ⟨⟨ht, hp, _, _⟩, hM, _, hS, _, _, hph⟩ := h
  by_cases hW : m.Wait = 0
  · rcases hc with hc | ⟨hs, hpT, h128⟩
    · exact absurd hW hc
    · have hg : toGo m ≠ 0 := by
        unfold toGo; rw [wrap32_eq_self _ (by omega) (by omega)]; omega
      obtain ⟨_, hc1⟩ := hph hs hpT
      rw [DoMotor_coast oob m hW hg hs
        (by rw [wrap32_eq_self _ (by omega) (by omega)]; omega)]
  · rw [DoMotor_wait oob m hW]

/-- C14. Pulse phase.  In every state of an axis of `Init` reachable by calls of `DoMotor`
and by changes of `Target` made while it is quiescent, `c` being the level the calls so
far have left on its clock line: `Speed` is between 0 and 128; a call asserts the clock
line exactly when it completes a step short of the target, that is when it arms the next
step, and `CountDown` then lies in [128, 255] and the line was low (`c = false`), so a
deassertion came after the previous assertion; a call that moves `Pos` is never followed
by a call that moves `Pos`; a call deasserts the clock line exactly when the decremented
`CountDown` of the running axis lands in [0, 128); and while the line is high `CountDown`
is 128 or more. -/
theorem C14_pulse_phase (init m : stepper_t) (c : Bool)
    (hi : init = InitDraw ∨ init = InitTilt ∨ init = InitTurret)
    (h : ReachLine whenQuiescentInRange init m c) (oob oob' : Int → Nat) :
    (0 ≤ m.Speed ∧ m.Speed ≤ 128) ∧
    (GpioWrite.set m.CLOCK ∈ (DoMotor oob m).gpio ↔
      (DoMotor oob m).motor.Pos ≠ m.Pos ∧ (DoMotor oob m).motor.Pos ≠ m.Target) ∧
    (GpioWrite.set m.CLOCK ∈ (DoMotor oob m).gpio →
      c = false ∧ 128 ≤ (DoMotor oob m).motor.CountDown ∧
      (DoMotor oob m).motor.CountDown ≤ 255) ∧
    ((DoMotor oob m).motor.Pos ≠ m.Pos →
      (DoMotor oob' (DoMotor oob m).motor).motor.Pos = (DoMotor oob m).motor.Pos) ∧
    (GpioWrite.clr m.CLOCK ∈ (DoMotor oob m).gpio ↔ lowPhase m) ∧
    (c = true → 128 ≤ m.CountDown) := by
  obtain ⟨hinv, hl, hh⟩ := pulse_of_ReachLine init m c hi h
  obtain ⟨_, p2, p3, p4, p5⟩ := DoMotor_pulse oob m c hinv hl hh
  have hsp := hinv.speed
  have hmx := hinv.maxs
  exact ⟨by omega, p2, p3,
    fun hne => DoMotor_pos_hold oob' _ (DoMotor_AxisInv oob m hinv) (p5 hne), p4,
    fun hc => (hh hc).2.2.2⟩

/-- C14 at the draw axis of `Init` after its target is set to `SHOT_DRAW_STEPS` and
`DoMotor` is called once. -/
theorem C14_pulse_phase_witness :
    0 ≤ (DoMotor (fun _ => 0) { InitDraw with Target := 875 }).motor.Speed ∧
    (DoMotor (fun _ => 0) { InitDraw with Target := 875 }).motor.Speed ≤ 128 :=
  (C14_pulse_phase InitDraw (DoMotor (fun _ => 0) { InitDraw with Target := 875 }).motor
    (lineAfter ({ InitDraw with Target := 875 } : stepper_t).CLOCK false
      (DoMotor (fun _ => 0) { InitDraw with Target := 875 }).gpio)
    (Or.inl rfl)
    (ReachLine.tick (fun _ => 0)
      (ReachLine.retarget 875 ReachLine.init ⟨⟨rfl, rfl⟩, by decide, by decide⟩))
    (fun _ => 0) (fun _ => 0)).1

/-! ## Steps and pulses (C15) -/

/-- C15, the code at the failing input.  The draw axis of `Init` sent from 0 to 1: after
29 calls of `DoMotor` the move is over, `Pos` has changed once, and the writes made are the
enabling of the motor, the direction, and five deassertions of the clock line: the clock
line was never asserted.  Sent from 0 to 3, the move is over after 45 calls, `Pos` has
changed three times and the clock line was asserted twice. -/
theorem C15_steps_and_pulses :
    settled (ticks (fun _ => 0) 29 { InitDraw with Target := 1 }) ∧
    (ticks (fun _ => 0) 29 { InitDraw with Target := 1 }).Pos = 1 ∧
    posChanges (fun _ => 0) 29 { InitDraw with Target := 1 } = 1 ∧
    gpioTrace (fun _ => 0) 29 { InitDraw with Target := 1 }
      = [GpioWrite.clr STEP_ENA1, GpioWrite.set STEP_DIR1, GpioWrite.clr STEP_CLK1,
         GpioWrite.clr STEP_CLK1, GpioWrite.clr STEP_CLK1, GpioWrite.clr STEP_CLK1,
         GpioWrite.clr STEP_CLK1] ∧
    (gpioTrace (fun _ => 0) 29 { InitDraw with Target := 1 }).count
      (GpioWrite.set STEP_CLK1) = 0 ∧
    settled (ticks (fun _ => 0) 45 { InitDraw with Target := 3 }) ∧
    (ticks (fun _ => 0) 45 { InitDraw with Target := 3 }).Pos = 3 ∧
    posChanges (fun _ => 0) 45 { InitDraw with Target := 3 } = 3 ∧
    (gpioTrace (fun _ => 0) 45 { InitDraw with Target := 3 }).count
      (GpioWrite.set STEP_CLK1) = 2 := by
  decide!

/-! ## The gate of the idle logic (C18) -/

theorem tdiv_1000_bound (w : Int) : targetOk (Int.tdiv (wrap32 w) 1000) := by
  have hw := wrap32_isInt32 w
  unfold isInt32 at hw
  unfold targetOk
  generalize wrap32 w = z at hw
  by_cases hz : 0 ≤ z
  · rw [Int.tdiv_eq_ediv hz (by decide)]
    omega
  · have h1 : Int.tdiv z 1000 = -(Int.tdiv (-z) 1000) := by
      rw [Int.neg_tdiv, Int.neg_neg]
    rw [h1, Int.tdiv_eq_ediv (by omega) (by decide)]
    omega

theorem sameAxis_refl (m : stepper_t) : sameAxis m m := rfl

theorem sameAxis_set (m : stepper_t) (t : Int) : sameAxis m { m with Target := t } := rfl

theorem sameAxis_trans (a b c : stepper_t) (h1 : sameAxis a b) (h2 : sameAxis b c) :
    sameAxis a c := by
  unfold sameAxis at *
  rw [h2, h1]

theorem intake_motors (t x y : Int) (L : loop_t) :
    (sameAxis L.motors0 (intake t x y L).motors0 ∧
      ((intake t x y L).motors0.Target = L.motors0.Target ∨
       (intake t x y L).motors0.Target = SHOT_DRAW_STEPS)) ∧
    (sameAxis L.motors1 (intake t x y L).motors1 ∧ targetOk (intake t x y L).motors1.Target) ∧
    (sameAxis L.motors2 (intake t x y L).motors2 ∧ targetOk (intake t x y L).motors2.Target) := by
  obtain ⟨_, _, _, f1, f2, _, _⟩ := fireBlock_fields t (histScroll x y L.XHist L.YHist).1 x y
    (intakePrep x y L)
  have h1 : (intake t x y L).motors1 = (intakePrep x y L).motors1 := f1
  have h2 : (intake t x y L).motors2 = (intakePrep x y L).motors2 := f2
  refine ⟨?_, ⟨by rw [h1]; rfl, by rw [h1]; exact tdiv_1000_bound _⟩,
    ⟨by rw [h2]; rfl, by rw [h2]; exact tdiv_1000_bound _⟩⟩
  have h0 : (intake t x y L).motors0
      = (fireBlock t (histScroll x y L.XHist L.YHist).1 x y (intakePrep x y L)).motors0 := rfl
  rw [h0]
  by_cases hs : shootNow t (histScroll x y L.XHist L.YHist).1 x y (intakePrep x y L)
  · rw [fireBlock_shoot _ _ _ _ _ hs]
    exact ⟨rfl, Or.inr rfl⟩
  · rw [fireBlock_hold _ _ _ _ _ hs]
    exact ⟨rfl, Or.inl rfl⟩

theorem homing_motors (t : Int) (L : loop_t) :
    (homing t L).1.motors0 = L.motors0 ∧
    (sameAxis L.motors1 (homing t L).1.motors1 ∧
      ((homing t L).1.motors1.Target = L.motors1.Target ∨ (homing t L).1.motors1.Target = 0)) ∧
    (sameAxis L.motors2 (homing t L).1.motors2 ∧
      ((homing t L).1.motors2.Target = L.motors2.Target ∨ (homing t L).1.motors2.Target = 0)) := by
  unfold homing
  split_ifs <;> exact ⟨rfl, ⟨rfl, by simp⟩, ⟨rfl, by simp⟩⟩

theorem shotDwell_motors (L : loop_t) :
    (sameAxis L.motors0 (shotDwell L).motors0 ∧
      ((shotDwell L).motors0.Target = L.motors0.Target ∨ (shotDwell L).motors0.Target = 0)) ∧
    (shotDwell L).motors1 = L.motors1 ∧ (shotDwell L).motors2 = L.motors2 := by
  unfold shotDwell
  split_ifs <;> exact ⟨⟨rfl, by simp⟩, rfl, rfl⟩

theorem targetOk_or (a b : Int) (hb : targetOk b) (v : Int) (h : v = a ∨ v = b) :
    v = a ∨ targetOk v := by
  rcases h with h | h
  · exact Or.inl h
  · exact Or.inr (by rw [h]; exact hb)

/-- The idle logic leaves each axis as it was but for `Target`, which keeps its value or
takes one that `RunStepping` can assign. -/
theorem idlePhase_motors (inp : TickIn) (L : loop_t) :
    (sameAxis L.motors0 (idlePhase inp L).1.motors0 ∧
      ((idlePhase inp L).1.motors0.Target = L.motors0.Target ∨
        targetOk (idlePhase inp L).1.motors0.Target)) ∧
    (sameAxis L.motors1 (idlePhase inp L).1.motors1 ∧
      ((idlePhase inp L).1.motors1.Target = L.motors1.Target ∨
        targetOk (idlePhase inp L).1.motors1.Target)) ∧
    (sameAxis L.motors2 (idlePhase inp L).1.motors2 ∧
      ((idlePhase inp L).1.motors2.Target = L.motors2.Target ∨
        targetOk (idlePhase inp L).1.motors2.Target)) := by
  have ok0 : targetOk 0 := by unfold targetOk; decide
  have ok875 : targetOk SHOT_DRAW_STEPS := by unfold targetOk; decide
  have key : ∀ M : loop_t,
      (sameAxis L.motors0 M.motors0 ∧
        (M.motors0.Target = L.motors0.Target ∨ targetOk M.motors0.Target)) →
      (sameAxis L.motors1 M.motors1 ∧
        (M.motors1.Target = L.motors1.Target ∨ targetOk M.motors1.Target)) →
      (sameAxis L.motors2 M.motors2 ∧
        (M.motors2.Target = L.motors2.Target ∨ targetOk M.motors2.Target)) →
      (sameAxis L.motors0 (shotDwell (homing inp.time1 M).1).motors0 ∧
        ((shotDwell (homing inp.time1 M).1).motors0.Target = L.motors0.Target ∨
          targetOk (shotDwell (homing inp.time1 M).1).motors0.Target)) ∧
      (sameAxis L.motors1 (shotDwell (homing inp.time1 M).1).motors1 ∧
        ((shotDwell (homing inp.time1 M).1).motors1.Target = L.motors1.Target ∨
          targetOk (shotDwell (homing inp.time1 M).1).motors1.Target)) ∧
      (sameAxis L.motors2 (shotDwell (homing inp.time1 M).1).motors2 ∧
        ((shotDwell (homing inp.time1 M).1).motors2.Target = L.motors2.Target ∨
          targetOk (shotDwell (homing inp.time1 M).1).motors2.Target)) := by
    intro M ⟨a0, b0⟩ ⟨a1, b1⟩ ⟨a2, b2⟩
    obtain ⟨g0, ⟨g1, g1'⟩, ⟨g2, g2'⟩⟩ := homing_motors inp.time1 M
    obtain ⟨⟨s0, s0'⟩, s1, s2⟩ := shotDwell_motors (homing inp.time1 M).1
    rw [s1, s2]
    rw [g0] at s0 s0'
    refine ⟨⟨sameAxis_trans _ _ _ a0 s0, ?_⟩, ⟨sameAxis_trans _ _ _ a1 g1, ?_⟩,
      ⟨sameAxis_trans _ _ _ a2 g2, ?_⟩⟩
    · rcases s0' with h | h
      · rw [h]; exact b0
      · exact Or.inr (by rw [h]; exact ok0)
    · rcases g1' with h | h
      · rw [h]; exact b1
      · exact Or.inr (by rw [h]; exact ok0)
    · rcases g2' with h | h
      · rw [h]; exact b2
      · exact Or.inr (by rw [h]; exact ok0)
  unfold idlePhase
  simp only []
  cases inp.udp with
  | none =>
    exact key { L with IsIdle := 1 } ⟨rfl, Or.inl rfl⟩ ⟨rfl, Or.inl rfl⟩ ⟨rfl, Or.inl rfl⟩
  | some xy =>
    obtain ⟨x, y⟩ := xy
    obtain ⟨⟨i0, i0'⟩, ⟨i1, i1'⟩, ⟨i2, i2'⟩⟩ := intake_motors inp.time1 x y { L with IsIdle := 1 }
    exact key (intake inp.time1 x y { L with IsIdle := 1 })
      ⟨i0, targetOk_or _ _ ok875 _ i0'⟩ ⟨i1, Or.inr i1'⟩ ⟨i2, Or.inr i2'⟩

theorem AxisInv_of_Reach (init m : stepper_t)
    (hi : init = InitDraw ∨ init = InitTilt ∨ init = InitTurret)
    (h : Reach whenQuiescentInRange init m) : AxisInv m := by
  induction h with
  | init => exact (AxisInv_init init hi).1
  | @tick oob s _ ih => exact DoMotor_AxisInv oob s ih
  | @retarget t s _ hok ih => exact AxisInv_retarget s t ih hok

/-- An axis of `Init` that is stopped has no wait left. -/
theorem quiescent_of_stopped (m : stepper_t) (h : AxisInv m) (hs : m.Speed = 0) :
    quiescent m := by
  refine ⟨hs, ?_⟩
  by_contra hw
  exact h.dwell hw hs

theorem Reach_sameAxis (init m m' : stepper_t)
    (hi : init = InitDraw ∨ init = InitTilt ∨ init = InitTurret)
    (h : Reach whenQuiescentInRange init m) (hq : quiescent m) (hs : sameAxis m m')
    (ht : m'.Target = m.Target ∨ targetOk m'.Target) :
    Reach whenQuiescentInRange init m' := by
  have hb : targetOk m'.Target := by
    rcases ht with ht | ht
    · rw [ht]; exact (AxisInv_of_Reach init m hi h).ramp.target
    · exact ht
  unfold sameAxis at hs
  rw [hs]
  exact Reach.retarget _ h ⟨hq, hb⟩

theorem motorPhase_motors (oob : Int → Nat) (t : Int) (L : loop_t) :
    (motorPhase oob t L).1.motors0 = (DoMotor oob L.motors0).motor ∧
    (motorPhase oob t L).1.motors1 = (DoMotor oob L.motors1).motor ∧
    (motorPhase oob t L).1.motors2 = (DoMotor oob L.motors2).motor := by
  unfold motorPhase
  simp only []
  split <;> simp

/-- One iteration of the loop from a state whose axes are reachable: the axes stay
reachable; when the test of lines 381-383 holds all three axes are quiescent; and an axis
whose `Target` the iteration changes is quiescent after its call of `DoMotor`. -/
theorem loopBody_gate (oob : Int → Nat) (inp : TickIn) (L : loop_t) (h : LoopReach L) :
    LoopReach (loopBody oob inp L).1 ∧
    (allIdle (motorPhase oob inp.time1 L).1 →
      quiescent (motorPhase oob inp.time1 L).1.motors0 ∧
      quiescent (motorPhase oob inp.time1 L).1.motors1 ∧
      quiescent (motorPhase oob inp.time1 L).1.motors2) ∧
    ((loopBody oob inp L).1.motors0.Target ≠ L.motors0.Target →
      allIdle (motorPhase oob inp.time1 L).1) ∧
    ((loopBody oob inp L).1.motors1.Target ≠ L.motors1.Target →
      allIdle (motorPhase oob inp.time1 L).1) ∧
    ((loopBody oob inp L).1.motors2.Target ≠ L.motors2.Target →
      allIdle (motorPhase oob inp.time1 L).1) := by
  obtain ⟨h0, h1, h2⟩ := h
  obtain ⟨e0, e1, e2⟩ := motorPhase_motors oob inp.time1 L
  have r0 : Reach whenQuiescentInRange InitDraw (motorPhase oob inp.time1 L).1.motors0 := by
    rw [e0]; exact Reach.tick oob h0
  have r1 : Reach whenQuiescentInRange InitTilt (motorPhase oob inp.time1 L).1.motors1 := by
    rw [e1]; exact Reach.tick oob h1
  have r2 : Reach whenQuiescentInRange InitTurret (motorPhase oob inp.time1 L).1.motors2 := by
    rw [e2]; exact Reach.tick oob h2
  have t0 : (motorPhase oob inp.time1 L).1.motors0.Target = L.motors0.Target := by
    rw [e0]; exact (DoMotor_const oob _).1
  have t1 : (motorPhase oob inp.time1 L).1.motors1.Target = L.motors1.Target := by
    rw [e1]; exact (DoMotor_const oob _).1
  have t2 : (motorPhase oob inp.time1 L).1.motors2.Target = L.motors2.Target := by
    rw [e2]; exact (DoMotor_const oob _).1
  have hq : allIdle (motorPhase oob inp.time1 L).1 →
      quiescent (motorPhase oob inp.time1 L).1.motors0 ∧
      quiescent (motorPhase oob inp.time1 L).1.motors1 ∧
      quiescent (motorPhase oob inp.time1 L).1.motors2 := fun hidle =>
    ⟨⟨hidle.1, hidle.2.1⟩, ⟨hidle.2.2.1, hidle.2.2.2.1⟩,
      quiescent_of_stopped _ (AxisInv_of_Reach _ _ (Or.inr (Or.inr rfl)) r2) hidle.2.2.2.2⟩
  by_cases hidle : allIdle (motorPhase oob inp.time1 L).1
  · have hbody : (loopBody oob inp L).1 = (idlePhase inp (motorPhase oob inp.time1 L).1).1 := by
      unfold loopBody; rw [if_pos hidle]
    obtain ⟨q0, q1, q2⟩ := hq hidle
    obtain ⟨⟨a0, b0⟩, ⟨a1, b1⟩, ⟨a2, b2⟩⟩ := idlePhase_motors inp (motorPhase oob inp.time1 L).1
    rw [hbody]
    exact ⟨⟨Reach_sameAxis _ _ _ (Or.inl rfl) r0 q0 a0 b0,
        Reach_sameAxis _ _ _ (Or.inr (Or.inl rfl)) r1 q1 a1 b1,
        Reach_sameAxis _ _ _ (Or.inr (Or.inr rfl)) r2 q2 a2 b2⟩,
      hq, fun _ => hidle, fun _ => hidle, fun _ => hidle⟩
  · have hbody : (loopBody oob inp L).1 = { (motorPhase oob inp.time1 L).1 with IsIdle := 0 } := by
      unfold loopBody; rw [if_neg hidle]
    rw [hbody]
    exact ⟨⟨r0, r1, r2⟩, hq, fun hne => absurd t0 hne, fun hne => absurd t1 hne,
      fun hne => absurd t2 hne⟩

theorem LoopReach_runLoop (oob : Int → Nat) :
    ∀ (ins : List TickIn) (L : loop_t), LoopReach L → LoopReach (runLoop oob ins L) := by
  intro ins
  induction ins with
  | nil => intro L h; exact h
  | cons inp ins ih => intro L h; exact ih _ (loopBody_gate oob inp L h).1

/-- C18. Intake gating.  `L` is any state the control loop reaches from its initial state
(whatever `last_seen` holds at the start, whatever the inputs of the iterations `ins`), and
`inp` the input of the next iteration.  The idle logic (target intake, homing, shot
sequencing) runs in that iteration only when the test of lines 381-383 holds after the
three calls of `DoMotor`, and then all three axes are quiescent, `Speed == 0` and
`Wait == 0` for draw, tilt and turret; otherwise the iteration only clears `IsIdle`.  So an
axis whose `Target` the iteration changes is quiescent when it is changed. -/
theorem C18_intake_gating (oob : Int → Nat) (ls : Int) (ins : List TickIn) (inp : TickIn)
    (L : loop_t) (hL : L = runLoop oob ins (RunSteppingInit ls)) :
    (allIdle (motorPhase oob inp.time1 L).1 →
      quiescent (motorPhase oob inp.time1 L).1.motors0 ∧
      quiescent (motorPhase oob inp.time1 L).1.motors1 ∧
      quiescent (motorPhase oob inp.time1 L).1.motors2) ∧
    (¬ allIdle (motorPhase oob inp.time1 L).1 →
      loopBody oob inp L
        = ({ (motorPhase oob inp.time1 L).1 with IsIdle := 0 }, (motorPhase oob inp.time1 L).2)) ∧
    ((loopBody oob inp L).1.motors0.Target ≠ L.motors0.Target →
      quiescent (motorPhase oob inp.time1 L).1.motors0) ∧
    ((loopBody oob inp L).1.motors1.Target ≠ L.motors1.Target →
      quiescent (motorPhase oob inp.time1 L).1.motors1) ∧
    ((loopBody oob inp L).1.motors2.Target ≠ L.motors2.Target →
      quiescent (motorPhase oob inp.time1 L).1.motors2) := by
  have hr : LoopReach L := by
    rw [hL]
    exact LoopReach_runLoop oob ins _ ⟨Reach.init, Reach.init, Reach.init⟩
  obtain ⟨_, hq, c0, c1, c2⟩ := loopBody_gate oob inp L hr
  refine ⟨hq, fun hn => ?_, fun h => (hq (c0 h)).1, fun h => (hq (c1 h)).2.1,
    fun h => (hq (c2 h)).2.2⟩
  unfold loopBody
  rw [if_neg hn]

/-- C18 at the second iteration of the loop, which accepts the target (0, 0). -/
theorem C18_intake_gating_witness :
    quiescent (motorPhase (fun _ => 0) 9000000
      (runLoop (fun _ => 0) [⟨0, none⟩] (RunSteppingInit 0))).1.motors0 ∧
    quiescent (motorPhase (fun _ => 0) 9000000
      (runLoop (fun _ => 0) [⟨0, none⟩] (RunSteppingInit 0))).1.motors1 ∧
    quiescent (motorPhase (fun _ => 0) 9000000
      (runLoop (fun _ => 0) [⟨0, none⟩] (RunSteppingInit 0))).1.motors2 :=
  (C18_intake_gating (fun _ => 0) 0 [⟨0, none⟩] ⟨9000000, some (0, 0)⟩
    (runLoop (fun _ => 0) [⟨0, none⟩] (RunSteppingInit 0)) rfl).1 (by decide!)

/-! ## The target history (C19) -/

/-- One pass of the history loop: each bound of the range takes in the entry `a`, and the
entry moves down one slot. -/
theorem histStep_eq (r : Range) (XH YH : List Int) (a : Nat) :
    histStep (r, XH, YH) a =
      (⟨min r.XMin (XH.getD a 0), max r.XMax (XH.getD a 0),
        min r.YMin (YH.getD a 0), max r.YMax (YH.getD a 0)⟩,
       XH.set (a - 1) (XH.getD a 0), YH.set (a - 1) (YH.getD a 0)) := by
  obtain ⟨x0, x1, y0, y1⟩ := r
  unfold histStep
  simp only [Prod.mk.injEq, and_true]
  generalize XH.getD a 0 = u
  generalize YH.getD a 0 = v
  split_ifs <;> simp only [Range.mk.injEq] <;> dsimp only at * <;> omega

/-- The history loop on a history of six entries. -/
theorem histScroll_six (x y a0 a1 a2 a3 a4 a5 b0 b1 b2 b3 b4 b5 : Int) :
    histScroll x y [a0, a1, a2, a3, a4, a5] [b0, b1, b2, b3, b4, b5] =
      (⟨min (min (min (min (min x a1) a2) a3) a4) a5,
        max (max (max (max (max x a1) a2) a3) a4) a5,
        min (min (min (min (min y b1) b2) b3) b4) b5,
        max (max (max (max (max y b1) b2) b3) b4) b5⟩,
       [a1, a2, a3, a4, a5, x], [b1, b2, b3, b4, b5, y]) := by
  have hr : List.range' 1 (HISTLEN - 1) = [1, 2, 3, 4, 5] := by decide
  unfold histScroll
  simp only [hr, List.foldl_cons, List.foldl_nil, histStep_eq]
  rfl

theorem length_six (l : List Int) (h : l.length = 6) :
    ∃ a0 a1 a2 a3 a4 a5, l = [a0, a1, a2, a3, a4, a5] := by
  rcases l with _ | ⟨a0, _ | ⟨a1, _ | ⟨a2, _ | ⟨a3, _ | ⟨a4, _ | ⟨a5, _ | ⟨a6, l⟩⟩⟩⟩⟩⟩⟩ <;>
    simp at h
  exact ⟨a0, a1, a2, a3, a4, a5, rfl⟩

theorem intake_hist (t x y : Int) (L : loop_t) :
    (intake t x y L).XHist = (histScroll x y L.XHist L.YHist).2.1 ∧
    (intake t x y L).YHist = (histScroll x y L.XHist L.YHist).2.2 := by
  obtain ⟨_, _, _, _, _, f6, f7⟩ := fireBlock_fields t (histScroll x y L.XHist L.YHist).1 x y
    (intakePrep x y L)
  exact ⟨f6, f7⟩

/-- C19. Target history.  On a target `(x, y)` accepted at time `t` in a state whose two
histories have their six entries: each history becomes the previous one with its oldest
entry dropped, the other five kept in order, and the new coordinate appended, and still has
six entries; the `XMin`, `XMax`, `YMin`, `YMax` computed by the history loop are the least
and the greatest entry of the updated histories; and, the entries being such that their
differences are 32-bit values, the target is treated as stable (line 418) exactly when
`XMax - XMin < 5` and `YMax - YMin < 5`.  At the start both histories are six zeros. -/
theorem C19_target_history (t x y : Int) (L : loop_t)
    (hX : L.XHist.length = 6) (hY : L.YHist.length = 6) :
    (intake t x y L).XHist = L.XHist.tail ++ [x] ∧
    (intake t x y L).YHist = L.YHist.tail ++ [y] ∧
    (intake t x y L).XHist.length = 6 ∧ (intake t x y L).YHist.length = 6 ∧
    ((histScroll x y L.XHist L.YHist).1.XMin ∈ (intake t x y L).XHist ∧
      ∀ e ∈ (intake t x y L).XHist, (histScroll x y L.XHist L.YHist).1.XMin ≤ e) ∧
    ((histScroll x y L.XHist L.YHist).1.XMax ∈ (intake t x y L).XHist ∧
      ∀ e ∈ (intake t x y L).XHist, e ≤ (histScroll x y L.XHist L.YHist).1.XMax) ∧
    ((histScroll x y L.XHist L.YHist).1.YMin ∈ (intake t x y L).YHist ∧
      ∀ e ∈ (intake t x y L).YHist, (histScroll x y L.XHist L.YHist).1.YMin ≤ e) ∧
    ((histScroll x y L.XHist L.YHist).1.YMax ∈ (intake t x y L).YHist ∧
      ∀ e ∈ (intake t x y L).YHist, e ≤ (histScroll x y L.XHist L.YHist).1.YMax) ∧
    ((∀ e ∈ (intake t x y L).XHist, coordOk e) → (∀ e ∈ (intake t x y L).YHist, coordOk e) →
      (stable (histScroll x y L.XHist L.YHist).1 ↔
        (histScroll x y L.XHist L.YHist).1.XMax - (histScroll x y L.XHist L.YHist).1.XMin < 5 ∧
        (histScroll x y L.XHist L.YHist).1.YMax - (histScroll x y L.XHist L.YHist).1.YMin < 5)) ∧
    (∀ ls, (RunSteppingInit ls).XHist = [0, 0, 0, 0, 0, 0] ∧
      (RunSteppingInit ls).YHist = [0, 0, 0, 0, 0, 0]) := by
  obtain ⟨a0, a1, a2, a3, a4, a5, ha⟩ := length_six _ hX
  obtain ⟨b0, b1, b2, b3, b4, b5, hb⟩ := length_six _ hY
  obtain ⟨ix, iy⟩ := intake_hist t x y L
  rw [ix, iy, ha, hb, histScroll_six]
  simp only [List.tail_cons, List.cons_append, List.nil_append, List.length_cons,
    List.length_nil, List.mem_cons, List.mem_singleton, List.not_mem_nil, or_false,
    forall_eq_or_imp, forall_eq, true_and]
  refine ⟨⟨?_, ?_⟩, ⟨?_, ?_⟩, ⟨?_, ?_⟩, ⟨?_, ?_⟩, ?_, fun _ => ⟨rfl, rfl⟩⟩
  · omega
  · omega
  · omega
  · omega
  · omega
  · omega
  · omega
  · omega
  · intro hx hy
    unfold coordOk at hx hy
    unfold stable
    dsimp only
    rw [wrap32_eq_self _ (by omega) (by omega), wrap32_eq_self _ (by omega) (by omega)]

/-- C19 at the first target, (3, 4), accepted in the initial state. -/
theorem C19_target_history_witness :
    (intake 9000000 3 4 (RunSteppingInit 0)).XHist = (RunSteppingInit 0).XHist.tail ++ [3] ∧
    (intake 9000000 3 4 (RunSteppingInit 0)).YHist = (RunSteppingInit 0).YHist.tail ++ [4] :=
  ⟨(C19_target_history 9000000 3 4 (RunSteppingInit 0) rfl rfl).1,
   (C19_target_history 9000000 3 4 (RunSteppingInit 0) rfl rfl).2.1⟩

/-! ## The dwell with the band drawn (C20) -/

theorem dwell_check :
    (runEvents (fun _ => 0) (quietTicks 9370200 148) drawnState).taking_shot = 1 ∧
    (runEvents (fun _ => 0) (quietTicks 9370200 148) drawnState).motors0.Target = 875 ∧
    (runEvents (fun _ => 0) (quietTicks 9370200 149) drawnState).taking_shot = 0 ∧
    (runEvents (fun _ => 0) (quietTicks 9370200 149) drawnState).motors0.Target = 0 := by
  decide!

/-- C20, the code at the failing input.  The loop starts at clock 0 and accepts the stable
target (0, 0) at clock 9000000, which triggers a shot.  At the end of that very iteration
the dwell countdown `taking_shot` is already 149, not `SHOT_DRAW_DELAY = 150`, with the
draw axis still at 0 and its `Target` at 875: the test of line 472 finds the axis
quiescent before it has moved.  The countdown then stands still during the 1850 iterations
of the draw (`demoRun`), which end with `Pos = 875`; after 148 further iterations, all
quiescent, it is 1 with `Target` still 875, and the 149th brings it to 0 and sets `Target`
to 0: the dwell with the band drawn lasts 149 ticks. -/
theorem C20_dwell_window :
    shotAt (fun _ => 0) (⟨9000000, some (0, 0)⟩ : Event).tick
      (runEvents (fun _ => 0) [⟨0, none⟩] (RunSteppingInit 0)) = some (0, 0) ∧
    (runEvents (fun _ => 0) [⟨0, none⟩, ⟨9000000, some (0, 0)⟩]
      (RunSteppingInit 0)).taking_shot = 149 ∧
    (runEvents (fun _ => 0) [⟨0, none⟩, ⟨9000000, some (0, 0)⟩]
      (RunSteppingInit 0)).motors0.Pos = 0 ∧
    (runEvents (fun _ => 0) [⟨0, none⟩, ⟨9000000, some (0, 0)⟩]
      (RunSteppingInit 0)).motors0.Target = 875 ∧
    (runEvents (fun _ => 0) demoRun (RunSteppingInit 0)).taking_shot = 149 ∧
    (runEvents (fun _ => 0) demoRun (RunSteppingInit 0)).motors0.Pos = 875 ∧
    (runEvents (fun _ => 0) (demoRun ++ quietTicks 9370200 148)
      (RunSteppingInit 0)).taking_shot = 1 ∧
    (runEvents (fun _ => 0) (demoRun ++ quietTicks 9370200 148)
      (RunSteppingInit 0)).motors0.Target = 875 ∧
    (runEvents (fun _ => 0) (demoRun ++ quietTicks 9370200 149)
      (RunSteppingInit 0)).taking_shot = 0 ∧
    (runEvents (fun _ => 0) (demoRun ++ quietTicks 9370200 149)
      (RunSteppingInit 0)).motors0.Target = 0 := by
  rw [runEvents_append, runEvents_append, demoRun_state, demoRun_start]
  obtain ⟨d1, d2, d3, d4⟩ := dwell_check
  exact ⟨by decide!, rfl, rfl, rfl, rfl, rfl, d1, d2, d3, d4⟩

/-! ## The frame of the shot sequencer (C21) -/

theorem idlePhase_draw (inp : TickIn) (L : loop_t) :
    (idlePhase inp L).1.motors0.Target = L.motors0.Target ∨
    (idlePhase inp L).1.motors0.Target = 0 ∨
    (idlePhase inp L).1.motors0.Target = SHOT_DRAW_STEPS := by
  have key : ∀ M : loop_t,
      (M.motors0.Target = L.motors0.Target ∨ M.motors0.Target = SHOT_DRAW_STEPS) →
      (shotDwell (homing inp.time1 M).1).motors0.Target = L.motors0.Target ∨
      (shotDwell (homing inp.time1 M).1).motors0.Target = 0 ∨
      (shotDwell (homing inp.time1 M).1).motors0.Target = SHOT_DRAW_STEPS := by
    intro M hM
    obtain ⟨g0, _, _⟩ := homing_motors inp.time1 M
    obtain ⟨⟨_, s0⟩, _, _⟩ := shotDwell_motors (homing inp.time1 M).1
    rw [g0] at s0
    rcases s0 with h | h
    · rw [h]
      rcases hM with h' | h'
      · exact Or.inl h'
      · exact Or.inr (Or.inr h')
    · exact Or.inr (Or.inl h)
  unfold idlePhase
  simp only []
  cases inp.udp with
  | none => exact key { L with IsIdle := 1 } (Or.inl rfl)
  | some xy =>
    obtain ⟨x, y⟩ := xy
    exact key _ (intake_motors inp.time1 x y { L with IsIdle := 1 }).1.2

theorem loopBody_draw (oob : Int → Nat) (inp : TickIn) (L : loop_t)
    (h : L.motors0.Target = 0 ∨ L.motors0.Target = SHOT_DRAW_STEPS) :
    (loopBody oob inp L).1.motors0.Target = 0 ∨
    (loopBody oob inp L).1.motors0.Target = SHOT_DRAW_STEPS := by
  have t0 : (motorPhase oob inp.time1 L).1.motors0.Target = L.motors0.Target := by
    rw [(motorPhase_motors oob inp.time1 L).1]; exact (DoMotor_const oob _).1
  unfold loopBody
  simp only []
  split
  · rcases idlePhase_draw inp (motorPhase oob inp.time1 L).1 with h' | h' | h'
    · rw [h', t0]; exact h
    · exact Or.inl h'
    · exact Or.inr h'
  · show (motorPhase oob inp.time1 L).1.motors0.Target = 0 ∨ _
    rw [t0]; exact h

theorem runLoop_draw (oob : Int → Nat) :
    ∀ (ins : List TickIn) (L : loop_t),
      (L.motors0.Target = 0 ∨ L.motors0.Target = SHOT_DRAW_STEPS) →
      (runLoop oob ins L).motors0.Target = 0 ∨
      (runLoop oob ins L).motors0.Target = SHOT_DRAW_STEPS := by
  intro ins
  induction ins with
  | nil => intro L h; exact h
  | cons inp ins ih => intro L h; exact ih _ (loopBody_draw oob inp L h)

/-- C21. Shot sequencer frame.  The fire trigger (lines 418-435) leaves the state as it
was except for the draw axis `Target`, the dwell countdown `taking_shot`, `last_fired` and
the last fired position; the dwell and retract block (lines 471-480) leaves it as it was
except for the draw axis `Target` and `taking_shot`: `Pos`, `Speed`, `Dir`, `CountDown`,
`Wait` and `RampIndex` of every axis are unchanged.  Neither makes a GPIO write: the writes
of the idle logic are those of the homing block alone.  In every state the loop reaches
from its initial state the draw axis `Target` is 0 or 875. -/
theorem C21_shot_frame (oob : Int → Nat) (inp : TickIn) (r : Range) (x y : Int)
    (L : loop_t) :
    fireBlock inp.time1 r x y L =
      { L with motors0 := { L.motors0 with
                            Target := (fireBlock inp.time1 r x y L).motors0.Target },
               taking_shot := (fireBlock inp.time1 r x y L).taking_shot,
               last_fired := (fireBlock inp.time1 r x y L).last_fired,
               LastShotX := (fireBlock inp.time1 r x y L).LastShotX,
               LastShotY := (fireBlock inp.time1 r x y L).LastShotY } ∧
    shotDwell L =
      { L with motors0 := { L.motors0 with Target := (shotDwell L).motors0.Target },
               taking_shot := (shotDwell L).taking_shot } ∧
    (idlePhase inp L).2 =
      (homing inp.time1
        (match inp.udp with
         | some (xDeg, yDeg) => intake inp.time1 xDeg yDeg { L with IsIdle := 1 }
         | none => { L with IsIdle := 1 })).2 ∧
    (∀ (ls : Int) (ins : List TickIn),
      (runLoop oob ins (RunSteppingInit ls)).motors0.Target = 0 ∨
      (runLoop oob ins (RunSteppingInit ls)).motors0.Target = 875) := by
  refine ⟨?_, ?_, ?_, fun ls ins => runLoop_draw oob ins _ (Or.inl rfl)⟩
  · unfold fireBlock
    split_ifs <;> rfl
  · unfold shotDwell
    split_ifs <;> rfl
  · unfold idlePhase
    cases inp.udp <;> rfl

/-! ## Disabling the motors (C22) -/

theorem homing_writes (t : Int) (L : loop_t) :
    (homing t L).2 =
      (if L.GoHome ≠ 0 ∧ wrap32 (t - L.last_seen) > 8000000
       then [GpioWrite.set (L.motors0.ENABLE ||| L.motors1.ENABLE ||| L.motors2.ENABLE)]
       else []) := by
  unfold homing
  split_ifs <;> first | rfl | (exfalso; omega)

/-- C22 as stated fails.  The loop accepts a target at clock 0 and no other; the iteration
at clock 5000200 assigns the home position; the iteration at clock 8000200, all motions
complete, writes the three enable masks to `GPIO_SET`, although the time since the accepted
target, 8000200 microseconds, does not exceed 5000000 + 8000000. -/
theorem C22_counterexample :
    acceptAt (fun _ => 0) (⟨0, some (0, 0)⟩ : Event).tick (RunSteppingInit 0) = some (0, 0) ∧
    homeLog (fun _ => 0) [⟨5000200, none⟩, ⟨8000200, none⟩]
      (runEvents (fun _ => 0) [⟨0, some (0, 0)⟩] (RunSteppingInit 0)) = [true, false] ∧
    (loopBody (fun _ => 0) (⟨8000200, none⟩ : Event).tick
      (runEvents (fun _ => 0) [⟨0, some (0, 0)⟩, ⟨5000200, none⟩] (RunSteppingInit 0))).2
      = [GpioWrite.set (STEP_ENA1 ||| STEP_ENA2 ||| STEP_ENA3)] ∧
    (⟨8000200, none⟩ : Event).tick.time1 - (⟨0, some (0, 0)⟩ : Event).tick.time1
      ≤ 5000000 + 8000000 := by
  exact ⟨by decide!, by decide!, by decide!, by decide!⟩

/-- C22, amended.  The GPIO writes of an iteration are those of its three calls of
`DoMotor`, followed by one write of the three enable masks together to `GPIO_SET` exactly
when all motions are complete, no target is accepted in the iteration, `GoHome` is set
(the home position was assigned in an earlier iteration, since the last accepted target)
and the time since the last accepted target, as the loop computes it, exceeds the second
threshold of 8000000 microseconds; the threshold is counted from the last accepted target,
not from the first threshold. -/
theorem C22_deenergize (oob : Int → Nat) (inp : TickIn) (L : loop_t) :
    (loopBody oob inp L).2 =
      (motorPhase oob inp.time1 L).2 ++
      (if allIdle (motorPhase oob inp.time1 L).1 ∧ inp.udp = none ∧ L.GoHome ≠ 0 ∧
            wrap32 (inp.time1 - L.last_seen) > 8000000
       then [GpioWrite.set ((motorPhase oob inp.time1 L).1.motors0.ENABLE |||
               (motorPhase oob inp.time1 L).1.motors1.ENABLE |||
               (motorPhase oob inp.time1 L).1.motors2.ENABLE)]
       else []) := by
  obtain ⟨_, _, m3, m4, _⟩ := motorPhase_fields oob inp.time1 L
  by_cases hidle : allIdle (motorPhase oob inp.time1 L).1
  · have hbody : (loopBody oob inp L).2
        = (motorPhase oob inp.time1 L).2 ++ (idlePhase inp (motorPhase oob inp.time1 L).1).2 := by
      unfold loopBody; rw [if_pos hidle]
    rw [hbody]
    congr 1
    unfold idlePhase
    simp only []
    rw [homing_writes]
    cases hu : inp.udp with
    | none =>
      simp only [hidle, true_and]
      show (if (motorPhase oob inp.time1 L).1.GoHome ≠ 0 ∧
          wrap32 (inp.time1 - (motorPhase oob inp.time1 L).1.last_seen) > 8000000 then _ else _) = _
      rw [m3, m4]
    | some xy =>
      obtain ⟨x, y⟩ := xy
      simp only []
      obtain ⟨i1, i2, _, _⟩ := intake_fields inp.time1 x y
        { (motorPhase oob inp.time1 L).1 with IsIdle := 1 }
      rw [if_neg (by rw [i2]; simp), if_neg (by simp)]
  · have hbody : (loopBody oob inp L).2 = (motorPhase oob inp.time1 L).2 := by
      unfold loopBody; rw [if_neg hidle]
    rw [hbody, if_neg (fun h => hidle h.1), List.append_nil]

/-! ## Elapsed time and the wrap of the counter (C23) -/

theorem wrap32_unsigned (now before : Int) :
    (unsignedDiff now before < 2147483648 →
      wrap32 (now - before) = unsignedDiff now before) ∧
    (2147483648 ≤ unsignedDiff now before →
      wrap32 (now - before) = unsignedDiff now before - 4294967296) := by
  unfold unsignedDiff wrap32
  constructor <;> intro h <;> omega

/-- C23 as stated fails.  With the counter read as 0 and then as 2^31, the unsigned
difference is 2^31, which is at least 200 and more than 280, 5000000 and 8000000, but the
program computes the difference -2^31 and every test is false: the tick is not due, and an
iteration at that time with `last_seen = 0` and all motions complete does not assign the
home position. -/
theorem C23_counterexample :
    unsignedDiff (readTimer 2147483648) (readTimer 0) = 2147483648 ∧
    ¬ tickDue (readTimer 0) (readTimer 2147483648) ∧
    ¬ tickTooLong (readTimer 0) (readTimer 2147483648) 0 ∧
    ¬ homeNow (readTimer 2147483648) (RunSteppingInit (readTimer 0)) ∧
    ¬ (wrap32 (readTimer 2147483648 - readTimer 0) > 8 * 1000000) := by
  decide

/-- C23, amended.  Every elapsed-time test of `RunStepping` (tick period `delta >= 200`,
overrun `delta > 280`, cooldown `> 8000000`, homing `> 5000000` and `> 8000000`) is decided
by the signed 32-bit difference of the two counter readings, the variables being `int`.
For all readings `now` and `before`: when the unsigned difference `(now - before) mod 2^32`
is below 2^31, the outcome of each test is the comparison applied to that unsigned
difference; when it is 2^31 or more, the difference the program computes is negative and
every test fails. -/
theorem C23_elapsed_time (now before : Int) :
    (unsignedDiff now before < 2147483648 →
      (tickDue before now ↔ unsignedDiff now before ≥ 200) ∧
      (∀ idle : Int, tickTooLong before now idle ↔ unsignedDiff now before > 280 ∧ idle = 0) ∧
      (∀ (r : Range) (x y : Int) (L : loop_t), L.last_fired = before →
        (shootNow now r x y L ↔
          stable r ∧ ¬ OldLoc L x y ∧ unsignedDiff now before > 8000000)) ∧
      (∀ L : loop_t, L.last_seen = before →
        (homeNow now L ↔ unsignedDiff now before > 5000000 ∧ L.GoHome = 0) ∧
        ((homing now L).2 ≠ [] ↔ L.GoHome ≠ 0 ∧ unsignedDiff now before > 8000000))) ∧
    (2147483648 ≤ unsignedDiff now before →
      wrap32 (now - before) < 0 ∧
      ¬ tickDue before now ∧
      (∀ idle : Int, ¬ tickTooLong before now idle) ∧
      (∀ (r : Range) (x y : Int) (L : loop_t), L.last_fired = before →
        ¬ shootNow now r x y L) ∧
      (∀ L : loop_t, L.last_seen = before → ¬ homeNow now L ∧ (homing now L).2 = [])) := by
  obtain ⟨w1, w2⟩ := wrap32_unsigned now before
  have hlt : unsignedDiff now before < 4294967296 := by unfold unsignedDiff; omega
  constructor
  · intro h
    have hw := w1 h
    refine ⟨?_, fun idle => ?_, fun r x y L hL => ?_, fun L hL => ⟨?_, ?_⟩⟩
    · unfold tickDue TICK_SIZE; rw [hw]
    · unfold tickTooLong TICK_ERROR; rw [hw]
    · unfold shootNow; rw [hL, hw]
      constructor <;> intro ⟨a, b, c⟩ <;> exact ⟨a, b, by omega⟩
    · unfold homeNow; rw [hL, hw]
    · rw [homing_writes, hL, hw]
      split <;> simp_all
  · intro h
    have hw := w2 h
    refine ⟨by omega, ?_, fun idle => ?_, fun r x y L hL => ?_, fun L hL => ⟨?_, ?_⟩⟩
    · unfold tickDue TICK_SIZE; omega
    · unfold tickTooLong TICK_ERROR; omega
    · unfold shootNow; rw [hL]; omega
    · unfold homeNow; rw [hL]; omega
    · rw [homing_writes, hL, if_neg (by omega)]

/-! ## The scaling of the coordinates (C24) -/

theorem tdiv_1000_eq (a : Int) :
    Int.tdiv a 1000 = if 0 ≤ a then a / 1000 else -((-a) / 1000) := by
  split
  · rename_i h
    exact Int.tdiv_eq_ediv h (by decide)
  · rename_i h
    have h1 : Int.tdiv a 1000 = -(Int.tdiv (-a) 1000) := by
      rw [Int.neg_tdiv, Int.neg_neg]
    rw [h1, Int.tdiv_eq_ediv (by omega) (by decide)]

theorem scale_turret (x y : Int) (L : loop_t) (hx : -32768 ≤ x ∧ x ≤ 32768) :
    (intakePrep x y L).motors2.Target = Int.tdiv (-x * 972 * 4) 1000 := by
  show Int.tdiv (wrap32 (wrap32 (wrap32 (-x) * 972) * 4)) 1000 = _
  rw [wrap32_eq_self (-x) (by omega) (by omega),
    wrap32_eq_self (-x * 972) (by omega) (by omega),
    wrap32_eq_self (-x * 972 * 4) (by omega) (by omega)]

theorem scale_tilt (x y : Int) (L : loop_t) (hy : -32768 ≤ y ∧ y ≤ 32768) :
    (intakePrep x y L).motors1.Target = Int.tdiv (y * 3110) 1000 := by
  show Int.tdiv (wrap32 (y * 3110)) 1000 = _
  rw [wrap32_eq_self (y * 3110) (by omega) (by omega)]

/-- C24. Target scaling.  For an accepted command with `xDeg` and `yDeg` in the signed
16-bit range, the turret `Target` is set to `(-xDeg * 972 * 4) / 1000` and the tilt `Target`
to `(yDeg * 3110) / 1000`, the division truncating toward zero; no intermediate result
leaves the 32-bit range.  The mapping is odd: the negated angle gives the negated target.
It is monotone: a greater `yDeg` never gives a smaller tilt target, and a greater `xDeg`
never gives a greater turret target, the turret factor being negative.  The scaling
(lines 390-392) leaves the draw axis as it is. -/
theorem C24_target_scaling (t x y : Int) (L : loop_t)
    (hx : -32768 ≤ x ∧ x ≤ 32767) (hy : -32768 ≤ y ∧ y ≤ 32767) :
    (intake t x y L).motors2.Target = Int.tdiv (-x * 972 * 4) 1000 ∧
    (intake t x y L).motors1.Target = Int.tdiv (y * 3110) 1000 ∧
    (isInt32 (-x) ∧ isInt32 (-x * 972) ∧ isInt32 (-x * 972 * 4) ∧ isInt32 (y * 3110)) ∧
    ((intakePrep (-x) y L).motors2.Target = -(intakePrep x y L).motors2.Target ∧
     (intakePrep x (-y) L).motors1.Target = -(intakePrep x y L).motors1.Target) ∧
    (∀ x2 y2 : Int, x ≤ x2 → x2 ≤ 32767 → y ≤ y2 → y2 ≤ 32767 →
      (intakePrep x2 y2 L).motors2.Target ≤ (intakePrep x y L).motors2.Target ∧
      (intakePrep x y L).motors1.Target ≤ (intakePrep x2 y2 L).motors1.Target) ∧
    (intakePrep x y L).motors0 = L.motors0 := by
  obtain ⟨_, _, _, f1, f2, _, _⟩ := fireBlock_fields t (histScroll x y L.XHist L.YHist).1 x y
    (intakePrep x y L)
  have h1 : (intake t x y L).motors1 = (intakePrep x y L).motors1 := f1
  have h2 : (intake t x y L).motors2 = (intakePrep x y L).motors2 := f2
  refine ⟨by rw [h2]; exact scale_turret x y L (by omega),
    by rw [h1]; exact scale_tilt x y L (by omega),
    by unfold isInt32; omega, ⟨?_, ?_⟩, fun x2 y2 a1 a2 b1 b2 => ⟨?_, ?_⟩, rfl⟩
  · rw [scale_turret (-x) y L (by omega), scale_turret x y L (by omega),
      tdiv_1000_eq, tdiv_1000_eq]
    split <;> split <;> omega
  · rw [scale_tilt x (-y) L (by omega), scale_tilt x y L (by omega),
      tdiv_1000_eq, tdiv_1000_eq]
    split <;> split <;> omega
  · rw [scale_turret x2 y2 L (by omega), scale_turret x y L (by omega),
      tdiv_1000_eq, tdiv_1000_eq]
    split <;> split <;> omega
  · rw [scale_tilt x2 y2 L (by omega), scale_tilt x y L (by omega),
      tdiv_1000_eq, tdiv_1000_eq]
    split <;> split <;> omega

/-- C24 at the command (100, -50) accepted in the initial state: 10 degrees of pan and
-5 degrees of tilt give the targets -388 and -155. -/
theorem C24_target_scaling_witness :
    (intake 9000000 100 (-50) (RunSteppingInit 0)).motors2.Target
      = Int.tdiv (-100 * 972 * 4) 1000 ∧
    (intake 9000000 100 (-50) (RunSteppingInit 0)).motors1.Target
      = Int.tdiv (-50 * 3110) 1000 ∧
    Int.tdiv (-100 * 972 * 4) 1000 = -388 ∧ Int.tdiv (-50 * 3110) 1000 = -155 :=
  ⟨(C24_target_scaling 9000000 100 (-50) (RunSteppingInit 0) (by decide) (by decide)).1,
   (C24_target_scaling 9000000 100 (-50) (RunSteppingInit 0) (by decide) (by decide)).2.1,
   by decide, by decide⟩

/-! ## The wire record (C25) -/

theorem wrap16_eq_self (x : Int) (h : isInt16 x) : wrap16 x = x := by
  unfold isInt16 at h
  unfold wrap16; omega

theorem shortOf_shortBytes (v : Int) (h : isInt16 v) :
    shortOf ((v % 65536).toNat % 256) ((v % 65536).toNat / 256) = v := by
  unfold isInt16 at h
  unfold shortOf wrap16
  omega

theorem decode_bytes (r : Udp_t) (h1 : isInt16 r.Ident) (h2 : isInt16 r.Level)
    (h3 : isInt16 r.xpos) (h4 : isInt16 r.ypos) (h5 : isInt16 r.IsMotion) :
    Udp_t.decode r.bytes = some r := by
  obtain ⟨a, b, c, d, e⟩ := r
  simp only [Udp_t.bytes, shortBytes, List.cons_append, List.nil_append, Udp_t.decode]
  rw [shortOf_shortBytes a h1, shortOf_shortBytes b h2, shortOf_shortBytes c h3,
    shortOf_shortBytes d h4, shortOf_shortBytes e h5]

/-- C25. Wire record.  With at least one destination set up, `SendUDP` hands to `sendto`,
once for each destination, a record of five 16-bit fields in the order `Ident`, `Level`,
`xpos`, `ypos`, `IsMotion`, 10 bytes in all, with `Ident = UDP_MAGIC = 0x46c1`; for `x` and
`y` in 0..1000 and `level` and `motion` in the signed 16-bit range the fields hold exactly
the arguments, and the five 16-bit fields read back from the 10 bytes are those same
values. -/
theorem C25_wire_record (NumDests : Nat) (x y level motion : Int) (hn : 0 < NumDests)
    (hx : 0 ≤ x ∧ x ≤ 1000) (hy : 0 ≤ y ∧ y ≤ 1000)
    (hl : isInt16 level) (hm : isInt16 motion) :
    SendUDP NumDests x y level motion =
      (List.range NumDests).map (fun (n : Nat) => (n, (⟨0x46c1, level, x, y, motion⟩ : Udp_t))) ∧
    (∀ p ∈ SendUDP NumDests x y level motion,
      p.2 = ⟨0x46c1, level, x, y, motion⟩ ∧ p.2.bytes.length = 10 ∧
      Udp_t.decode p.2.bytes = some ⟨0x46c1, level, x, y, motion⟩) := by
  unfold isInt16 at hl hm
  have hb : SendUDP.Buf x y level motion = ⟨0x46c1, level, x, y, motion⟩ := by
    unfold SendUDP.Buf
    rw [wrap16_eq_self UDP_MAGIC (by decide), wrap16_eq_self level hl,
      wrap16_eq_self x (by unfold isInt16; omega), wrap16_eq_self y (by unfold isInt16; omega),
      wrap16_eq_self motion hm]
    rfl
  have hs : SendUDP NumDests x y level motion =
      (List.range NumDests).map
        (fun (n : Nat) => (n, (⟨0x46c1, level, x, y, motion⟩ : Udp_t))) := by
    unfold SendUDP
    rw [if_neg (by omega), hb]
  refine ⟨hs, fun p hp => ?_⟩
  rw [hs, List.mem_map] at hp
  obtain ⟨n, _, hp⟩ := hp
  rw [← hp]
  refine ⟨rfl, rfl, ?_⟩
  have h1 : isInt16 (0x46c1 : Int) := by decide
  have h3 : isInt16 x := by unfold isInt16; omega
  have h4 : isInt16 y := by unfold isInt16; omega
  exact decode_bytes ⟨0x46c1, level, x, y, motion⟩ h1 hl h3 h4 hm

/-- C25 at the example of the specification: level 50, x 500, y 500, motion 1, sent to one
destination. -/
theorem C25_wire_record_witness :
    SendUDP 1 500 500 50 1 = [(0, (⟨0x46c1, 50, 500, 500, 1⟩ : Udp_t))] ∧
    (∀ p ∈ SendUDP 1 500 500 50 1,
      p.2 = ⟨0x46c1, 50, 500, 500, 1⟩ ∧ p.2.bytes.length = 10 ∧
      Udp_t.decode p.2.bytes = some ⟨0x46c1, 50, 500, 500, 1⟩) :=
  C25_wire_record 1 500 500 50 1 (by decide) (by decide) (by decide) (by decide) (by decide)

/-! ## The comparison read outside the table (C27) -/

/-- When the ramp-down test of line 249 holds, the table is read at index `ToGo`. -/
theorem stepDone_reads_toGo (oob : Int → Nat) (m : stepper_t)
    (h : toGoAbs m < wrap32 (NUM_RAMP_STEPS * m.RampStretch)) :
    toGo m ∈ (stepDone oob m).reads := by
  have hr : (stepDone oob m).reads = (newSpeed oob (stepped m) (toGo m) (toGoAbs m)).2 := by
    unfold stepDone; split <;> rfl
  have hrs : (rampUpStep oob (stepped m)).1.RampStretch = m.RampStretch :=
    (rampUpStep_const oob (stepped m)).2
  rw [hr]
  unfold newSpeed
  apply List.mem_append_right
  unfold rampDownStep
  rw [hrs, if_pos h]
  split <;> simp

/-- The first step of a move of an axis of `Init`: the state after seven calls, whatever
lies outside the table. -/
theorem first_step_state (oob : Int → Nat) (init : stepper_t) (T : Int)
    (hi : init = InitDraw ∨ init = InitTilt ∨ init = InitTurret)
    (hT : T = -3 ∨ T = 31 ∨ T = -31) :
    ticks oob 7 { init with Target := T } = firstStep init T := by
  have h := ticks_indep (fun _ => 0) oob 6 { init with Target := T }
    (by rcases hi with h | h | h <;> rcases hT with h' | h' | h' <;> subst h <;> subst h' <;>
          decide!) 7 (le_refl _)
  rw [h]
  rcases hi with h | h | h <;> rcases hT with h' | h' | h' <;> subst h <;> subst h' <;>
    decide!

/-- C27. The comparison of line 251 reads `RampUp[ToGo]` outside the table in states
reachable in normal operation, whatever lies outside the table: on the turret axis
(`RampStretch` 12) three steps short of a target in the negative direction, the index is
-3; on the tilt axis (`RampStretch` 10) 31 steps short of a positive target, inside the
stretched ramp of 290 steps, the index is 31; on the tilt axis 31 steps short of a negative
target it is -31. -/
theorem C27_comparison_read_out_of_table (oob : Int → Nat) :
    (∃ m, Reach whenQuiescentInRange InitTurret m ∧ toGo m = -3 ∧
      toGo m ∈ (DoMotor oob m).reads ∧ ¬ (0 ≤ toGo m ∧ toGo m < NUM_RAMP_STEPS)) ∧
    (∃ m, Reach whenQuiescentInRange InitTilt m ∧ toGo m = 31 ∧
      toGo m ∈ (DoMotor oob m).reads ∧ ¬ (0 ≤ toGo m ∧ toGo m < NUM_RAMP_STEPS)) ∧
    (∃ m, Reach whenQuiescentInRange InitTilt m ∧ toGo m = -31 ∧
      toGo m ∈ (DoMotor oob m).reads ∧ ¬ (0 ≤ toGo m ∧ toGo m < NUM_RAMP_STEPS)) := by
  have key : ∀ (init : stepper_t) (T : Int),
      init = InitDraw ∨ init = InitTilt ∨ init = InitTurret →
      (init = InitTurret ∧ T = -3) ∨ (init = InitTilt ∧ T = 31) ∨ (init = InitTilt ∧ T = -31) →
      ∃ m, Reach whenQuiescentInRange init m ∧ toGo m = T ∧
        toGo m ∈ (DoMotor oob m).reads ∧ ¬ (0 ≤ toGo m ∧ toGo m < NUM_RAMP_STEPS) := by
    intro init T hi hT
    have hT' : T = -3 ∨ T = 31 ∨ T = -31 := by
      rcases hT with h | h | h
      · exact Or.inl h.2
      · exact Or.inr (Or.inl h.2)
      · exact Or.inr (Or.inr h.2)
    have hq : whenQuiescentInRange init T := by
      rcases hT with h | h | h <;> rw [h.1, h.2] <;> exact ⟨⟨rfl, rfl⟩, by decide, by decide⟩
    refine ⟨ticks oob 7 { init with Target := T },
      Reach_ticks _ _ oob 7 _ (Reach.retarget T Reach.init hq), ?_⟩
    rw [first_step_state oob init T hi hT']
    have hg : toGo (firstStep init T) = T := by
      rcases hT with h | h | h <;> rw [h.1, h.2] <;> decide
    have hstep : DoMotor oob (firstStep init T) = stepDone oob (firstStep init T) := by
      apply DoMotor_step
      · rcases hT with h | h | h <;> rw [h.1] <;> rfl
      · rw [hg]; rcases hT' with h | h | h <;> rw [h] <;> decide
      · show (25 : Int) ≠ 0; decide
      · show wrap32 ((2 : Int) - 25) < 0; decide
    rw [hstep, hg]
    refine ⟨rfl, ?_, ?_⟩
    · have := stepDone_reads_toGo oob (firstStep init T)
        (by rcases hT with h | h | h <;> rw [h.1, h.2] <;> decide)
      rw [hg] at this
      exact this
    · rcases hT' with h | h | h <;> rw [h] <;> decide
  exact ⟨key InitTurret (-3) (Or.inr (Or.inr rfl)) (Or.inl ⟨rfl, rfl⟩),
    key InitTilt 31 (Or.inr (Or.inl rfl)) (Or.inr (Or.inl ⟨rfl, rfl⟩)),
    key InitTilt (-31) (Or.inr (Or.inl rfl)) (Or.inr (Or.inr ⟨rfl, rfl⟩))⟩

/-! ## The reads whose value becomes the speed (C28) -/

theorem toGoAbs_nonneg (m : stepper_t) (h : RampInv m) : 0 ≤ toGoAbs m := by
  obtain ⟨ht, hp, _, _⟩ := h
  have htg : toGo m = m.Target - m.Pos := by
    unfold toGo; apply wrap32_eq_self <;> omega
  unfold toGoAbs
  rw [htg]
  split
  · rw [wrap32_eq_self _ (by omega) (by omega)]; omega
  · omega

theorem rampRead_table (oob : Int → Nat) (i : Int) (h : 0 ≤ i ∧ i < NUM_RAMP_STEPS) :
    25 ≤ rampRead oob i ∧ rampRead oob i ≤ 128 := by
  unfold rampRead
  rw [if_pos h]
  unfold NUM_RAMP_STEPS at h
  exact RampUp_getD_bounds i.toNat (by omega)

/-- The speed that the ramp-up rule gives. -/
theorem rampUpStep_speed (oob : Int → Nat) (m : stepper_t) :
    (rampUpStep oob m).1.Speed =
      (if wrap32 (m.RampIndex + 1) < wrap32 (NUM_RAMP_STEPS * m.RampStretch)
       then rampRead oob (Int.tdiv (wrap32 (m.RampIndex + 1)) m.RampStretch)
       else m.Speed) := by
  unfold rampUpStep
  split <;> rfl

theorem DoMotor_speedValue (oob : Int → Nat) (m : stepper_t) (hr : RampInv m)
    (hR : 1 ≤ m.RampStretch) (hv : speedValue m) : speedValue (DoMotor oob m).motor := by
  have hga := toGoAbs_nonneg m hr
  obtain ⟨_, _, hi, _⟩ := hr
  unfold speedValue at hv ⊢
  by_cases hW : m.Wait = 0
  · by_cases hg : toGo m = 0
    · rw [DoMotor_arrived oob m hW hg]; exact Or.inl rfl
    · by_cases hs : m.Speed = 0
      · rw [DoMotor_start oob m hW hg hs, rampRead_zero]
        exact Or.inr ⟨25, by decide, by decide, Or.inl rfl⟩
      · by_cases hc : 0 ≤ wrap32 (m.CountDown - m.Speed)
        · rw [DoMotor_coast oob m hW hg hs hc]; exact hv
        · rw [DoMotor_step oob m hW hg hs (by omega)]
          obtain ⟨hsp, _⟩ := stepDone_speed oob m
          have hmx : (stepDone oob m).motor.MaxSpeed = m.MaxSpeed := by
            obtain ⟨v, _, h | h⟩ := stepDone_motor oob m <;> rw [h]
          rw [hsp, hmx, newSpeed_eq, rampUpStep_speed]
          have hms : (stepped m).MaxSpeed = m.MaxSpeed := rfl
          have hrs : (stepped m).RampStretch = m.RampStretch := rfl
          have hri : (stepped m).RampIndex = m.RampIndex := rfl
          have hss : (stepped m).Speed = m.Speed := rfl
          rw [hms, hrs, hri, hss]
          have hw : wrap32 (m.RampIndex + 1) = m.RampIndex + 1 := by
            apply wrap32_eq_self <;> omega
          have hS : ∃ v : Int, 25 ≤ v ∧ v ≤ 128 ∧
              min (if wrap32 (m.RampIndex + 1) < wrap32 (NUM_RAMP_STEPS * m.RampStretch)
                   then rampRead oob (Int.tdiv (wrap32 (m.RampIndex + 1)) m.RampStretch)
                   else m.Speed) m.MaxSpeed = min v m.MaxSpeed := by
            by_cases hB : wrap32 (m.RampIndex + 1) < wrap32 (NUM_RAMP_STEPS * m.RampStretch)
            · rw [if_pos hB]
              obtain ⟨b1, b2⟩ := rampRead_table oob _ (tdiv_inTable _ _ (by omega) hB hR)
              exact ⟨_, b1, b2, rfl⟩
            · rw [if_neg hB]
              rcases hv with h0 | ⟨v, v1, v2, h | h⟩
              · exact absurd h0 hs
              · exact ⟨v, v1, v2, by rw [h]⟩
              · exact ⟨v, v1, v2, by rw [h]; omega⟩
          generalize (if wrap32 (m.RampIndex + 1) < wrap32 (NUM_RAMP_STEPS * m.RampStretch)
              then rampRead oob (Int.tdiv (wrap32 (m.RampIndex + 1)) m.RampStretch)
              else m.Speed) = S at hS ⊢
          right
          by_cases hA : toGoAbs m < wrap32 (NUM_RAMP_STEPS * m.RampStretch) ∧
              rampRead oob (toGo m) < S
          · rw [if_pos hA]
            obtain ⟨b1, b2⟩ := rampRead_table oob _ (tdiv_inTable _ _ hga hA.1 hR)
            exact ⟨_, b1, b2, Or.inr rfl⟩
          · rw [if_neg hA]
            obtain ⟨v, v1, v2, h⟩ := hS
            exact ⟨v, v1, v2, Or.inr h⟩
  · rw [DoMotor_wait oob m hW]; exact hv

theorem speedValue_of_Reach (init m : stepper_t) (hz : atRest init)
    (hR : 1 ≤ init.RampStretch) (h : Reach whenQuiescentInRange init m) :
    speedValue m := by
  have hz' : init.Pos = 0 ∧ init.Target = 0 ∧ init.Speed = 0 ∧ init.RampIndex = 0 :=
    ⟨hz.1, hz.2.1, hz.2.2.1, hz.2.2.2.2⟩
  induction h with
  | init => exact Or.inl hz.2.2.1
  | @tick oob s hs ih =>
    obtain ⟨hr, hrs⟩ := RampInv_of_Reach init s hz' hs
    exact DoMotor_speedValue oob s hr (by rw [hrs]; exact hR) ih
  | @retarget t s _ hok ih => exact ih

/-- C28. Value-producing table reads are in bounds.  For an axis at rest at the start with
`RampStretch >= 1`, in every state reachable by calls of `DoMotor` and by changes of
`Target` made while it is quiescent, and whatever lies outside the table: `RampStretch` is
not 0, so no division divides by zero; the read `RampUp[0]` of the start gives 25; under
the guard `RampIndex < 29 * RampStretch` (on the incremented `RampIndex`) the index
`RampIndex / RampStretch` is in 0..28; under the guard `ToGoAbs < 29 * RampStretch` the
index `ToGoAbs / RampStretch` is in 0..28; the values read there lie in 25..128; and
`Speed` is always 0 or such a value, as read or capped by `MaxSpeed`. -/
theorem C28_value_reads_in_table (init m : stepper_t) (hz : atRest init)
    (hR : 1 ≤ init.RampStretch) (h : Reach whenQuiescentInRange init m) (oob : Int → Nat) :
    m.RampStretch ≠ 0 ∧
    rampRead oob 0 = 25 ∧
    (wrap32 (m.RampIndex + 1) < wrap32 (NUM_RAMP_STEPS * m.RampStretch) →
      (0 ≤ Int.tdiv (wrap32 (m.RampIndex + 1)) m.RampStretch ∧
       Int.tdiv (wrap32 (m.RampIndex + 1)) m.RampStretch < NUM_RAMP_STEPS) ∧
      25 ≤ rampRead oob (Int.tdiv (wrap32 (m.RampIndex + 1)) m.RampStretch) ∧
      rampRead oob (Int.tdiv (wrap32 (m.RampIndex + 1)) m.RampStretch) ≤ 128) ∧
    (toGoAbs m < wrap32 (NUM_RAMP_STEPS * m.RampStretch) →
      (0 ≤ Int.tdiv (toGoAbs m) m.RampStretch ∧
       Int.tdiv (toGoAbs m) m.RampStretch < NUM_RAMP_STEPS) ∧
      25 ≤ rampRead oob (Int.tdiv (toGoAbs m) m.RampStretch) ∧
      rampRead oob (Int.tdiv (toGoAbs m) m.RampStretch) ≤ 128) ∧
    speedValue m := by
  have hz' : init.Pos = 0 ∧ init.Target = 0 ∧ init.Speed = 0 ∧ init.RampIndex = 0 :=
    ⟨hz.1, hz.2.1, hz.2.2.1, hz.2.2.2.2⟩
  obtain ⟨hr, hrs⟩ := RampInv_of_Reach init m hz' h
  have hR' : 1 ≤ m.RampStretch := by rw [hrs]; exact hR
  have hga := toGoAbs_nonneg m hr
  have hi := hr.index
  have hw : wrap32 (m.RampIndex + 1) = m.RampIndex + 1 := by
    apply wrap32_eq_self <;> omega
  refine ⟨by omega, rampRead_zero oob, fun hg => ?_, fun hg => ?_,
    speedValue_of_Reach init m hz hR h⟩
  · have hin := tdiv_inTable _ _ (by omega) hg hR'
    exact ⟨hin, rampRead_table oob _ hin⟩
  · have hin := tdiv_inTable _ _ hga hg hR'
    exact ⟨hin, rampRead_table oob _ hin⟩

/-- C28 at the tilt axis of `Init` after its target is set to 311 and `DoMotor` is called
once. -/
theorem C28_value_reads_in_table_witness :
    (DoMotor (fun _ => 0) { InitTilt with Target := 311 }).motor.RampStretch ≠ 0 ∧
    speedValue (DoMotor (fun _ => 0) { InitTilt with Target := 311 }).motor :=
  ⟨(C28_value_reads_in_table InitTilt _ (by decide) (by decide)
      (Reach.tick (fun _ => 0) (Reach.retarget 311 Reach.init ⟨⟨rfl, rfl⟩, by decide, by decide⟩))
      (fun _ => 0)).1,
   (C28_value_reads_in_table InitTilt _ (by decide) (by decide)
      (Reach.tick (fun _ => 0) (Reach.retarget 311 Reach.init ⟨⟨rfl, rfl⟩, by decide, by decide⟩))
      (fun _ => 0)).2.2.2.2⟩

/-! ## A stopped axis has no wait left (C29) -/

/-- The speed left by the ramp computation of a running axis is positive, whatever the
sign of `RampStretch`, as long as `NUM_RAMP_STEPS * RampStretch` is a 32-bit value. -/
theorem newSpeed_pos_any (oob : Int → Nat) (m : stepper_t) (g a : Int)
    (hS : 0 < m.Speed) (hM : 1 ≤ m.MaxSpeed) (hR : isInt32 (NUM_RAMP_STEPS * m.RampStretch))
    (hI : 0 ≤ m.RampIndex ∧ m.RampIndex + 1 < 2147483648) (ha : 0 ≤ a) :
    0 < (newSpeed oob m g a).1.Speed := by
  by_cases h1 : 1 ≤ m.RampStretch
  · exact newSpeed_pos oob m g a hS hM h1 hI ha
  · unfold isInt32 NUM_RAMP_STEPS at hR
    have hw : wrap32 (NUM_RAMP_STEPS * m.RampStretch) = 29 * m.RampStretch := by
      unfold NUM_RAMP_STEPS; exact wrap32_eq_self _ hR.1 hR.2
    have hi : wrap32 (m.RampIndex + 1) = m.RampIndex + 1 := by
      apply wrap32_eq_self <;> omega
    rw [newSpeed_eq, rampUpStep_speed, hw, hi, if_neg (by omega), if_neg (by omega)]
    omega

theorem DoMotor_StopInv (oob : Int → Nat) (m : stepper_t) (h : StopInv m) :
    StopInv (DoMotor oob m).motor := by
  have hramp := DoMotor_RampInv oob m h.ramp
  have hconst := DoMotor_const oob m
  have hga := toGoAbs_nonneg m h.ramp
  obtain ⟨⟨_, _, hi, _⟩, hM, hR, hS, hdw⟩ := h
  suffices h2 : 0 ≤ (DoMotor oob m).motor.Speed ∧
      ((DoMotor oob m).motor.Wait ≠ 0 → (DoMotor oob m).motor.Speed ≠ 0) from
    ⟨hramp, by rw [hconst.2.2.1]; exact hM, by rw [hconst.2.1]; exact hR, h2.1, h2.2⟩
  by_cases hW : m.Wait = 0
  · by_cases hg : toGo m = 0
    · rw [DoMotor_arrived oob m hW hg]
      exact ⟨le_refl _, fun h => absurd hW h⟩
    · by_cases hs : m.Speed = 0
      · rw [DoMotor_start oob m hW hg hs, rampRead_zero]
        exact ⟨by show (0 : Int) ≤ 25; decide, fun _ => by show (25 : Int) ≠ 0; decide⟩
      · by_cases hc : 0 ≤ wrap32 (m.CountDown - m.Speed)
        · rw [DoMotor_coast oob m hW hg hs hc]
          exact ⟨hS, hdw⟩
        · rw [DoMotor_step oob m hW hg hs (by omega)]
          have hv := newSpeed_pos_any oob (stepped m) (toGo m) (toGoAbs m)
            (by show 0 < m.Speed; omega) hM hR
            (by show 0 ≤ m.RampIndex ∧ m.RampIndex + 1 < 2147483648; omega) hga
          rw [(stepDone_speed oob m).1]
          exact ⟨by omega, fun _ => by omega⟩
  · rw [DoMotor_wait oob m hW]
    exact ⟨hS, fun _ => hdw hW⟩

theorem StopInv_of_Reach (init m : stepper_t) (hz : atRest init) (hM : 1 ≤ init.MaxSpeed)
    (hR : isInt32 (NUM_RAMP_STEPS * init.RampStretch))
    (h : Reach whenQuiescentInRange init m) : StopInv m := by
  induction h with
  | init =>
    exact ⟨⟨by rw [hz.2.1]; decide, by rw [hz.1]; decide, by rw [hz.2.2.2.2]; decide,
      fun h => absurd hz.2.2.1 h⟩, hM, hR, by rw [hz.2.2.1], fun h => absurd hz.2.2.2.1 h⟩
  | @tick oob s _ ih => exact DoMotor_StopInv oob s ih
  | @retarget t s _ hok ih =>
    obtain ⟨⟨_, hp, hi, _⟩, h1, h2, h3, h4⟩ := ih
    exact ⟨⟨hok.2, hp, hi, fun h => absurd hok.1.1 h⟩, h1, h2, h3, h4⟩

/-- C29. `Speed == 0` implies `Wait == 0`.  For an axis at rest at the start with
`MaxSpeed >= 1` (and `NUM_RAMP_STEPS * RampStretch` a 32-bit value), in every state
reachable by calls of `DoMotor` and by changes of `Target` made while it is quiescent:
if `Speed` is 0 then `Wait` is 0, and while `Wait` is not 0 `Speed` is positive.  Hence, in
every state the loop reaches from its initial state, the test of lines 381-383, which reads
`Speed` and `Wait` of the draw and tilt axes and only `Speed` of the turret axis, holds
exactly when all three axes are quiescent. -/
theorem C29_stopped_has_no_wait (init m : stepper_t) (hz : atRest init)
    (hM : 1 ≤ init.MaxSpeed) (hR : isInt32 (NUM_RAMP_STEPS * init.RampStretch))
    (h : Reach whenQuiescentInRange init m) :
    (m.Speed = 0 → m.Wait = 0) ∧
    (m.Wait ≠ 0 → 0 < m.Speed) ∧
    (∀ (oob : Int → Nat) (ls : Int) (ins : List TickIn) (inp : TickIn),
      allIdle (motorPhase oob inp.time1 (runLoop oob ins (RunSteppingInit ls))).1 ↔
        quiescent (motorPhase oob inp.time1 (runLoop oob ins (RunSteppingInit ls))).1.motors0 ∧
        quiescent (motorPhase oob inp.time1 (runLoop oob ins (RunSteppingInit ls))).1.motors1 ∧
        quiescent (motorPhase oob inp.time1 (runLoop oob ins (RunSteppingInit ls))).1.motors2) := by
  have hinv := StopInv_of_Reach init m hz hM hR h
  refine ⟨fun hs => ?_, fun hw => ?_, fun oob ls ins inp => ⟨fun hidle => ?_, fun hq => ?_⟩⟩
  · by_contra hw
    exact hinv.dwell hw hs
  · have := hinv.dwell hw
    have := hinv.speed
    omega
  · exact (loopBody_gate oob inp _
      (LoopReach_runLoop oob ins _ ⟨Reach.init, Reach.init, Reach.init⟩)).2.1 hidle
  · exact ⟨hq.1.1, hq.1.2, hq.2.1.1, hq.2.1.2, hq.2.2.1⟩

/-- C29 at the turret axis of `Init` after its target is set to -388 and `DoMotor` is
called once: the axis has started, `Wait` is 1 and `Speed` is positive. -/
theorem C29_stopped_has_no_wait_witness :
    (DoMotor (fun _ => 0) { InitTurret with Target := -388 }).motor.Wait ≠ 0 ∧
    0 < (DoMotor (fun _ => 0) { InitTurret with Target := -388 }).motor.Speed :=
  ⟨by decide,
   (C29_stopped_has_no_wait InitTurret _ (by decide) (by decide) (by decide)
      (Reach.tick (fun _ => 0)
        (Reach.retarget (-388) Reach.init ⟨⟨rfl, rfl⟩, by decide, by decide⟩))).2.1
      (by decide)⟩

/-! ## The closed form of the speed profile (C26) -/

theorem RampUp_getD_le (i j : Nat) (h : i ≤ j) (hj : j < 29) :
    RampUp.getD i 0 ≤ RampUp.getD j 0 := by
  induction j with
  | zero =>
    have : i = 0 := by omega
    rw [this]
  | succ j ih =>
    by_cases hij : i = j + 1
    · rw [hij]
    · exact le_trans (ih (by omega) (by omega)) (RampUp_getD_mono j hj)

theorem RampUp_getD_last : RampUp.getD 28 0 = 128 := by decide

theorem rampRead_nat (oob : Int → Nat) (i : Int) (h0 : 0 ≤ i) (h1 : i < 29) :
    rampRead oob i = RampUp.getD i.toNat 0 := by
  unfold rampRead NUM_RAMP_STEPS
  rw [if_pos ⟨h0, h1⟩]

/-- The ramp computation of the step that brings `Pos` from `p` to `p + 1` gives the closed
form at `p + 1`, the speed before being 25 (no step made yet) or the closed form at `p`. -/
theorem profile_step (oob : Int → Nat) (D M p Sold : Int) (hp : 0 ≤ p) (hpD : p < D)
    (hM : 1 ≤ M)
    (hold : (p = 0 → Sold = 25) ∧ (1 ≤ p → Sold = closedForm D M p)) :
    min (if D - p < 29 ∧
            rampRead oob (D - p) < (if p + 1 < 29 then rampRead oob (p + 1) else Sold)
         then rampRead oob (D - p)
         else (if p + 1 < 29 then rampRead oob (p + 1) else Sold)) M
      = closedForm D M (p + 1) := by
  have hDk : D - (p + 1) + 1 = D - p := by omega
  unfold closedForm
  rw [hDk]
  by_cases hk : p + 1 < 29
  · rw [if_pos hk, rampRead_nat oob (p + 1) (by omega) hk,
      show min (p + 1) 28 = p + 1 by omega]
    have bk := RampUp_getD_bounds (p + 1).toNat (by omega)
    by_cases hg : D - p < 29
    · rw [rampRead_nat oob (D - p) (by omega) hg, show min (D - p) 28 = D - p by omega]
      split <;> omega
    · rw [if_neg (fun h => hg h.1), show min (D - p) 28 = 28 by omega]
      have := RampUp_getD_last
      rw [show (28 : Int).toNat = 28 by rfl]
      omega
  · rw [if_neg hk, show min (p + 1) 28 = 28 by omega, show (28 : Int).toNat = 28 by rfl,
      RampUp_getD_last]
    have hS := hold.2 (by omega)
    unfold closedForm at hS
    rw [show min p 28 = 28 by omega, show (28 : Int).toNat = 28 by rfl,
      RampUp_getD_last] at hS
    by_cases hg : D - p < 29
    · rw [rampRead_nat oob (D - p) (by omega) hg, show min (D - p) 28 = D - p by omega]
      have hmono := RampUp_getD_le (D - p).toNat (min (D - p + 1) 28).toNat
        (by omega) (by omega)
      have bg := RampUp_getD_bounds (D - p).toNat (by omega)
      rw [hS]
      split <;> omega
    · rw [if_neg (fun h => hg h.1), show min (D - p) 28 = 28 by omega,
        show (28 : Int).toNat = 28 by rfl, RampUp_getD_last, hS]
      rw [show min (D - p + 1) 28 = 28 by omega, show (28 : Int).toNat = 28 by rfl,
        RampUp_getD_last]
      omega

theorem rampDownStep_reads (oob : Int → Nat) (m : stepper_t) (g a : Int) :
    ∀ i ∈ (rampDownStep oob m g a).2,
      a < wrap32 (NUM_RAMP_STEPS * m.RampStretch) ∧ (i = g ∨ i = Int.tdiv a m.RampStretch) := by
  intro i hi
  unfold rampDownStep at hi
  split at hi
  · rename_i h
    split at hi
    · simp only [List.mem_cons, List.mem_singleton, List.not_mem_nil, or_false] at hi
      exact ⟨h, hi⟩
    · simp only [List.mem_singleton] at hi
      exact ⟨h, Or.inl hi⟩
  · simp at hi

/-- One call of `DoMotor` in a positive move of an axis with `RampStretch = 1`: the
invariant is kept, `Pos` stays or advances by one step, the step leaving the closed form
as `Speed`, and every table read of the call is inside the table. -/
theorem DoMotor_ProfInv (oob : Int → Nat) (D : Int) (s : stepper_t) (h : ProfInv D s) :
    ProfInv D (DoMotor oob s).motor ∧
    ((DoMotor oob s).motor.Pos = s.Pos ∨
      ((DoMotor oob s).motor.Pos = s.Pos + 1 ∧
       (DoMotor oob s).motor.Speed = closedForm D s.MaxSpeed (s.Pos + 1))) ∧
    readsInTable oob s = true := by
  obtain ⟨ht, hrs, hM, hD, hp, hw, hrest, hrun⟩ := h
  have htg : toGo s = D - s.Pos := by
    unfold toGo; rw [ht]; apply wrap32_eq_self <;> omega
  unfold readsInTable
  by_cases hW : s.Wait = 0
  · by_cases hg : toGo s = 0
    · rw [DoMotor_arrived oob s hW hg]
      have hpD : s.Pos = D := by rw [htg] at hg; omega
      exact ⟨⟨ht, hrs, hM, hD, hp, hw, fun _ => Or.inr hpD, fun h => absurd rfl h⟩,
        Or.inl rfl, rfl⟩
    · have hpD : s.Pos < D := by rw [htg] at hg; omega
      by_cases hs : s.Speed = 0
      · have hp0 : s.Pos = 0 := by
          rcases hrest hs with h | h
          · exact h
          · omega
        rw [DoMotor_start oob s hW hg hs, rampRead_zero]
        refine ⟨⟨ht, hrs, hM, hD, hp, by simp, fun h => absurd h (by simp), fun _ => ?_⟩,
          Or.inl rfl, by show ([0] : List Int).all _ = true; decide⟩
        refine ⟨?_, hp0.symm, fun _ => rfl, fun h1 => ?_, fun _ => by simp⟩
        · show (if toGo s > 0 then (1 : Int) else -1) = 1
          rw [htg, if_pos (by omega)]
        · have h1' : 1 ≤ s.Pos := h1
          omega
      · obtain ⟨hd, hri, h25, hcf, hcd⟩ := hrun hs
        obtain ⟨hc0, hc1⟩ := hcd hpD
        have hsp : 1 ≤ s.Speed ∧ s.Speed ≤ 128 := by
          by_cases h0 : s.Pos = 0
          · rw [h25 h0]; decide
          · have := hcf (by omega)
            unfold closedForm at this
            have b1 := RampUp_getD_bounds (min s.Pos 28).toNat (by omega)
            have b2 := RampUp_getD_bounds (min (D - s.Pos + 1) 28).toNat (by omega)
            omega
        have hcdw : wrap32 (s.CountDown - s.Speed) = s.CountDown - s.Speed := by
          apply wrap32_eq_self <;> omega
        by_cases hc : 0 ≤ wrap32 (s.CountDown - s.Speed)
        · rw [DoMotor_coast oob s hW hg hs hc]
          refine ⟨⟨ht, hrs, hM, hD, hp, hw, fun h => absurd h hs, fun _ => ?_⟩,
            Or.inl rfl, rfl⟩
          refine ⟨hd, hri, h25, hcf, fun _ => ?_⟩
          show 0 ≤ wrap32 (s.CountDown - s.Speed) ∧ wrap32 (s.CountDown - s.Speed) ≤ 255
          rw [hcdw] at hc ⊢
          omega
        · rw [DoMotor_step oob s hW hg hs (by omega)]
          have hga : toGoAbs s = D - s.Pos := by
            unfold toGoAbs; rw [htg, if_neg (by omega)]
          have hpos' : wrap32 (s.Pos + s.Dir) = s.Pos + 1 := by
            rw [hd]; apply wrap32_eq_self <;> omega
          have hri' : wrap32 (s.RampIndex + 1) = s.Pos + 1 := by
            rw [hri]; apply wrap32_eq_self <;> omega
          have h29 : wrap32 (NUM_RAMP_STEPS * 1) = 29 := by decide
          -- the new speed
          have hv : (newSpeed oob (stepped s) (toGo s) (toGoAbs s)).1.Speed
              = closedForm D s.MaxSpeed (s.Pos + 1) := by
            rw [newSpeed_eq, rampUpStep_speed]
            have e1 : (stepped s).MaxSpeed = s.MaxSpeed := rfl
            have e2 : (stepped s).RampStretch = s.RampStretch := rfl
            have e3 : (stepped s).RampIndex = s.RampIndex := rfl
            have e4 : (stepped s).Speed = s.Speed := rfl
            rw [e1, e2, e3, e4, hrs, h29, hri', htg, hga, Int.tdiv_one, Int.tdiv_one]
            exact profile_step oob D s.MaxSpeed s.Pos s.Speed hp.1 hpD hM ⟨h25, hcf⟩
          have hv1 : 1 ≤ closedForm D s.MaxSpeed (s.Pos + 1) := by
            unfold closedForm
            have b1 := RampUp_getD_bounds (min (s.Pos + 1) 28).toNat (by omega)
            have b2 := RampUp_getD_bounds (min (D - (s.Pos + 1) + 1) 28).toNat (by omega)
            omega
          -- the reads
          have hreads : ((stepDone oob s).reads.all
              (fun i => decide (0 ≤ i ∧ i < NUM_RAMP_STEPS))) = true := by
            have hr : (stepDone oob s).reads
                = (newSpeed oob (stepped s) (toGo s) (toGoAbs s)).2 := by
              unfold stepDone; split <;> rfl
            rw [hr, List.all_eq_true]
            intro i hi
            rw [decide_eq_true_eq]
            unfold newSpeed at hi
            rw [List.mem_append] at hi
            rcases hi with hi | hi
            · exact rampUpStep_reads oob (stepped s)
                (by show 0 ≤ s.RampIndex; omega)
                (by show s.RampIndex + 1 < 2147483648; omega)
                (by show 1 ≤ s.RampStretch; omega) i hi
            · obtain ⟨hlt, hor⟩ := rampDownStep_reads oob _ _ _ i hi
              rw [(rampUpStep_const oob (stepped s)).2] at hlt hor
              have e2 : (stepped s).RampStretch = s.RampStretch := rfl
              rw [e2, hrs, h29, hga] at hlt
              rw [e2, hrs, Int.tdiv_one, hga, htg] at hor
              unfold NUM_RAMP_STEPS
              omega
          obtain ⟨v, hveq, ⟨hne, heq⟩ | ⟨hat, heq⟩⟩ := stepDone_cases oob s
          · rw [heq] at hreads ⊢
            rw [hv] at hveq
            rw [hpos', ht] at hne
            rw [hpos', hri', hcdw, hveq]
            rw [hcdw] at hc
            have hcd2 : wrap32 (s.CountDown - s.Speed + 256) = s.CountDown - s.Speed + 256 := by
              apply wrap32_eq_self <;> omega
            rw [hcd2]
            refine ⟨⟨ht, hrs, hM, hD, ?_, hw, ?_, fun _ => ⟨hd, rfl, ?_, fun _ => rfl, ?_⟩⟩,
              Or.inr ⟨rfl, rfl⟩, hreads⟩
            · show 0 ≤ s.Pos + 1 ∧ s.Pos + 1 ≤ D
              omega
            · intro h0
              have h0' : closedForm D s.MaxSpeed (s.Pos + 1) = 0 := h0
              omega
            · intro h0
              have h0' : s.Pos + 1 = 0 := h0
              omega
            · intro _
              show 0 ≤ s.CountDown - s.Speed + 256 ∧ s.CountDown - s.Speed + 256 ≤ 255
              omega
          · rw [heq] at hreads ⊢
            rw [hv] at hveq
            rw [hpos', ht] at hat
            rw [hpos', hri', hcdw, hveq]
            refine ⟨⟨ht, hrs, hM, hD, ?_, by simp, ?_, fun _ => ⟨hd, rfl, ?_, fun _ => rfl, ?_⟩⟩,
              Or.inr ⟨rfl, rfl⟩, hreads⟩
            · show 0 ≤ s.Pos + 1 ∧ s.Pos + 1 ≤ D
              omega
            · intro h0
              have h0' : closedForm D s.MaxSpeed (s.Pos + 1) = 0 := h0
              omega
            · intro h0
              have h0' : s.Pos + 1 = 0 := h0
              omega
            · intro h0
              have h0' : s.Pos + 1 < D := h0
              omega
  · rw [DoMotor_wait oob s hW]
    have hw' : wrap32 (s.Wait - 1) = s.Wait - 1 := by apply wrap32_eq_self <;> omega
    exact ⟨⟨ht, hrs, hM, hD, hp, by simp only [hw']; omega, hrest, hrun⟩, Or.inl rfl, rfl⟩

theorem ProfInv_ticks (oob : Int → Nat) (D : Int) :
    ∀ (n : Nat) (s : stepper_t), ProfInv D s → ProfInv D (ticks oob n s) := by
  intro n
  induction n with
  | zero => intro s h; exact h
  | succ n ih => intro s h; exact ih _ (DoMotor_ProfInv oob D s h).1

theorem ticks_MaxSpeed (oob : Int → Nat) :
    ∀ (n : Nat) (s : stepper_t), (ticks oob n s).MaxSpeed = s.MaxSpeed := by
  intro n
  induction n with
  | zero => intro s; rfl
  | succ n ih => intro s; rw [ticks, ih, (DoMotor_const oob s).2.2.1]

/-- A position that advances by one step at a time passes through every value between
its first and its last. -/
theorem pos_passes (f : Nat → Int) :
    ∀ n : Nat, (∀ j, j < n → f (j + 1) = f j ∨ f (j + 1) = f j + 1) →
      ∀ k : Int, f 0 < k → k ≤ f n → ∃ j, j < n ∧ f j = k - 1 ∧ f (j + 1) = k := by
  intro n
  induction n with
  | zero => intro _ k h1 h2; omega
  | succ n ih =>
    intro hstep k h1 h2
    by_cases hk : k ≤ f n
    · obtain ⟨j, hj, hj1, hj2⟩ := ih (fun j hj => hstep j (by omega)) k h1 hk
      exact ⟨j, by omega, hj1, hj2⟩
    · rcases hstep n (by omega) with h | h
      · omega
      · exact ⟨n, by omega, by omega, by omega⟩

/-- C26. Closed form of the speed profile.  An axis with `RampStretch = 1` and
`MaxSpeed >= 1`, at rest at 0, is given the target `D >= 1` and `DoMotor` is called
repeatedly.  Whatever lies outside the table: every `k` from 1 to `D` is the number of a
step, completed by some call, and after that call `Speed` is
`min(RampUp[min(k, 28)], RampUp[min(D - k + 1, 28)], MaxSpeed)`; after any number of calls,
while the axis runs with `k >= 1` steps made, `Speed` is that value for `k = Pos`; and every
table read made by any of the calls is inside the table. -/
theorem C26_speed_profile (oob : Int → Nat) (m0 : stepper_t) (D : Int)
    (h0 : m0.Pos = 0 ∧ m0.Speed = 0 ∧ m0.Wait = 0) (hRS : m0.RampStretch = 1)
    (hM : 1 ≤ m0.MaxSpeed) (hT : m0.Target = D) (hD : 1 ≤ D ∧ D ≤ 2147483646) :
    (∀ k : Int, 1 ≤ k → k ≤ D →
      ∃ n, (ticks oob n m0).Pos = k - 1 ∧ (ticks oob (n + 1) m0).Pos = k ∧
        (ticks oob (n + 1) m0).Speed = closedForm D m0.MaxSpeed k) ∧
    (∀ n, 1 ≤ (ticks oob n m0).Pos → (ticks oob n m0).Speed ≠ 0 →
      (ticks oob n m0).Speed = closedForm D m0.MaxSpeed (ticks oob n m0).Pos) ∧
    (∀ n, readsInTable oob (ticks oob n m0) = true) := by
  have hinv : ProfInv D m0 :=
    ⟨hT, hRS, hM, hD, by omega, by omega, fun _ => Or.inl h0.1, fun h => absurd h0.2.1 h⟩
  have hall := fun n => ProfInv_ticks oob D n m0 hinv
  have hmove : MoveInv D m0 :=
    ⟨hT, by unfold isInt32; omega, by unfold between0; omega, by omega, by omega, by omega,
      fun h => absurd h0.2.1 h⟩
  obtain ⟨N, hset, _, _⟩ := settles_of_MoveInv oob D (moveMeasure m0) m0 (le_refl _) hmove
  have hend : (ticks oob N m0).Pos = D := by
    rw [hset.1, (hall N).target]
  refine ⟨fun k hk1 hkD => ?_, fun n hp hs => ?_, fun n => (DoMotor_ProfInv oob D _ (hall n)).2.2⟩
  · have hstep : ∀ j, j < N → (ticks oob (j + 1) m0).Pos = (ticks oob j m0).Pos ∨
        (ticks oob (j + 1) m0).Pos = (ticks oob j m0).Pos + 1 := by
      intro j _
      rw [ticks_succ_right]
      rcases (DoMotor_ProfInv oob D _ (hall j)).2.1 with h | h
      · exact Or.inl h
      · exact Or.inr h.1
    obtain ⟨j, _, hj1, hj2⟩ := pos_passes (fun j => (ticks oob j m0).Pos) N hstep k
      (by show (ticks oob 0 m0).Pos < k; rw [show ticks oob 0 m0 = m0 from rfl, h0.1]; omega)
      (by show k ≤ (ticks oob N m0).Pos; rw [hend]; exact hkD)
    have hj1' : (ticks oob j m0).Pos = k - 1 := hj1
    have hj2' : (ticks oob (j + 1) m0).Pos = k := hj2
    refine ⟨j, hj1', hj2', ?_⟩
    rw [ticks_succ_right] at hj2' ⊢
    rcases (DoMotor_ProfInv oob D _ (hall j)).2.1 with h | h
    · omega
    · rw [h.2, ticks_MaxSpeed, hj1']
      congr 1
      omega
  · have := ((hall n).run hs).2.2.2.1 hp
    rw [ticks_MaxSpeed] at this
    exact this

/-- C26 at the worked example: the draw axis of `Init` sent from 0 to 1000. -/
theorem C26_speed_profile_witness :
    (∀ k : Int, 1 ≤ k → k ≤ 1000 →
      ∃ n, (ticks (fun _ => 0) n example1000).Pos = k - 1 ∧
        (ticks (fun _ => 0) (n + 1) example1000).Pos = k ∧
        (ticks (fun _ => 0) (n + 1) example1000).Speed
          = closedForm 1000 example1000.MaxSpeed k) ∧
    (∀ n, 1 ≤ (ticks (fun _ => 0) n example1000).Pos →
      (ticks (fun _ => 0) n example1000).Speed ≠ 0 →
      (ticks (fun _ => 0) n example1000).Speed
        = closedForm 1000 example1000.MaxSpeed (ticks (fun _ => 0) n example1000).Pos) ∧
    (∀ n, readsInTable (fun _ => 0) (ticks (fun _ => 0) n example1000) = true) :=
  C26_speed_profile (fun _ => 0) example1000 1000 (by decide) (by decide) (by decide)
    (by decide) (by decide)

/-! ## The JPEG name filter (C30) -/

theorem lowerByte_iff (c : Nat) :
    (lowerByte c = 46 ↔ c = 46) ∧ (lowerByte c = 106 ↔ c = 106 ∨ c = 74) ∧
    (lowerByte c = 112 ↔ c = 112 ∨ c = 80) ∧ (lowerByte c = 101 ↔ c = 101 ∨ c = 69) ∧
    (lowerByte c = 103 ↔ c = 103 ∨ c = 71) := by
  unfold lowerByte
  split <;> omega

theorem last_five (name : List Nat) (h : 5 ≤ name.length) :
    ∃ pre c5 c4 c3 c2 c1, name = pre ++ [c5, c4, c3, c2, c1] := by
  have hd : (name.drop (name.length - 5)).length = 5 := by
    rw [List.length_drop]; omega
  obtain ⟨c5, c4, c3, c2, c1, hc⟩ : ∃ c5 c4 c3 c2 c1,
      name.drop (name.length - 5) = [c5, c4, c3, c2, c1] := by
    generalize name.drop (name.length - 5) = t at hd
    rcases t with _ | ⟨a0, _ | ⟨a1, _ | ⟨a2, _ | ⟨a3, _ | ⟨a4, _ | ⟨a5, t⟩⟩⟩⟩⟩⟩ <;> simp at hd
    exact ⟨a0, a1, a2, a3, a4, rfl⟩
  refine ⟨name.take (name.length - 5), c5, c4, c3, c2, c1, ?_⟩
  rw [← hc, List.take_append_drop]

/-- The bytes that the filter reads at the end of a name of five bytes or more. -/
theorem byteAt_last (pre : List Nat) (c5 c4 c3 c2 c1 : Nat) (k : Nat) (hk : 1 ≤ k ∧ k ≤ 5) :
    byteAt (pre ++ [c5, c4, c3, c2, c1])
        (((pre ++ [c5, c4, c3, c2, c1]).length : Int) - (k : Int))
      = [c5, c4, c3, c2, c1].getD (5 - k) 0 := by
  have hl : (pre ++ [c5, c4, c3, c2, c1]).length = pre.length + 5 := by simp
  unfold byteAt
  rw [hl, if_pos (by push_cast; omega)]
  have hn : (((pre.length + 5 : Nat) : Int) - (k : Int)).toNat = pre.length + (5 - k) := by
    omega
  rw [hn, List.getD_append_right _ _ _ _ (by omega)]
  congr 1
  omega

/-- The filter on a name of five bytes or more that was not zeroed: what it requires of
the last five bytes. -/
theorem useName_last (pre : List Nat) (c5 c4 c3 c2 c1 : Nat)
    (h0 : byteAt (pre ++ [c5, c4, c3, c2, c1]) 0 ≠ 0) :
    ((useName (pre ++ [c5, c4, c3, c2, c1])).1 = true ↔
      (c1 = 103 ∨ c1 = 71) ∧
      (((c2 = 101 ∨ c2 = 69) ∧ (c3 = 112 ∨ c3 = 80) ∧ (c4 = 106 ∨ c4 = 74) ∧ c5 = 46) ∨
       ((c2 = 112 ∨ c2 = 80) ∧ (c3 = 106 ∨ c3 = 74) ∧ c4 = 46))) ∧
    (∀ i ∈ (useName (pre ++ [c5, c4, c3, c2, c1])).2,
      0 ≤ i ∧ i < ((pre ++ [c5, c4, c3, c2, c1]).length : Int)) := by
  have b1 := byteAt_last pre c5 c4 c3 c2 c1 1 (by omega)
  have b2 := byteAt_last pre c5 c4 c3 c2 c1 2 (by omega)
  have b3 := byteAt_last pre c5 c4 c3 c2 c1 3 (by omega)
  have b4 := byteAt_last pre c5 c4 c3 c2 c1 4 (by omega)
  have b5 := byteAt_last pre c5 c4 c3 c2 c1 5 (by omega)
  have hl : (5 : Int) ≤ ((pre ++ [c5, c4, c3, c2, c1]).length : Int) := by
    have : (pre ++ [c5, c4, c3, c2, c1]).length = pre.length + 5 := by simp
    omega
  generalize pre ++ [c5, c4, c3, c2, c1] = name at *
  generalize hL : (name.length : Int) = L at *
  simp only [Nat.cast_ofNat, Nat.cast_one] at b1 b2 b3 b4 b5
  have v1 : [c5, c4, c3, c2, c1].getD (5 - 1) 0 = c1 := rfl
  have v2 : [c5, c4, c3, c2, c1].getD (5 - 2) 0 = c2 := rfl
  have v3 : [c5, c4, c3, c2, c1].getD (5 - 3) 0 = c3 := rfl
  have v4 : [c5, c4, c3, c2, c1].getD (5 - 4) 0 = c4 := rfl
  have v5 : [c5, c4, c3, c2, c1].getD (5 - 5) 0 = c5 := rfl
  rw [v1] at b1
  rw [v2] at b2
  rw [v3] at b3
  rw [v4] at b4
  rw [v5] at b5
  have hle : lenAfterE name = if c2 = 101 ∨ c2 = 69 then L - 1 else L := by
    unfold lenAfterE
    rw [hL, b2]
  unfold useName
  rw [hL, hle, if_neg h0, if_neg (by omega), b1]
  by_cases he : c2 = 101 ∨ c2 = 69
  · rw [if_pos he, show L - 1 - 2 = L - 3 by omega, show L - 1 - 3 = L - 4 by omega,
      show L - 1 - 4 = L - 5 by omega, b3, b4, b5]
    split_ifs <;> refine ⟨by simp only [Bool.false_eq_true, false_iff, true_iff]; omega, ?_⟩ <;>
      intro i hi <;>
      simp only [List.mem_cons, List.mem_singleton, List.not_mem_nil, or_false] at hi <;>
      omega
  · rw [if_neg he, b2, b3, b4]
    split_ifs <;> refine ⟨by simp only [Bool.false_eq_true, false_iff, true_iff]; omega, ?_⟩ <;>
      intro i hi <;>
      simp only [List.mem_cons, List.mem_singleton, List.not_mem_nil, or_false] at hi <;>
      omega

theorem endsIn_last (pre : List Nat) (c5 c4 c3 c2 c1 : Nat) :
    (endsIn (pre ++ [c5, c4, c3, c2, c1]) [46, 106, 112, 103] ↔
      lowerByte c4 = 46 ∧ lowerByte c3 = 106 ∧ lowerByte c2 = 112 ∧ lowerByte c1 = 103) ∧
    (endsIn (pre ++ [c5, c4, c3, c2, c1]) [46, 106, 112, 101, 103] ↔
      lowerByte c5 = 46 ∧ lowerByte c4 = 106 ∧ lowerByte c3 = 112 ∧ lowerByte c2 = 101 ∧
      lowerByte c1 = 103) := by
  have hl : (pre ++ [c5, c4, c3, c2, c1]).length = pre.length + 5 := by simp
  have d4 : (pre ++ [c5, c4, c3, c2, c1]).drop (pre.length + 5 - 4) = [c4, c3, c2, c1] := by
    rw [show pre.length + 5 - 4 = pre.length + 1 by omega, List.drop_append]
    rfl
  have d5 : (pre ++ [c5, c4, c3, c2, c1]).drop (pre.length + 5 - 5) = [c5, c4, c3, c2, c1] := by
    rw [show pre.length + 5 - 5 = pre.length + 0 by omega, List.drop_append]
    rfl
  unfold endsIn
  rw [hl]
  constructor
  · rw [show ([46, 106, 112, 103] : List Nat).length = 4 from rfl, d4]
    simp only [List.map_cons, List.map_nil, List.cons.injEq, and_true]
    constructor
    · intro h; exact h.2
    · intro h; exact ⟨by omega, h⟩
  · rw [show ([46, 106, 112, 101, 103] : List Nat).length = 5 from rfl, d5]
    simp only [List.map_cons, List.map_nil, List.cons.injEq, and_true]
    constructor
    · intro h; exact h.2
    · intro h; exact ⟨by omega, h⟩

/-- The filter decides as the specification states, on a C string. -/
theorem useName_spec (name : List Nat) (hstr : ∀ c ∈ name, c ≠ 0) :
    ((useName name).1 = true ↔ isJpegName name) ∧
    (∀ i ∈ (useName name).2, 0 ≤ i ∧ i ≤ (name.length : Int)) := by
  by_cases h5 : 5 ≤ name.length
  · obtain ⟨pre, c5, c4, c3, c2, c1, hn⟩ := last_five name h5
    have h0 : byteAt name 0 ≠ 0 := by
      unfold byteAt
      rw [if_pos (le_refl _)]
      cases name with
      | nil => simp at h5
      | cons a t => exact hstr a (List.mem_cons_self _ _)
    rw [hn] at h0 ⊢
    obtain ⟨u1, u2⟩ := useName_last pre c5 c4 c3 c2 c1 h0
    obtain ⟨e4, e5⟩ := endsIn_last pre c5 c4 c3 c2 c1
    refine ⟨?_, fun i hi => ⟨(u2 i hi).1, le_of_lt (u2 i hi).2⟩⟩
    rw [u1]
    unfold isJpegName
    rw [e4, e5]
    have l1 := lowerByte_iff c1
    have l2 := lowerByte_iff c2
    have l3 := lowerByte_iff c3
    have l4 := lowerByte_iff c4
    have l5 := lowerByte_iff c5
    have hlen : 5 ≤ (pre ++ [c5, c4, c3, c2, c1]).length := by simp
    rw [l1.2.2.2.2, l2.2.2.1, l2.2.2.2.1, l3.2.1, l3.2.2.1, l4.1, l4.2.1, l5.1]
    constructor
    · rintro ⟨g, h | h⟩
      · exact ⟨hlen, Or.inr ⟨h.2.2.2, h.2.2.1, h.2.1, h.1, g⟩⟩
      · exact ⟨hlen, Or.inl ⟨h.2.2, h.2.1, h.1, g⟩⟩
    · rintro ⟨_, h | h⟩
      · exact ⟨h.2.2.2, Or.inr ⟨h.2.2.1, h.2.1, h.1⟩⟩
      · exact ⟨h.2.2.2.2, Or.inl ⟨h.2.2.2.1, h.2.2.1, h.2.1, h.1⟩⟩
  · have hres : useName name = (false, [0]) := by
      unfold useName
      split
      · rfl
      · rw [if_pos (by omega)]
    rw [hres]
    refine ⟨?_, fun i hi => ?_⟩
    · unfold isJpegName
      constructor
      · intro h; exact absurd h (by simp)
      · intro h; exact absurd h.1 h5
    · simp only [List.mem_singleton] at hi
      omega

/-- C30. JPEG name filter.  A directory entry name (a C string) that is not the name of
one of the last two pictures is loaded exactly when it has at least 5 bytes and ends,
compared case-insensitively byte by byte, in `.jpg` or `.jpeg`; a name that was already
processed is skipped; and every index at which the name is read lies between 0 and its
length, so the check never reads before the first byte. -/
theorem C30_jpeg_name_filter (last0 last1 name : List Nat) (hstr : ∀ c ∈ name, c ≠ 0) :
    (name ≠ last0 → name ≠ last1 →
      ((useName (markSeen last0 last1 name)).1 = true ↔ isJpegName name)) ∧
    (name = last0 ∨ name = last1 → (useName (markSeen last0 last1 name)).1 = false) ∧
    (∀ i ∈ (useName (markSeen last0 last1 name)).2,
      0 ≤ i ∧ i ≤ ((markSeen last0 last1 name).length : Int)) := by
  refine ⟨fun h0 h1 => ?_, fun h => ?_, ?_⟩
  · have : markSeen last0 last1 name = name := by
      unfold markSeen; rw [if_neg (by intro h; rcases h with h | h <;> contradiction)]
    rw [this]
    exact (useName_spec name hstr).1
  · have : markSeen last0 last1 name = [] := by
      unfold markSeen; rw [if_pos h]
    rw [this]
    rfl
  · have hm : ∀ c ∈ markSeen last0 last1 name, c ≠ 0 := by
      unfold markSeen
      split
      · intro c hc; simp at hc
      · exact hstr
    exact (useName_spec _ hm).2

/-- C30 at the names `a.jpg`, which is loaded, and `x.txt`, which is not, the last two
pictures being `b.jpg` and `c.jpg`. -/
theorem C30_jpeg_name_filter_witness :
    (useName (markSeen [98, 46, 106, 112, 103] [99, 46, 106, 112, 103]
      [97, 46, 106, 112, 103])).1 = true ∧
    isJpegName [97, 46, 106, 112, 103] ∧
    ¬ isJpegName [120, 46, 116, 120, 116] :=
  ⟨((C30_jpeg_name_filter [98, 46, 106, 112, 103] [99, 46, 106, 112, 103]
      [97, 46, 106, 112, 103] (by decide)).1 (by decide) (by decide)).mpr (by decide),
   by decide, by decide⟩

end Stepper
